import Mathlib

/-!
# Command interpretation engine of the Delve terminal (`pkg/terminal/command.go`)

A shallow embedding of the command registry (`Commands`, `Register`, `Find`, `Merge`,
`DebugCommands`), of the re-entrant dispatch (`CallWithContext`, `goroutine`, `frame`, `onCmd`)
and of the execution handlers, followed by theorems about their behaviour.

Conventions of the embedding.

* Go strings are `String`; the tokenising functions work on the list of characters.
* A Go `error` result is `Option Err` (`none` is `nil`); a run-time panic is a separate outcome.
* `cmdfunc` values are compared by identity in Go; they are embedded as the constructors of an
  enumeration, and `run` gives each constructor the body of the Go function.
* The debugging service (`service.Client`) is an external collaborator.  Its answers are
  arbitrary functions of the requests it has received so far, so every deterministic service is
  covered; the requests are recorded in the terminal's `log`, together with what was displayed.
-/

set_option autoImplicit false

namespace Delve

/-! ## Go library functions -/

/-- Go `unicode.IsSpace`: the Unicode white-space property. -/
def isSpace (ch : Char) : Bool :=
  let n := ch.toNat
  n == 0x09 || n == 0x0A || n == 0x0B || n == 0x0C || n == 0x0D || n == 0x20 ||
  n == 0x85 || n == 0xA0 || n == 0x1680 || (0x2000 ≤ n && n ≤ 0x200A) ||
  n == 0x2028 || n == 0x2029 || n == 0x202F || n == 0x205F || n == 0x3000

/-- Drop the leading white space of a character list. -/
def trimLeft : List Char → List Char
  | [] => []
  | ch :: cs => if isSpace ch then trimLeft cs else ch :: cs

/-- Drop the trailing white space of a character list. -/
def trimRight : List Char → List Char
  | [] => []
  | ch :: cs =>
    match trimRight cs with
    | [] => if isSpace ch then [] else [ch]
    | r :: rs => ch :: r :: rs

/-- Go `strings.TrimSpace`. -/
def TrimSpace (s : String) : String := ⟨trimRight (trimLeft s.data)⟩

/-- Cut a character list at its first blank: the part before it and, when there is a blank,
the part after it. -/
def cutAtBlank : List Char → List Char × Option (List Char)
  | [] => ([], none)
  | ch :: cs =>
    if ch = ' ' then ([], some cs)
    else ((ch :: (cutAtBlank cs).1), (cutAtBlank cs).2)

/-- Go `strings.SplitN(s, " ", 2)`: one element when `s` has no blank (also for the empty
string), otherwise the text before the first blank and the text after it. -/
def SplitN2 (s : String) : List String :=
  match cutAtBlank s.data with
  | (a, none) => [⟨a⟩]
  | (a, some b) => [⟨a⟩, ⟨b⟩]

/-- Go `strings.Split(s, " ")` on a character list. -/
def splitBlanks : List Char → List (List Char)
  | [] => [[]]
  | ch :: cs =>
    if ch = ' ' then [] :: splitBlanks cs
    else
      match splitBlanks cs with
      | [] => [[ch]]
      | w :: ws => (ch :: w) :: ws

/-- Go `strings.Split(s, " ")`. -/
def Split (s : String) : List String := (splitBlanks s.data).map String.mk

/-- Errors. `noCmdError` is the package-level sentinel; `new` is a value made by `errors.New`
or `fmt.Errorf` in a handler; `numError` is the error of `strconv.Atoi`; `service` is an error
coming from the debugging service or the operating system; `exitRequest` is
`ExitRequestError`. -/
inductive Err where
  | noCmdError
  | new (msg : String)
  | numError (input : String)
  | service (msg : String)
  | exitRequest
  deriving DecidableEq, Repr

/-- Value of a run of decimal digits, read left to right from the accumulator `acc`;
`none` when a character is not a decimal digit. -/
def parseDigits : List Char → Nat → Option Nat
  | [], acc => some acc
  | ch :: cs, acc =>
    if '0' ≤ ch ∧ ch ≤ '9' then parseDigits cs (acc * 10 + (ch.toNat - '0'.toNat)) else none

/-- Go `strconv.Atoi` for a 64-bit `int`: an optional sign, then at least one decimal digit,
the value within the range of `int`. -/
def Atoi (s : String) : Except Err Int :=
  let digits (neg : Bool) (ds : List Char) : Except Err Int :=
    match ds with
    | [] => .error (.numError s)
    | _ =>
      match parseDigits ds 0 with
      | none => .error (.numError s)
      | some n =>
        if neg then (if n ≤ 2 ^ 63 then .ok (-(n : Int)) else .error (.numError s))
        else (if n < 2 ^ 63 then .ok (n : Int) else .error (.numError s))
  match s.data with
  | '-' :: ds => digits true ds
  | '+' :: ds => digits false ds
  | ds => digits false ds

/-! ## Types of the service API (`service/api`) -/

namespace api

/-- Modelled from the spec: `api.EvalScope`, the (goroutine, frame) pair of section 3,
whose declaration is not part of the sources. -/
structure EvalScope where
  GoroutineID : Int
  Frame : Int
  deriving DecidableEq, Repr

/-- Modelled from the spec: `api.LoadConfig`, five positional fields as in the literals
`LongLoadConfig` and `ShortLoadConfig`. -/
structure LoadConfig where
  FollowPointers : Bool
  MaxVariableRecurse : Int
  MaxStringLen : Int
  MaxArrayValues : Int
  MaxStructFields : Int
  deriving DecidableEq, Repr

/-- Modelled from the spec: `api.Function`, with the fields the terminal reads. -/
structure Function where
  Name : String
  Optimized : Bool
  deriving DecidableEq, Repr

/-- Modelled from the spec: `api.Location`, the (address, file, line, function) tuple of
section 6. -/
structure Location where
  PC : Nat
  File : String
  Line : Int
  Function : Option Function
  deriving DecidableEq, Repr

/-- Modelled from the spec: `api.Breakpoint` (section 3), with the fields the terminal reads
or writes. `LoadArgs` and `LoadLocals` are pointers, `none` when nil. -/
structure Breakpoint where
  ID : Int
  Name : String
  Addr : Nat
  File : String
  Line : Int
  FunctionName : String
  Cond : String
  Tracepoint : Bool
  Goroutine : Bool
  Stacktrace : Int
  Variables : List String
  LoadArgs : Option LoadConfig
  LoadLocals : Option LoadConfig
  TotalHitCount : Nat
  deriving DecidableEq, Repr

/-- Modelled from the spec: `api.Goroutine`, with the fields the terminal reads. -/
structure Goroutine where
  ID : Int
  CurrentLoc : Location
  UserCurrentLoc : Location
  GoStatementLoc : Location
  ThreadID : Int
  deriving DecidableEq, Repr

/-- Modelled from the spec: `api.Variable`, reduced to its name and rendered value. -/
structure Variable where
  Name : String
  Value : String
  deriving DecidableEq, Repr

/-- Modelled from the spec: `api.Stackframe`, reduced to its location. -/
structure Stackframe where
  Loc : Location
  deriving DecidableEq, Repr

/-- Modelled from the spec: `api.BreakpointInfo`, what was collected when a breakpoint was
hit, with the fields `printcontextThread` reads. `Stacktrace` is a slice that may be nil and
`Goroutine` a pointer. -/
structure BreakpointInfo where
  Stacktrace : Option (List Stackframe)
  Goroutine : Option Goroutine
  Variables : List Variable
  Arguments : List Variable
  Locals : List Variable
  deriving DecidableEq, Repr

/-- Modelled from the spec: `api.Thread`, with the fields the terminal reads. `Function`,
`Breakpoint` and `BreakpointInfo` are pointers, `none` when nil. -/
structure Thread where
  ID : Int
  PC : Nat
  File : String
  Line : Int
  Function : Option Function
  GoroutineID : Int
  Breakpoint : Option Breakpoint
  BreakpointInfo : Option BreakpointInfo
  deriving DecidableEq, Repr

/-- Modelled from the spec: `api.DebuggerState` (section 6): current thread, selected
goroutine, the "more stepping to do" flag, an error slot, the "when" label, and the list of
the threads (a slice of pointers: an element is `none` when nil). -/
structure DebuggerState where
  CurrentThread : Option Thread
  SelectedGoroutine : Option Goroutine
  NextInProgress : Bool
  Err : Option Err
  When : String
  Threads : List (Option Thread)
  deriving DecidableEq, Repr

end api

/-- The literal `LongLoadConfig`. -/
def LongLoadConfig : api.LoadConfig := ⟨true, 1, 64, 64, -1⟩

/-- The literal `ShortLoadConfig`. -/
def ShortLoadConfig : api.LoadConfig := ⟨false, 0, 64, 0, 3⟩

/-! ## The command registry -/

/-- The type `cmdPrefix` (a Go `int` used as a bit mask). -/
abbrev cmdPrefix := Nat

/-- The constant `noPrefix = cmdPrefix(0)`. -/
def noPrefix : cmdPrefix := 0

/-- The constant `scopePrefix = cmdPrefix(1 << iota)`, second of its block: `1 << 1`. -/
def scopePrefix : cmdPrefix := 1 <<< 1

/-- The constant `onPrefix`, third of its block: `1 << 2`. -/
def onPrefix : cmdPrefix := 1 <<< 2

/-- The type `callContext`. `Breakpoint` is a pointer in Go (`none` when nil); a handler's
writes through it are returned to its caller as the new pointee. -/
structure callContext where
  Prefix : cmdPrefix
  Scope : api.EvalScope
  Breakpoint : Option api.Breakpoint
  deriving DecidableEq, Repr

/-- The values of type `cmdfunc`: the handler functions of `command.go`, the handler
`configureCmd` of the same package, and `custom n` for a handler that a caller hands to
`Register`. -/
inductive cmdfunc where
  | help | breakpoint | tracepoint | restart | cont | step | stepInstruction | next | stepout
  | threads | thread | clear | clearAll | goroutines | goroutine | breakpoints | printVar
  | whatisCommand | setVar | sources | funcs | types | args | locals | vars | regs
  | exitCommand | listCommand | stackCommand | frame | sourceCommand | disassCommand | onCmd
  | conditionCmd | configureCmd | rewind | checkpoint | checkpoints | clearCheckpoint
  | noCmdAvailable | nullCommand
  | custom (id : Nat)
  deriving DecidableEq, Repr

/-- The type `command`. `builtinAliases` is `none` while the Go slice is nil. -/
structure command where
  aliases : List String
  builtinAliases : Option (List String) := none
  allowedPrefixes : cmdPrefix := 0
  helpMsg : String
  cmdFn : cmdfunc
  deriving DecidableEq, Repr

/-- The loop of `command.match` over the aliases. -/
def matchAliases (cmdstr : String) : List String → Bool
  | [] => false
  | v :: rest => if v = cmdstr then true else matchAliases cmdstr rest

/-- The method `command.match`: the command string equals one of the aliases. -/
def command.match (c : command) (cmdstr : String) : Bool := matchAliases cmdstr c.aliases

/-- The type `Commands`. `lastCmd` is `none` while the Go field is nil. The field `client` is
read by no function of the file once the registry is built; it is the argument of
`DebugCommands`. -/
structure Commands where
  cmds : List command
  lastCmd : Option cmdfunc := none
  deriving DecidableEq, Repr

/-! ## The debugging service and the terminal -/

/-- The requests the terminal sends to `service.Client`, with their arguments. -/
inductive Request where
  | GetState | Continue | Rewind | Step | StepInstruction | Next | StepOut
  | SwitchGoroutine (gid : Int)
  | GetBreakpoint (id : Int)
  | GetBreakpointByName (name : String)
  | CreateBreakpoint (bp : api.Breakpoint)
  | AmendBreakpoint (bp : api.Breakpoint)
  | ClearBreakpoint (id : Int)
  | ClearBreakpointByName (name : String)
  | ListBreakpoints
  | FindLocation (scope : api.EvalScope) (loc : String)
  | EvalVariable (scope : api.EvalScope) (expr : String) (cfg : api.LoadConfig)
  | ListFunctionArgs (scope : api.EvalScope) (cfg : api.LoadConfig)
  | ListLocalVariables (scope : api.EvalScope) (cfg : api.LoadConfig)
  | Stacktrace (gid : Int) (depth : Int) (cfg : Option api.LoadConfig)
  | Checkpoint (label : String)
  | ClearCheckpoint (id : Int)
  deriving DecidableEq, Repr

/-- Modelled from the spec: the interface `service.Client` (the Target Control Service of
section 6), whose declaration is not part of the sources. Each method answers from the list of
requests received before the present one and from its arguments. A method that returns a value
and an error in Go returns one or the other here; a state stream (a channel in Go) is the finite
list of the states it delivers. -/
structure Client where
  Recorded : Bool
  GetState : List Request → Except Err api.DebuggerState
  Continue : List Request → List api.DebuggerState
  Rewind : List Request → List api.DebuggerState
  Step : List Request → Except Err api.DebuggerState
  StepInstruction : List Request → Except Err api.DebuggerState
  Next : List Request → Except Err api.DebuggerState
  StepOut : List Request → Except Err api.DebuggerState
  SwitchGoroutine : List Request → Int → Except Err api.DebuggerState
  GetBreakpoint : List Request → Int → Except Err api.Breakpoint
  GetBreakpointByName : List Request → String → Except Err api.Breakpoint
  CreateBreakpoint : List Request → api.Breakpoint → Except Err api.Breakpoint
  AmendBreakpoint : List Request → api.Breakpoint → Option Err
  ClearBreakpoint : List Request → Int → Except Err api.Breakpoint
  ClearBreakpointByName : List Request → String → Except Err api.Breakpoint
  ListBreakpoints : List Request → Except Err (List api.Breakpoint)
  FindLocation : List Request → api.EvalScope → String → Except Err (List api.Location)
  EvalVariable : List Request → api.EvalScope → String → api.LoadConfig → Except Err api.Variable
  ListFunctionArgs : List Request → api.EvalScope → api.LoadConfig → Except Err (List api.Variable)
  ListLocalVariables : List Request → api.EvalScope → api.LoadConfig →
    Except Err (List api.Variable)
  Stacktrace : List Request → Int → Int → Option api.LoadConfig → Except Err (List api.Stackframe)
  Checkpoint : List Request → String → Except Err Int
  ClearCheckpoint : List Request → Int → Option Err

/-- What a run leaves behind, in order: the requests sent to the service, the handlers invoked
by `CallWithContext`, and what was displayed. The rendering of a state (`printcontext`), of a
source excerpt (`printfile`), of the current scope (`printscope`), of a message about a
breakpoint (`bpMessage`), of a variable list and of a stack is one event each; `lineError` is
the message `name:lineno: err` of `executeFile`. -/
inductive Event where
  | call (q : Request)
  | invoke (fn : cmdfunc) (ctx : callContext) (args : String)
  | printcontext (state : api.DebuggerState)
  | printfile (filename : String) (line : Int) (showArrow : Bool)
  | printscope (state : api.DebuggerState)
  | print (text : String)
  | bpMessage (what : String) (bp : api.Breakpoint) (e : Option Err)
  | printVariables (varType : String) (vars : List api.Variable) (filter : String)
      (cfg : api.LoadConfig)
  | printStack (stack : List api.Stackframe) (offsets : Bool)
  | lineError (name : String) (lineno : Nat) (e : Err)
  deriving DecidableEq, Repr

/-- The type `Term`, with what the handlers use of it: the client, the result of
`t.loadConfig()`, and the record of the run. Two functions that live outside the file are
carried here as well: `api.ValidBreakpointName` (true when it returns nil), the error of
`regexp.Compile`, and the reading of a command file (`os.Open` and the scanner: the lines and
the final `scanner.Err()`, or the error of `os.Open`). -/
structure Term where
  client : Client
  loadConfig : api.LoadConfig
  validBreakpointName : String → Bool
  regexpCompile : String → Option Err
  readFile : String → Except Err (List String × Option Err)
  log : List Event

/-- The request of an event, when it is one. -/
def Event.toRequest : Event → Option Request
  | .call q => some q
  | _ => none

/-- The requests the service has received so far. -/
def Term.view (t : Term) : List Request := t.log.filterMap Event.toRequest

/-- Append an event to the record. -/
def Term.record (t : Term) (e : Event) : Term := { t with log := t.log ++ [e] }

/-- How a handler ends: it returns nil, returns an error, or panics. -/
inductive Ret where
  | ok
  | error (e : Err)
  | panic
  deriving DecidableEq, Repr

/-- The state after a handler has run: the registry (its `lastCmd` is written by `Find`), the
terminal, the pointee of `ctx.Breakpoint`, and how the handler ended. -/
structure Result where
  c : Commands
  t : Term
  bp : Option api.Breakpoint
  ret : Ret

/-- A way to run a handler; `none` when the bound on nested dispatch and on repeated
continuation is exhausted. -/
abbrev Exec := cmdfunc → Commands → Term → callContext → String → Option Result

/-- The handlers whose body is not embedded (`help`, `restart`, `threads`, ... and the custom
ones): an arbitrary effect on the registry and the terminal. -/
abbrev Extern := cmdfunc → Commands → Term → callContext → String → Commands × Term × Ret

/-! ## `DebugCommands`, `Register`, `Find`, `Merge` -/

/-- The method `ByFirstAlias.Less`; every command `DebugCommands` sorts has a first alias.
Go compares strings byte by byte, which on UTF-8 text is the lexicographic order of the
characters. -/
def ByFirstAlias.Less (a b : command) : Bool :=
  decide ((a.aliases.headD "").data < (b.aliases.headD "").data)

/-- Insert a command into a list sorted by first alias. -/
def insertByFirstAlias (x : command) : List command → List command
  | [] => [x]
  | y :: ys => if ByFirstAlias.Less x y then x :: y :: ys else y :: insertByFirstAlias x ys

/-- The call `sort.Sort(ByFirstAlias(cmds))`. The first aliases of the commands it is applied
to are pairwise different, so the sorted order is unique and any sorting algorithm yields it. -/
def sortByFirstAlias : List command → List command
  | [] => []
  | x :: xs => insertByFirstAlias x (sortByFirstAlias xs)

/-- The slice literal assigned to `c.cmds` in `DebugCommands`. -/
def builtinCommands : List command := [
  { aliases := ["help", "h"], cmdFn := .help,
    helpMsg := "Prints the help message.\n\n\thelp [command]\n\t\nType \"help\" followed by the name of a command for more information about it." },
  { aliases := ["break", "b"], cmdFn := .breakpoint,
    helpMsg := "Sets a breakpoint.\n\n\tbreak [name] <linespec>\n\nSee $GOPATH/src/github.com/derekparker/delve/Documentation/cli/locspec.md for the syntax of linespec.\n\nSee also: \"help on\", \"help cond\" and \"help clear\"" },
  { aliases := ["trace", "t"], cmdFn := .tracepoint,
    helpMsg := "Set tracepoint.\n\n\ttrace [name] <linespec>\n\t\nA tracepoint is a breakpoint that does not stop the execution of the program, instead when the tracepoint is hit a notification is displayed. See $GOPATH/src/github.com/derekparker/delve/Documentation/cli/locspec.md for the syntax of linespec.\n\nSee also: \"help on\", \"help cond\" and \"help clear\"" },
  { aliases := ["restart", "r"], cmdFn := .restart,
    helpMsg := "Restart process." },
  { aliases := ["continue", "c"], cmdFn := .cont,
    helpMsg := "Run until breakpoint or program termination." },
  { aliases := ["step", "s"], allowedPrefixes := scopePrefix, cmdFn := .step,
    helpMsg := "Single step through program." },
  { aliases := ["step-instruction", "si"], allowedPrefixes := scopePrefix, cmdFn := .stepInstruction,
    helpMsg := "Single step a single cpu instruction." },
  { aliases := ["next", "n"], allowedPrefixes := scopePrefix, cmdFn := .next,
    helpMsg := "Step over to next source line." },
  { aliases := ["stepout"], allowedPrefixes := scopePrefix, cmdFn := .stepout,
    helpMsg := "Step out of the current function." },
  { aliases := ["threads"], cmdFn := .threads,
    helpMsg := "Print out info for every traced thread." },
  { aliases := ["thread", "tr"], cmdFn := .thread,
    helpMsg := "Switch to the specified thread.\n\n\tthread <id>" },
  { aliases := ["clear"], cmdFn := .clear,
    helpMsg := "Deletes breakpoint.\n\n\tclear <breakpoint name or id>" },
  { aliases := ["clearall"], cmdFn := .clearAll,
    helpMsg := "Deletes multiple breakpoints.\n\n\tclearall [<linespec>]\n\t\nIf called with the linespec argument it will delete all the breakpoints matching the linespec. If linespec is omitted all breakpoints are deleted." },
  { aliases := ["goroutines"], cmdFn := .goroutines,
    helpMsg := "List program goroutines.\n\n\tgoroutines [-u (default: user location)|-r (runtime location)|-g (go statement location)]\n\nPrint out info for every goroutine. The flag controls what information is shown along with each goroutine:\n\n\t-u\tdisplays location of topmost stackframe in user code\n\t-r\tdisplays location of topmost stackframe (including frames inside private runtime functions)\n\t-g\tdisplays location of go instruction that created the goroutine\n\t\nIf no flag is specified the default is -u." },
  { aliases := ["goroutine"], allowedPrefixes := onPrefix ||| scopePrefix, cmdFn := .goroutine,
    helpMsg := "Shows or changes current goroutine\n\n\tgoroutine\n\tgoroutine <id>\n\tgoroutine <id> <command>\n\nCalled without arguments it will show information about the current goroutine.\nCalled with a single argument it will switch to the specified goroutine.\nCalled with more arguments it will execute a command on the specified goroutine." },
  { aliases := ["breakpoints", "bp"], cmdFn := .breakpoints,
    helpMsg := "Print out info for active breakpoints." },
  { aliases := ["print", "p"], allowedPrefixes := onPrefix ||| scopePrefix, cmdFn := .printVar,
    helpMsg := "Evaluate an expression.\n\n\t[goroutine <n>] [frame <m>] print <expression>\n\nSee $GOPATH/src/github.com/derekparker/delve/Documentation/cli/expr.md for a description of supported expressions." },
  { aliases := ["whatis"], allowedPrefixes := scopePrefix, cmdFn := .whatisCommand,
    helpMsg := "Prints type of an expression.\n\t\t\n\t\twhatis <expression>." },
  { aliases := ["set"], allowedPrefixes := scopePrefix, cmdFn := .setVar,
    helpMsg := "Changes the value of a variable.\n\n\t[goroutine <n>] [frame <m>] set <variable> = <value>\n\nSee $GOPATH/src/github.com/derekparker/delve/Documentation/cli/expr.md for a description of supported expressions. Only numerical variables and pointers can be changed." },
  { aliases := ["sources"], cmdFn := .sources,
    helpMsg := "Print list of source files.\n\n\tsources [<regex>]\n\nIf regex is specified only the source files matching it will be returned." },
  { aliases := ["funcs"], cmdFn := .funcs,
    helpMsg := "Print list of functions.\n\n\tfuncs [<regex>]\n\nIf regex is specified only the functions matching it will be returned." },
  { aliases := ["types"], cmdFn := .types,
    helpMsg := "Print list of types\n\n\ttypes [<regex>]\n\nIf regex is specified only the types matching it will be returned." },
  { aliases := ["args"], allowedPrefixes := scopePrefix ||| onPrefix, cmdFn := .args,
    helpMsg := "Print function arguments.\n\n\t[goroutine <n>] [frame <m>] args [-v] [<regex>]\n\nIf regex is specified only function arguments with a name matching it will be returned. If -v is specified more information about each function argument will be shown." },
  { aliases := ["locals"], allowedPrefixes := scopePrefix ||| onPrefix, cmdFn := .locals,
    helpMsg := "Print local variables.\n\n\t[goroutine <n>] [frame <m>] locals [-v] [<regex>]\n\nThe name of variables that are shadowed in the current scope will be shown in parenthesis.\n\nIf regex is specified only local variables with a name matching it will be returned. If -v is specified more information about each local variable will be shown." },
  { aliases := ["vars"], cmdFn := .vars,
    helpMsg := "Print package variables.\n\n\tvars [-v] [<regex>]\n\nIf regex is specified only package variables with a name matching it will be returned. If -v is specified more information about each package variable will be shown." },
  { aliases := ["regs"], cmdFn := .regs,
    helpMsg := "Print contents of CPU registers.\n\n\tregs [-a]\n\t\nArgument -a shows more registers." },
  { aliases := ["exit", "quit", "q"], cmdFn := .exitCommand,
    helpMsg := "Exit the debugger." },
  { aliases := ["list", "ls"], allowedPrefixes := scopePrefix, cmdFn := .listCommand,
    helpMsg := "Show source code.\n\n\t[goroutine <n>] [frame <m>] list [<linespec>]\n\nShow source around current point or provided linespec." },
  { aliases := ["stack", "bt"], allowedPrefixes := scopePrefix ||| onPrefix, cmdFn := .stackCommand,
    helpMsg := "Print stack trace.\n\n\t[goroutine <n>] [frame <m>] stack [<depth>] [-full] [-g] [-s] [-offsets]\n\t\n\t-full\t\tevery stackframe is decorated with the value of its local variables and arguments.\n\t-offsets\tprints frame offset of each frame\n" },
  { aliases := ["frame"], allowedPrefixes := scopePrefix, cmdFn := .frame,
    helpMsg := "Executes command on a different frame.\n\n\tframe <frame index> <command>." },
  { aliases := ["source"], cmdFn := .sourceCommand,
    helpMsg := "Executes a file containing a list of delve commands\n\n\tsource <path>" },
  { aliases := ["disassemble", "disass"], allowedPrefixes := scopePrefix, cmdFn := .disassCommand,
    helpMsg := "Disassembler.\n\n\t[goroutine <n>] [frame <m>] disassemble [-a <start> <end>] [-l <locspec>]\n\nIf no argument is specified the function being executed in the selected stack frame will be executed.\n\t\n\t-a <start> <end>\tdisassembles the specified address range\n\t-l <locspec>\t\tdisassembles the specified function" },
  { aliases := ["on"], cmdFn := .onCmd,
    helpMsg := "Executes a command when a breakpoint is hit.\n\n\ton <breakpoint name or id> <command>.\n\t\nSupported commands: print, stack and goroutine)" },
  { aliases := ["condition", "cond"], cmdFn := .conditionCmd,
    helpMsg := "Set breakpoint condition.\n\n\tcondition <breakpoint name or id> <boolean expression>.\n\t\nSpecifies that the breakpoint or tracepoint should break only if the boolean expression is true." },
  { aliases := ["config"], cmdFn := .configureCmd,
    helpMsg := "Changes configuration parameters.\n\t\t\n\tconfig -list\n\t\nShow all configuration parameters.\n\n\tconfig -save\n\nSaves the configuration file to disk, overwriting the current configuration file.\n\n\tconfig <parameter> <value>\n\t\nChanges the value of a configuration parameter.\n\n\tconfig subistitute-path <from> <to>\n\tconfig subistitute-path <from>\n\t\nAdds or removes a path subistitution rule.\n\n\tconfig alias <command> <alias>\n\tconfig alias <alias>\n\t\nDefines <alias> as an alias to <command> or removes an alias." }]

/-- The four commands appended when the target is a recording. -/
def recordingCommands : List command := [
  { aliases := ["rewind", "rw"], cmdFn := .rewind,
    helpMsg := "Run backwards until breakpoint or program termination." },
  { aliases := ["check", "checkpoint"], cmdFn := .checkpoint,
    helpMsg := "Creates a checkpoint at the current position.\n\t\t\t\n\tcheckpoint [where]" },
  { aliases := ["checkpoints"], cmdFn := .checkpoints,
    helpMsg := "Print out info for existing checkpoints." },
  { aliases := ["clear-checkpoint", "clearcheck"], cmdFn := .clearCheckpoint,
    helpMsg := "Deletes checkpoint.\n\t\t\t\n\tclear-checkpoint <id>" }]

/-- The loop of `DebugCommands` that replaces the help text of `restart`. -/
def restartHelp (v : command) : command :=
  if v.match "restart" then
    { v with helpMsg :=
        "Restart process from a checkpoint or event.\n\t\n\trestart [event number or checkpoint id]" }
  else v

/-- The function `DebugCommands`; `client` is `none` for a nil client. -/
def DebugCommands (client : Option Client) : Commands :=
  let cmds := builtinCommands
  let cmds :=
    if client.all (fun cl => cl.Recorded) then (cmds ++ recordingCommands).map restartHelp
    else cmds
  { cmds := sortByFirstAlias cmds }

/-- The loop of `Register`: true when it returns from inside the loop. The assignment
`v.cmdFn = cf` writes the loop variable `v`, which `range` made a copy of the slice element;
the copy is dropped at the `return`. -/
def registerLoop (cmdstr : String) (cf : cmdfunc) : List command → Bool
  | [] => false
  | v :: rest =>
    if v.match cmdstr then
      let _v : command := { v with cmdFn := cf }
      true
    else registerLoop cmdstr cf rest

/-- The method `Commands.Register`. -/
def Register (c : Commands) (cmdstr : String) (cf : cmdfunc) (helpMsg : String) : Commands :=
  if registerLoop cmdstr cf c.cmds then c
  else { c with cmds := c.cmds ++ [{ aliases := [cmdstr], cmdFn := cf, helpMsg := helpMsg }] }

/-- The loop of `Find`: the handler it returns from inside the loop, if it does. -/
def findLoop (cmdstr : String) (pfx : cmdPrefix) : List command → Option cmdfunc
  | [] => none
  | v :: rest =>
    if v.match cmdstr then
      if pfx ≠ noPrefix ∧ v.allowedPrefixes &&& pfx = 0 then findLoop cmdstr pfx rest
      else some v.cmdFn
    else findLoop cmdstr pfx rest

/-- The method `Commands.Find`: the handler, and the registry with `lastCmd` written. -/
def Find (c : Commands) (cmdstr : String) (pfx : cmdPrefix) : cmdfunc × Commands :=
  if cmdstr = "" then
    match c.lastCmd with
    | some f => (f, c)
    | none => (.nullCommand, c)
  else
    match findLoop cmdstr pfx c.cmds with
    | some f => (f, { c with lastCmd := some f })
    | none => (.noCmdAvailable, c)

/-- First loop of `Merge`, one command: the aliases go back to the built-in ones when those
are recorded. -/
def restoreBuiltin (v : command) : command :=
  match v.builtinAliases with
  | some b => { v with aliases := b }
  | none => v

/-- Second loop of `Merge`, one command; `none` when `aliases[0]` is out of range. -/
def mergeOne (allAliases : String → Option (List String)) (v : command) : Option command :=
  match v.aliases with
  | [] => none
  | a0 :: _ =>
    match allAliases a0 with
    | some aliases =>
      let v1 : command :=
        if v.builtinAliases = none then { v with builtinAliases := some v.aliases } else v
      some { v1 with aliases := v1.aliases ++ aliases }
    | none => some v

/-- Second loop of `Merge` over the commands. -/
def mergeLoop (allAliases : String → Option (List String)) : List command → Option (List command)
  | [] => some []
  | v :: rest =>
    match mergeOne allAliases v with
    | none => none
    | some v1 =>
      match mergeLoop allAliases rest with
      | none => none
      | some rest1 => some (v1 :: rest1)

/-- The method `Commands.Merge`; the Go map is its lookup function. `none` when the method
panics on a command without aliases. -/
def Merge (c : Commands) (allAliases : String → Option (List String)) : Option Commands :=
  match mergeLoop allAliases (c.cmds.map restoreBuiltin) with
  | none => none
  | some cmds => some { c with cmds := cmds }

/-! ## Display and the consumption of state streams -/

/-- The function `printfile`: the display of a source excerpt around a line. Its own file
access is part of the presentation layer and is not embedded; callers drop its result. -/
def printfile (t : Term) (filename : String) (line : Int) (showArrow : Bool) : Term :=
  t.record (.printfile filename line showArrow)

/-- The function `printcontextThread`, as far as it can fail: the result is true when the call
panics. Each of its three `Printf` calls reads `fn.Name` for `fn := th.Function`, before the
test `th.Function != nil`; and with a breakpoint and its information, `*bp.LoadLocals` is read
for each local. The other reads are guarded by a test for nil, `formatLocation` and
`printStack` test the functions they read, and the rendering methods of `api.Variable`, which
are outside the file, are taken to return. What the call prints is part of the display event
of `printcontext`. -/
def printcontextThread (th : api.Thread) : Bool :=
  match th.Function with
  | none => true
  | some _ =>
    match th.Breakpoint with
    | none => false
    | some bp =>
      match th.BreakpointInfo with
      | none => false
      | some bpi => !bpi.Locals.isEmpty && bp.LoadLocals.isNone

/-- The loop `for i := range state.Threads` of `printcontext`: true when it panics. An element
that is nil panics at `state.Threads[i].ID` or at `state.Threads[i].Breakpoint`. -/
def printcontextThreads (current : Option api.Thread) : List (Option api.Thread) → Bool
  | [] => false
  | none :: _ => true
  | some th :: rest =>
    if (match current with
        | some cur => decide (th.ID = cur.ID)
        | none => false) then printcontextThreads current rest
    else if th.Breakpoint.isSome then
      (if printcontextThread th then true else printcontextThreads current rest)
    else printcontextThreads current rest

/-- The function `printcontext`, as far as it can fail: true when the call panics. -/
def printcontextPanics (state : api.DebuggerState) : Bool :=
  if printcontextThreads state.CurrentThread state.Threads then true
  else
    match state.CurrentThread with
    | none => false
    | some th => if th.File.length = 0 then false else printcontextThread th

/-- The function `printcontext`. The call is recorded as the display of the state: what it
shows, as far as it gets, is a function of the state. The second component is true when the
call panics. -/
def printcontext (t : Term) (state : api.DebuggerState) : Term × Bool :=
  (t.record (.printcontext state), printcontextPanics state)

/-- The function `printfileNoState`. -/
def printfileNoState (t : Term) : Term :=
  let t1 := t.record (.call .GetState)
  match t.client.GetState t.view with
  | .ok state =>
    match state.CurrentThread with
    | some th => printfile t1 th.File th.Line true
    | none => t1
  | .error _ => t1

/-- The loop `for state = range stateChan` of `cont` and of `continueUntilCompleteNext`.
`last` is the variable `state` declared before the loop (`none` while it is nil); the result is
the way the function ends from inside the loop (the error it returns, or the panic of
`printcontext`), or the value of `state` when the stream ends. -/
def rangeStates : List api.DebuggerState → Term → Option api.DebuggerState →
    Term × Except Ret (Option api.DebuggerState)
  | [], t, last => (t, .ok last)
  | state :: rest, t, _ =>
    match state.Err with
    | some e => (printfileNoState t, .error (.error e))
    | none =>
      match (printcontext t state).2 with
      | true => ((printcontext t state).1, .error .panic)
      | false => rangeStates rest (printcontext t state).1 (some state)

/-- The loop `for state = range stateChan` of `rewind`. -/
def rewindStates : List api.DebuggerState → Term → Option api.DebuggerState →
    Term × Except Ret (Option api.DebuggerState)
  | [], t, last => (t, .ok last)
  | state :: rest, t, _ =>
    match state.Err with
    | some e => (t, .error (.error e))
    | none =>
      match (printcontext t state).2 with
      | true => ((printcontext t state).1, .error .panic)
      | false => rewindStates rest (printcontext t state).1 (some state)

/-- The statements `printfile(t, state.CurrentThread.File, state.CurrentThread.Line, true)`
and `return nil`; dereferencing a nil `state` or a nil `CurrentThread` panics. -/
def showCurrentLine (t : Term) : Option api.DebuggerState → Term × Ret
  | none => (t, .panic)
  | some state =>
    match state.CurrentThread with
    | none => (t, .panic)
    | some th => (printfile t th.File th.Line true, .ok)

/-- The function `cont`. -/
def cont (t : Term) (_ctx : callContext) (_args : String) : Term × Ret :=
  let stateChan := t.client.Continue t.view
  match rangeStates stateChan (t.record (.call .Continue)) none with
  | (t1, .error r) => (t1, r)
  | (t1, .ok state) => showCurrentLine t1 state

/-- The function `rewind`. -/
def rewind (t : Term) (_ctx : callContext) (_args : String) : Term × Ret :=
  let stateChan := t.client.Rewind t.view
  match rewindStates stateChan (t.record (.call .Rewind)) none with
  | (t1, .error r) => (t1, r)
  | (t1, .ok state) => showCurrentLine t1 state

/-- The `for` loop of `continueUntilCompleteNext`, at most `fuel` rounds of it. -/
def continueLoop : Nat → Term → String → Option (Term × Ret)
  | 0, _, _ => none
  | fuel + 1, t, op =>
    let stateChan := t.client.Continue t.view
    match rangeStates stateChan (t.record (.call .Continue)) none with
    | (t1, .error r) => some (t1, r)
    | (t1, .ok none) => some (t1, .panic)
    | (t1, .ok (some state)) =>
      if !state.NextInProgress then some (showCurrentLine t1 (some state))
      else
        continueLoop fuel
          (t1.record (.print ("\tbreakpoint hit during " ++ op ++ ", continuing...\n"))) op

/-- The function `continueUntilCompleteNext`. -/
def continueUntilCompleteNext (fuel : Nat) (t : Term) (state : api.DebuggerState)
    (op : String) : Option (Term × Ret) :=
  if !state.NextInProgress then some (showCurrentLine t (some state))
  else continueLoop fuel t op

/-- The function `scopePrefixSwitch`. -/
def scopePrefixSwitch (t : Term) (ctx : callContext) : Term × Option Err :=
  if ctx.Prefix ≠ scopePrefix then (t, none)
  else if ctx.Scope.Frame ≠ 0 then (t, some (.new "frame prefix not accepted"))
  else if ctx.Scope.GoroutineID > 0 then
    match t.client.SwitchGoroutine t.view ctx.Scope.GoroutineID with
    | .error e => (t.record (.call (.SwitchGoroutine ctx.Scope.GoroutineID)), some e)
    | .ok _ => (t.record (.call (.SwitchGoroutine ctx.Scope.GoroutineID)), none)
  else (t, none)

/-- The function `step`. -/
def step (fuel : Nat) (t : Term) (ctx : callContext) (_args : String) : Option (Term × Ret) :=
  match scopePrefixSwitch t ctx with
  | (t1, some e) => some (t1, .error e)
  | (t1, none) =>
    match t1.client.Step t1.view with
    | .error e => some (printfileNoState (t1.record (.call .Step)), .error e)
    | .ok state =>
      match (printcontext (t1.record (.call .Step)) state).2 with
      | true => some ((printcontext (t1.record (.call .Step)) state).1, .panic)
      | false =>
        continueUntilCompleteNext fuel (printcontext (t1.record (.call .Step)) state).1 state
          "step"

/-- The function `stepInstruction`. -/
def stepInstruction (t : Term) (ctx : callContext) (_args : String) : Term × Ret :=
  match scopePrefixSwitch t ctx with
  | (t1, some e) => (t1, .error e)
  | (t1, none) =>
    match t1.client.StepInstruction t1.view with
    | .error e => (printfileNoState (t1.record (.call .StepInstruction)), .error e)
    | .ok state =>
      match (printcontext (t1.record (.call .StepInstruction)) state).2 with
      | true => ((printcontext (t1.record (.call .StepInstruction)) state).1, .panic)
      | false =>
        showCurrentLine (printcontext (t1.record (.call .StepInstruction)) state).1
          (some state)

/-- The function `next`. -/
def next (fuel : Nat) (t : Term) (ctx : callContext) (_args : String) : Option (Term × Ret) :=
  match scopePrefixSwitch t ctx with
  | (t1, some e) => some (t1, .error e)
  | (t1, none) =>
    match t1.client.Next t1.view with
    | .error e => some (printfileNoState (t1.record (.call .Next)), .error e)
    | .ok state =>
      match (printcontext (t1.record (.call .Next)) state).2 with
      | true => some ((printcontext (t1.record (.call .Next)) state).1, .panic)
      | false =>
        continueUntilCompleteNext fuel (printcontext (t1.record (.call .Next)) state).1 state
          "next"

/-- The function `stepout`. -/
def stepout (fuel : Nat) (t : Term) (ctx : callContext) (_args : String) :
    Option (Term × Ret) :=
  match scopePrefixSwitch t ctx with
  | (t1, some e) => some (t1, .error e)
  | (t1, none) =>
    match t1.client.StepOut t1.view with
    | .error e => some (printfileNoState (t1.record (.call .StepOut)), .error e)
    | .ok state =>
      match (printcontext (t1.record (.call .StepOut)) state).2 with
      | true => some ((printcontext (t1.record (.call .StepOut)) state).1, .panic)
      | false =>
        continueUntilCompleteNext fuel (printcontext (t1.record (.call .StepOut)) state).1
          state "stepout"

/-! ## Breakpoints -/

/-- The function `clear`. -/
def clear (t : Term) (_ctx : callContext) (args : String) : Term × Ret :=
  if args.length = 0 then (t, .error (.new "not enough arguments"))
  else
    let r : Term × Except Err api.Breakpoint :=
      match Atoi args with
      | .ok id => (t.record (.call (.ClearBreakpoint id)), t.client.ClearBreakpoint t.view id)
      | .error _ =>
        (t.record (.call (.ClearBreakpointByName args)), t.client.ClearBreakpointByName t.view args)
    match r with
    | (t1, .error e) => (t1, .error e)
    | (t1, .ok bp) => (t1.record (.bpMessage "cleared" bp none), .ok)

/-- The loop of `clearAll` over the listed breakpoints. `locPCs` is the Go map used as a set,
`none` while it is nil. -/
def clearAllLoop (locPCs : Option (List Nat)) : List api.Breakpoint → Term → Term
  | [], t => t
  | bp :: rest, t =>
    if (match locPCs with
        | some pcs => !(pcs.contains bp.Addr)
        | none => false) then clearAllLoop locPCs rest t
    else if bp.ID < 0 then clearAllLoop locPCs rest t
    else
      let t1 := t.record (.call (.ClearBreakpoint bp.ID))
      let t2 :=
        match t.client.ClearBreakpoint t.view bp.ID with
        | .error e => t1.record (.bpMessage "Couldn't delete" bp (some e))
        | .ok _ => t1
      clearAllLoop locPCs rest (t2.record (.bpMessage "cleared" bp none))

/-- The function `clearAll`. -/
def clearAll (t : Term) (_ctx : callContext) (args : String) : Term × Ret :=
  match t.client.ListBreakpoints t.view with
  | .error e => (t.record (.call .ListBreakpoints), .error e)
  | .ok breakPoints =>
    let t1 := t.record (.call .ListBreakpoints)
    if args ≠ "" then
      match t1.client.FindLocation t1.view ⟨-1, 0⟩ args with
      | .error e => (t1.record (.call (.FindLocation ⟨-1, 0⟩ args)), .error e)
      | .ok locs =>
        (clearAllLoop (some (locs.map (fun loc => loc.PC))) breakPoints
          (t1.record (.call (.FindLocation ⟨-1, 0⟩ args))), .ok)
    else (clearAllLoop none breakPoints t1, .ok)

/-- The value `api.Breakpoint{}`. -/
def emptyBreakpoint : api.Breakpoint :=
  { ID := 0, Name := "", Addr := 0, File := "", Line := 0, FunctionName := "", Cond := "",
    Tracepoint := false, Goroutine := false, Stacktrace := 0, Variables := [],
    LoadArgs := none, LoadLocals := none, TotalHitCount := 0 }

/-- The loop of `setBreakpoint` over the resolved locations; `requestedBp` is the pointee of
the Go variable. -/
def createLoop : List api.Location → api.Breakpoint → Term → Term × Ret
  | [], _, t => (t, .ok)
  | loc :: rest, requestedBp, t =>
    let requestedBp := { requestedBp with Addr := loc.PC }
    match t.client.CreateBreakpoint t.view requestedBp with
    | .error e => (t.record (.call (.CreateBreakpoint requestedBp)), .error e)
    | .ok bp =>
      createLoop rest requestedBp
        ((t.record (.call (.CreateBreakpoint requestedBp))).record (.bpMessage "set" bp none))

/-- The function `setBreakpoint`. -/
def setBreakpoint (t : Term) (tracepoint : Bool) (argstr : String) : Term × Ret :=
  let args := SplitN2 argstr
  let parsed : Option (String × String) :=
    match args with
    | [_] => some ("", argstr)
    | [a0, a1] => if t.validBreakpointName a0 then some (a0, a1) else some ("", argstr)
    | _ => none
  match parsed with
  | none => (t, .error (.new "address required"))
  | some (name, locspec) =>
    let requestedBp := { emptyBreakpoint with Name := name, Tracepoint := tracepoint }
    let t1 := t.record (.call (.FindLocation ⟨-1, 0⟩ locspec))
    match t.client.FindLocation t.view ⟨-1, 0⟩ locspec with
    | .ok locs => createLoop locs requestedBp t1
    | .error err =>
      if requestedBp.Name = "" then (t1, .error err)
      else
        let requestedBp := { requestedBp with Name := "" }
        let t2 := t1.record (.call (.FindLocation ⟨-1, 0⟩ argstr))
        match t1.client.FindLocation t1.view ⟨-1, 0⟩ argstr with
        | .error _ => (t2, .error err)
        | .ok locs => createLoop locs requestedBp t2

/-- The function `breakpoint`. -/
def breakpoint (t : Term) (_ctx : callContext) (args : String) : Term × Ret :=
  setBreakpoint t false args

/-- The function `tracepoint`. -/
def tracepoint (t : Term) (_ctx : callContext) (args : String) : Term × Ret :=
  setBreakpoint t true args

/-- The function `getBreakpointByIDOrName`. -/
def getBreakpointByIDOrName (t : Term) (arg : String) : Term × Except Err api.Breakpoint :=
  match Atoi arg with
  | .ok id => (t.record (.call (.GetBreakpoint id)), t.client.GetBreakpoint t.view id)
  | .error _ =>
    (t.record (.call (.GetBreakpointByName arg)), t.client.GetBreakpointByName t.view arg)

/-- The function `conditionCmd`. -/
def conditionCmd (t : Term) (_ctx : callContext) (argstr : String) : Term × Ret :=
  match SplitN2 argstr with
  | a0 :: a1 :: _ =>
    match getBreakpointByIDOrName t a0 with
    | (t1, .error e) => (t1, .error e)
    | (t1, .ok bp) =>
      let bp := { bp with Cond := a1 }
      match t1.client.AmendBreakpoint t1.view bp with
      | some e => (t1.record (.call (.AmendBreakpoint bp)), .error e)
      | none => (t1.record (.call (.AmendBreakpoint bp)), .ok)
  | _ => (t, .error (.new "not enough arguments"))

/-! ## Variables and stack -/

/-- The function `printVar`; the second component is the pointee of `ctx.Breakpoint`. -/
def printVar (t : Term) (ctx : callContext) (args : String) :
    Term × Option api.Breakpoint × Ret :=
  if args.length = 0 then (t, ctx.Breakpoint, .error (.new "not enough arguments"))
  else if ctx.Prefix = onPrefix then
    match ctx.Breakpoint with
    | none => (t, none, .panic)
    | some bp => (t, some { bp with Variables := bp.Variables ++ [args] }, .ok)
  else
    let t1 := t.record (.call (.EvalVariable ctx.Scope args t.loadConfig))
    match t.client.EvalVariable t.view ctx.Scope args t.loadConfig with
    | .error e => (t1, ctx.Breakpoint, .error e)
    | .ok val => (t1.record (.print (val.Value ++ "\n")), ctx.Breakpoint, .ok)

/-- The function `parseVarArguments`. -/
def parseVarArguments (args : String) (t : Term) : String × api.LoadConfig :=
  match SplitN2 args with
  | [v0] => if v0 = "-v" then ("", t.loadConfig) else (args, ShortLoadConfig)
  | [v0, v1] => if v0 = "-v" then (v1, t.loadConfig) else (args, ShortLoadConfig)
  | _ => (args, ShortLoadConfig)

/-- The function `printFilteredVariables`. -/
def printFilteredVariables (t : Term) (varType : String) (vars : List api.Variable)
    (filter : String) (cfg : api.LoadConfig) : Term × Ret :=
  match t.regexpCompile filter with
  | some e => (t, .error e)
  | none => (t.record (.printVariables varType vars filter cfg), .ok)

/-- The function `args`. -/
def args (t : Term) (ctx : callContext) (argstr : String) :
    Term × Option api.Breakpoint × Ret :=
  let (filter, cfg) := parseVarArguments argstr t
  if ctx.Prefix = onPrefix then
    if filter ≠ "" then (t, ctx.Breakpoint, .error (.new "filter not supported on breakpoint"))
    else
      match ctx.Breakpoint with
      | none => (t, none, .panic)
      | some bp => (t, some { bp with LoadArgs := some cfg }, .ok)
  else
    let t1 := t.record (.call (.ListFunctionArgs ctx.Scope cfg))
    match t.client.ListFunctionArgs t.view ctx.Scope cfg with
    | .error e => (t1, ctx.Breakpoint, .error e)
    | .ok vars =>
      let r := printFilteredVariables t1 "args" vars filter cfg
      (r.1, ctx.Breakpoint, r.2)

/-- The function `locals`. -/
def locals (t : Term) (ctx : callContext) (argstr : String) :
    Term × Option api.Breakpoint × Ret :=
  let (filter, cfg) := parseVarArguments argstr t
  if ctx.Prefix = onPrefix then
    if filter ≠ "" then (t, ctx.Breakpoint, .error (.new "filter not supported on breakpoint"))
    else
      match ctx.Breakpoint with
      | none => (t, none, .panic)
      | some bp => (t, some { bp with LoadLocals := some cfg }, .ok)
  else
    let t1 := t.record (.call (.ListLocalVariables ctx.Scope cfg))
    match t.client.ListLocalVariables t.view ctx.Scope cfg with
    | .error e => (t1, ctx.Breakpoint, .error e)
    | .ok vars =>
      let r := printFilteredVariables t1 "locals" vars filter cfg
      (r.1, ctx.Breakpoint, r.2)

/-- The type `stackArgs`. -/
structure stackArgs where
  depth : Int
  full : Bool
  offsets : Bool
  deriving DecidableEq, Repr

/-- The loop of `parseStackArgs` over the blank-separated arguments. -/
def parseStackLoop : List String → stackArgs → Except Err stackArgs
  | [], r => .ok r
  | a :: rest, r =>
    if a = "-full" then parseStackLoop rest { r with full := true }
    else if a = "-offsets" then parseStackLoop rest { r with offsets := true }
    else
      match Atoi a with
      | .error _ => .error (.new "depth must be a number")
      | .ok n => parseStackLoop rest { r with depth := n }

/-- The function `parseStackArgs`. -/
def parseStackArgs (argstr : String) : Except Err stackArgs :=
  let r : stackArgs := { depth := 10, full := false, offsets := false }
  if argstr ≠ "" then parseStackLoop (Split argstr) r else .ok r

/-- The function `stackCommand`. -/
def stackCommand (t : Term) (ctx : callContext) (argstr : String) :
    Term × Option api.Breakpoint × Ret :=
  match parseStackArgs argstr with
  | .error e => (t, ctx.Breakpoint, .error e)
  | .ok sa =>
    if ctx.Prefix = onPrefix then
      match ctx.Breakpoint with
      | none => (t, none, .panic)
      | some bp => (t, some { bp with Stacktrace := sa.depth }, .ok)
    else
      let cfg : Option api.LoadConfig := if sa.full then some ShortLoadConfig else none
      let t1 := t.record (.call (.Stacktrace ctx.Scope.GoroutineID sa.depth cfg))
      match t.client.Stacktrace t.view ctx.Scope.GoroutineID sa.depth cfg with
      | .error e => (t1, ctx.Breakpoint, .error e)
      | .ok stack => (t1.record (.printStack stack sa.offsets), ctx.Breakpoint, .ok)

/-! ## Checkpoints -/

/-- The verb `%#x` of `fmt` on an unsigned integer. -/
def hex (n : Nat) : String := "0x" ++ ⟨Nat.toDigits 16 n⟩

/-- The function `checkpoint`. -/
def checkpoint (t : Term) (_ctx : callContext) (args : String) : Term × Ret :=
  let labelled : Term × Except Ret String :=
    if args = "" then
      let t1 := t.record (.call .GetState)
      match t.client.GetState t.view with
      | .error e => (t1, .error (.error e))
      | .ok state =>
        match state.CurrentThread with
        | none => (t1, .error .panic)
        | some th =>
          let loc : api.Location :=
            match state.SelectedGoroutine with
            | some g => g.CurrentLoc
            | none => { PC := th.PC, File := th.File, Line := th.Line, Function := th.Function }
          let fname :=
            match loc.Function with
            | some f => f.Name
            | none => "???"
          (t1, .ok (fname ++ "() " ++ loc.File ++ ":" ++ toString loc.Line ++
            " (" ++ hex loc.PC ++ ")"))
    else (t, .ok args)
  match labelled with
  | (t1, .error r) => (t1, r)
  | (t1, .ok label) =>
    let t2 := t1.record (.call (.Checkpoint label))
    match t1.client.Checkpoint t1.view label with
    | .error e => (t2, .error e)
    | .ok cpid => (t2.record (.print ("Checkpoint c" ++ toString cpid ++ " created.\n")), .ok)

/-- The function `clearCheckpoint`. The test `len(args) < 0` never holds; `args[0]` panics on
the empty string. -/
def clearCheckpoint (t : Term) (_ctx : callContext) (args : String) : Term × Ret :=
  if (args.length : Int) < 0 then
    (t, .error (.new "not enough arguments to clear-checkpoint"))
  else
    match args.data with
    | [] => (t, .panic)
    | ch :: rest =>
      if ch ≠ 'c' then (t, .error (.new "clear-checkpoint argument must be a checkpoint ID"))
      else
        match Atoi ⟨rest⟩ with
        | .error _ => (t, .error (.new "clear-checkpoint argument must be a checkpoint ID"))
        | .ok id =>
          match t.client.ClearCheckpoint t.view id with
          | some e => (t.record (.call (.ClearCheckpoint id)), .error e)
          | none => (t.record (.call (.ClearCheckpoint id)), .ok)

/-- The function `exitCommand`. -/
def exitCommand (t : Term) (_ctx : callContext) (_args : String) : Term × Ret :=
  (t, .error .exitRequest)

/-- The function `noCmdAvailable`. -/
def noCmdAvailable (t : Term) (_ctx : callContext) (_args : String) : Term × Ret :=
  (t, .error .noCmdError)

/-- The function `nullCommand`. -/
def nullCommand (t : Term) (_ctx : callContext) (_args : String) : Term × Ret :=
  (t, .ok)

/-! ## Re-entrant dispatch -/

/-- The method `Commands.CallWithContext`, over the way `exec` to run the handler that `Find`
returns. The invocation of the handler is recorded. -/
def CallWithContextWith (exec : Exec) (c : Commands) (cmdstr : String) (t : Term)
    (ctx : callContext) : Option Result :=
  match SplitN2 (TrimSpace cmdstr) with
  | [] => some ⟨c, t, ctx.Breakpoint, .panic⟩
  | cmdname :: rest =>
    let args : String :=
      match rest with
      | [] => ""
      | v1 :: _ => TrimSpace v1
    let found := Find c cmdname ctx.Prefix
    exec found.1 found.2 (t.record (.invoke found.1 ctx args)) ctx args

/-- The function `printscope`. -/
def printscope (t : Term) : Term × Ret :=
  match t.client.GetState t.view with
  | .error e => (t.record (.call .GetState), .error e)
  | .ok state => ((t.record (.call .GetState)).record (.printscope state), .ok)

/-- The function `selectedGID`. -/
def selectedGID (state : api.DebuggerState) : Int :=
  match state.SelectedGoroutine with
  | none => 0
  | some g => g.ID

/-- The method `Commands.goroutine`; `exec` runs the handlers of the nested dispatch. -/
def goroutine (exec : Exec) (c : Commands) (t : Term) (ctx : callContext) (argstr : String) :
    Option Result :=
  let args := SplitN2 argstr
  if ctx.Prefix = onPrefix then
    if args.length ≠ 1 ∨ args.head? ≠ some "" then
      some ⟨c, t, ctx.Breakpoint, .error (.new "too many arguments to goroutine")⟩
    else
      match ctx.Breakpoint with
      | none => some ⟨c, t, none, .panic⟩
      | some bp => some ⟨c, t, some { bp with Goroutine := true }, .ok⟩
  else
    match args with
    | [] => some ⟨c, t, ctx.Breakpoint, .panic⟩
    | [a0] =>
      if ctx.Prefix = scopePrefix then
        some ⟨c, t, ctx.Breakpoint, .error (.new "no command passed to goroutine")⟩
      else if a0 = "" then
        some ⟨c, (printscope t).1, ctx.Breakpoint, (printscope t).2⟩
      else
        match Atoi argstr with
        | .error e => some ⟨c, t, ctx.Breakpoint, .error e⟩
        | .ok gid =>
          let t1 := t.record (.call .GetState)
          match t.client.GetState t.view with
          | .error e => some ⟨c, t1, ctx.Breakpoint, .error e⟩
          | .ok oldState =>
            let t2 := t1.record (.call (.SwitchGoroutine gid))
            match t1.client.SwitchGoroutine t1.view gid with
            | .error e => some ⟨c, t2, ctx.Breakpoint, .error e⟩
            | .ok newState =>
              match newState.CurrentThread with
              | none => some ⟨c, t2, ctx.Breakpoint, .panic⟩
              | some th =>
                some ⟨c, t2.record (.print ("Switched from " ++ toString (selectedGID oldState) ++
                  " to " ++ toString gid ++ " (thread " ++ toString th.ID ++ ")\n")),
                  ctx.Breakpoint, .ok⟩
    | a0 :: a1 :: _ =>
      match Atoi a0 with
      | .error e => some ⟨c, t, ctx.Breakpoint, .error e⟩
      | .ok gid =>
        CallWithContextWith exec c a1 t
          { ctx with Prefix := scopePrefix, Scope := { ctx.Scope with GoroutineID := gid } }

/-- The method `Commands.frame`; `exec` runs the handlers of the nested dispatch. -/
def frame (exec : Exec) (c : Commands) (t : Term) (ctx : callContext) (args : String) :
    Option Result :=
  match SplitN2 args with
  | v0 :: v1 :: _ =>
    match Atoi v0 with
    | .error e => some ⟨c, t, ctx.Breakpoint, .error e⟩
    | .ok idx =>
      CallWithContextWith exec c v1 t
        { ctx with Prefix := scopePrefix, Scope := { ctx.Scope with Frame := idx } }
  | _ => some ⟨c, t, ctx.Breakpoint, .error (.new "not enough arguments")⟩

/-- The method `Commands.onCmd`; `exec` runs the handlers of the nested dispatch. The result
carries the pointee of the caller's own `ctx.Breakpoint`, which `onCmd` does not write. -/
def onCmd (exec : Exec) (c : Commands) (t : Term) (ctx : callContext) (argstr : String) :
    Option Result :=
  match SplitN2 argstr with
  | a0 :: a1 :: _ =>
    match getBreakpointByIDOrName t a0 with
    | (t1, .error e) => some ⟨c, t1, ctx.Breakpoint, .error e⟩
    | (t1, .ok bp) =>
      match CallWithContextWith exec c a1 t1 { ctx with Prefix := onPrefix, Breakpoint := some bp }
      with
      | none => none
      | some r =>
        match r.ret with
        | .ok =>
          match r.bp with
          | none => some ⟨r.c, r.t, ctx.Breakpoint, .panic⟩
          | some bp1 =>
            match r.t.client.AmendBreakpoint r.t.view bp1 with
            | some e => some ⟨r.c, r.t.record (.call (.AmendBreakpoint bp1)), ctx.Breakpoint, .error e⟩
            | none => some ⟨r.c, r.t.record (.call (.AmendBreakpoint bp1)), ctx.Breakpoint, .ok⟩
        | ret => some ⟨r.c, r.t, ctx.Breakpoint, ret⟩
  | _ => some ⟨c, t, ctx.Breakpoint, .error (.new "not enough arguments")⟩

/-- The method `Commands.Call`, over `exec`. -/
def CallWith (exec : Exec) (c : Commands) (cmdstr : String) (t : Term) : Option Result :=
  CallWithContextWith exec c cmdstr t { Prefix := noPrefix, Scope := ⟨-1, 0⟩, Breakpoint := none }

/-- The loop `for scanner.Scan()` of `executeFile`; `lineno` is its counter before the line.
The result is the registry and the terminal after the last line, and true when a dispatched
line panicked. -/
def executeLines (exec : Exec) (name : String) :
    List String → Nat → Commands → Term → Option (Commands × Term × Bool)
  | [], _, c, t => some (c, t, false)
  | text :: rest, lineno, c, t =>
    let line := TrimSpace text
    let lineno := lineno + 1
    if line = "" ∨ line.data.head? = some '#' then executeLines exec name rest lineno c t
    else
      match CallWith exec c line t with
      | none => none
      | some r =>
        match r.ret with
        | .ok => executeLines exec name rest lineno r.c r.t
        | .error e => executeLines exec name rest lineno r.c (r.t.record (.lineError name lineno e))
        | .panic => some (r.c, r.t, true)

/-- The method `Commands.executeFile`. -/
def executeFile (exec : Exec) (c : Commands) (t : Term) (name : String) :
    Option (Commands × Term × Ret) :=
  match t.readFile name with
  | .error e => some (c, t, .error e)
  | .ok (lines, scanErr) =>
    match executeLines exec name lines 0 c t with
    | none => none
    | some (c1, t1, true) => some (c1, t1, .panic)
    | some (c1, t1, false) =>
      match scanErr with
      | some e => some (c1, t1, .error e)
      | none => some (c1, t1, .ok)

/-- The method `Commands.sourceCommand`. -/
def sourceCommand (exec : Exec) (c : Commands) (t : Term) (ctx : callContext) (args : String) :
    Option Result :=
  if args.length = 0 then
    some ⟨c, t, ctx.Breakpoint, .error (.new "wrong number of arguments: source <filename>")⟩
  else
    match executeFile exec c t args with
    | none => none
    | some (c1, t1, ret) => some ⟨c1, t1, ctx.Breakpoint, ret⟩

/-- One handler call: the body of each `cmdfunc`. `fuel` bounds the rounds of
`continueUntilCompleteNext`, `nested` runs the handlers of a nested dispatch, and `ext` stands
for the handlers that are not embedded. -/
def handler (ext : Extern) (fuel : Nat) (nested : Exec) : Exec := fun fn c t ctx argstr =>
  let plain (r : Term × Ret) : Option Result := some ⟨c, r.1, ctx.Breakpoint, r.2⟩
  let bound (r : Term × Option api.Breakpoint × Ret) : Option Result := some ⟨c, r.1, r.2.1, r.2.2⟩
  match fn with
  | .breakpoint => plain (breakpoint t ctx argstr)
  | .tracepoint => plain (tracepoint t ctx argstr)
  | .cont => plain (cont t ctx argstr)
  | .step => (step fuel t ctx argstr).bind plain
  | .stepInstruction => plain (stepInstruction t ctx argstr)
  | .next => (next fuel t ctx argstr).bind plain
  | .stepout => (stepout fuel t ctx argstr).bind plain
  | .clear => plain (clear t ctx argstr)
  | .clearAll => plain (clearAll t ctx argstr)
  | .goroutine => goroutine nested c t ctx argstr
  | .printVar => bound (printVar t ctx argstr)
  | .args => bound (args t ctx argstr)
  | .locals => bound (locals t ctx argstr)
  | .exitCommand => plain (exitCommand t ctx argstr)
  | .stackCommand => bound (stackCommand t ctx argstr)
  | .frame => frame nested c t ctx argstr
  | .sourceCommand => sourceCommand nested c t ctx argstr
  | .onCmd => onCmd nested c t ctx argstr
  | .conditionCmd => plain (conditionCmd t ctx argstr)
  | .rewind => plain (rewind t ctx argstr)
  | .checkpoint => plain (checkpoint t ctx argstr)
  | .clearCheckpoint => plain (clearCheckpoint t ctx argstr)
  | .noCmdAvailable => plain (noCmdAvailable t ctx argstr)
  | .nullCommand => plain (nullCommand t ctx argstr)
  | fn =>
    let r := ext fn c t ctx argstr
    some ⟨r.1, r.2.1, ctx.Breakpoint, r.2.2⟩

/-- Run a handler. A nested dispatch (under `goroutine`, `frame`, `on`, `source`) runs with
one unit of fuel less, and none is left at fuel zero. -/
def run (ext : Extern) : Nat → Exec
  | 0 => handler ext 0 (fun _ _ _ _ _ => none)
  | fuel + 1 => handler ext (fuel + 1) (run ext fuel)

/-- The method `Commands.CallWithContext`. -/
def CallWithContext (ext : Extern) (fuel : Nat) (c : Commands) (cmdstr : String) (t : Term)
    (ctx : callContext) : Option Result :=
  CallWithContextWith (run ext fuel) c cmdstr t ctx

/-- The method `Commands.Call`. -/
def Call (ext : Extern) (fuel : Nat) (c : Commands) (cmdstr : String) (t : Term) :
    Option Result :=
  CallWith (run ext fuel) c cmdstr t

/-! ## Reference notions used in the statements -/

/-- The three prefix kinds. -/
def prefixKinds : List cmdPrefix := [noPrefix, scopePrefix, onPrefix]

/-- A command is eligible for a prefix kind: the kind is `noPrefix`, or every bit of the kind
is in the command's allowed-prefix mask. -/
def eligible (v : command) (pfx : cmdPrefix) : Bool :=
  decide (pfx = noPrefix) || decide (v.allowedPrefixes &&& pfx = pfx)

/-- The first command, in list order, that has an alias equal to `input` and is eligible. -/
def firstEligible (c : Commands) (input : String) (pfx : cmdPrefix) : Option command :=
  c.cmds.find? (fun v => decide (input ∈ v.aliases) && eligible v pfx)

/-- A sequence of `Merge` calls, first to last; `none` as soon as one panics. -/
def mergeAll : List (String → Option (List String)) → Commands → Option Commands
  | [], c => some c
  | X :: Xs, c =>
    match Merge c X with
    | none => none
    | some c1 => mergeAll Xs c1

/-- The alias lists of the commands of a registry, in list order. -/
def aliasLists (c : Commands) : List (List String) := c.cmds.map (fun v => v.aliases)

/-- The aliases a built-in command is to have after `Merge(Y)`: its built-in aliases,
followed by the entry of `Y` for its canonical (first) alias when there is one. -/
def mergedAliases (Y : String → Option (List String)) (v0 : command) : List String :=
  match Y (v0.aliases.headD "") with
  | some user => v0.aliases ++ user
  | none => v0.aliases

/-- A command of a registry descends from the built-in command `v0`: the aliases it goes back
to in the first loop of `Merge` are those of `v0`. -/
def descendsFrom (v0 v : command) : Prop :=
  v0.aliases ≠ [] ∧ (restoreBuiltin v).aliases = v0.aliases

/-- The terminal after further events have been recorded. -/
def Term.extend (t : Term) (l : List Event) : Term := { t with log := t.log ++ l }

/-- An event is the display of a source location by `printfile`. -/
def Event.isPrintfile : Event → Bool
  | .printfile _ _ _ => true
  | _ => false

/-- The stream the service returns to the `i`-th `Continue` request (counted from 0) that
follows the requests `v`, no other request being sent in between. -/
def nthStream (cl : Client) (v : List Request) (i : Nat) : List api.DebuggerState :=
  cl.Continue (v ++ List.replicate i .Continue)

/-- The state whose "next in progress" flag is inspected in round `j`: the state `s0` of the
initial operation for `j = 0`, the final state of the stream of the `j`-th `Continue` after
that. -/
def finalStateAt (cl : Client) (v : List Request) (s0 : api.DebuggerState) :
    Nat → Option api.DebuggerState
  | 0 => some s0
  | j + 1 => (nthStream cl v j).getLast?

/-- The handlers that continue until the step is complete, each with its initial request. -/
def stepKinds : List (cmdfunc × Request) :=
  [(.step, .Step), (.next, .Next), (.stepout, .StepOut)]

/-- The answer of the service to the initial request of a stepping handler. -/
def initialAnswer (cl : Client) (q : Request) (v : List Request) :
    Except Err api.DebuggerState :=
  match q with
  | .Step => cl.Step v
  | .Next => cl.Next v
  | .StepOut => cl.StepOut v
  | .StepInstruction => cl.StepInstruction v
  | _ => .error (.new "not an initial request")

/-- A command word: a non-empty string without white space. -/
def isWord (a : String) : Bool := !a.data.isEmpty && a.data.all (fun ch => !isSpace ch)

/-- The argument string `CallWithContext` passes on for a command line `a ++ tail`, where
`a` is a command word and `tail` is empty or begins with a blank: the text after that blank,
trimmed on both sides. -/
def tailArgs (tail : String) : String :=
  match trimRight tail.data with
  | [] => ""
  | _ :: rest => TrimSpace ⟨rest⟩

/-- The canonical names of the commands said to accept the on-prefix. -/
def onPrefixCommands : List String := ["print", "args", "locals", "stack", "goroutine"]

/-- The request `getBreakpointByIDOrName` sends for a breakpoint reference. -/
def resolveRequest (ref : String) : Request :=
  match Atoi ref with
  | .ok id => .GetBreakpoint id
  | .error _ => .GetBreakpointByName ref

/-- A way to run handlers keeps a bound breakpoint bound: when `ctx.Breakpoint` is not nil,
the result carries a pointee for it. -/
def KeepsBound (exec : Exec) : Prop :=
  ∀ fn c t ctx args r, ctx.Breakpoint ≠ none → exec fn c t ctx args = some r → r.bp ≠ none

/-- The handler `fn` is invoked by one of the events `l`. -/
def invoked (fn : cmdfunc) (l : List Event) : Bool :=
  l.any (fun e =>
    match e with
    | .invoke f _ _ => decide (f = fn)
    | _ => false)

/-- The request `AmendBreakpoint` is sent by one of the events `l`. -/
def amended (l : List Event) : Bool :=
  l.any (fun e =>
    match e with
    | .call (.AmendBreakpoint _) => true
    | _ => false)

/-- The aliases of the stepping commands `step`, `step-instruction`, `next` and `stepout`. -/
def steppingAliases : List String := ["step", "s", "step-instruction", "si", "next", "n", "stepout"]

/-- The handlers of the stepping commands. -/
def steppingHandlers : List cmdfunc := [.step, .stepInstruction, .next, .stepout]

/-- The number of states the loop `for state = range stateChan` (of `cont`, of
`continueUntilCompleteNext` and of `rewind`) receives from a stream when no display fails: one
per iteration, and the function returns inside the iteration of the first state that carries
an error. -/
def received : List api.DebuggerState → Nat
  | [] => 0
  | state :: rest =>
    match state.Err with
    | some _ => 1
    | none => 1 + received rest

/-- The report `fmt.Printf("\tbreakpoint hit during %s, continuing...\n", op)` of
`continueUntilCompleteNext`. -/
def continuingReport (op : String) : Event :=
  .print ("\tbreakpoint hit during " ++ op ++ ", continuing...\n")

/-- The handlers that continue until the step is complete, each with its initial request and
with the name `op` it passes to `continueUntilCompleteNext`. -/
def stepOps : List (cmdfunc × Request × String) :=
  [(.step, .Step, "step"), (.next, .Next, "next"), (.stepout, .StepOut, "stepout")]

/-- The record of `k` rounds of the loop of `continueUntilCompleteNext` that starts after the
requests `v`, when no state carries an error: each round is a `Continue` request and the
display of the states of its stream, and the report stands between two rounds. -/
def roundsLog (cl : Client) (op : String) : Nat → List Request → List Event
  | 0, _ => []
  | 1, v => .call .Continue :: (cl.Continue v).map .printcontext
  | k + 2, v =>
    .call .Continue :: (cl.Continue v).map .printcontext ++
      continuingReport op :: roundsLog cl op (k + 1) (v ++ [.Continue])

/-- The `switch len(args)` of `setBreakpoint`: the name it requests and the location specifier
of its first resolution. -/
def nameAndLocspec (t : Term) (argstr : String) : String × String :=
  match SplitN2 argstr with
  | [a0, a1] => if t.validBreakpointName a0 then (a0, a1) else ("", argstr)
  | _ => ("", argstr)

/-- The breakpoint `setBreakpoint` requests at a location: the value `requestedBp` with the
name, the tracepoint flag and the address of the location. -/
def requestedAt (name : String) (tracepoint : Bool) (loc : api.Location) : api.Breakpoint :=
  { emptyBreakpoint with Name := name, Tracepoint := tracepoint, Addr := loc.PC }

/-- The handlers that create breakpoints, each with the tracepoint flag it passes to
`setBreakpoint`. -/
def creators : List (cmdfunc × Bool) := [(.breakpoint, false), (.tracepoint, true)]

/-- The two tests of the loop of `clearAll`: a listed breakpoint reaches `ClearBreakpoint` when
its address is in the resolved set (when there is one) and its id is not negative. -/
def clearable (locPCs : Option (List Nat)) (bp : api.Breakpoint) : Bool :=
  (match locPCs with
   | some pcs => pcs.contains bp.Addr
   | none => true) && decide (0 ≤ bp.ID)

/-- The location `checkpoint` makes its label from: the current location of the selected
goroutine when there is one, the location of the current thread `th` otherwise. -/
def labelLocation (state : api.DebuggerState) (th : api.Thread) : api.Location :=
  match state.SelectedGoroutine with
  | some g => g.CurrentLoc
  | none => { PC := th.PC, File := th.File, Line := th.Line, Function := th.Function }

/-- The label `fmt.Sprintf("%s() %s:%d (%#x)", fname, loc.File, loc.Line, loc.PC)` of
`checkpoint`, where `fname` is the name of the function, or `???` when there is none. -/
def checkpointLabel (loc : api.Location) : String :=
  (match loc.Function with
   | some f => f.Name
   | none => "???") ++ "() " ++ loc.File ++ ":" ++ toString loc.Line ++ " (" ++ hex loc.PC ++ ")"

/-- The command lines of a file whose first line has the number `first`: each line trimmed,
with its number, those dropped that are empty or begin with `#`. -/
def commandLinesFrom (first : Nat) (lines : List String) : List (Nat × String) :=
  ((lines.enumFrom first).map (fun p => (p.1, TrimSpace p.2))).filter
    (fun p => !(decide (p.2 = "") || decide (p.2.data.head? = some '#')))

/-- The command lines of a file, numbered from 1. -/
def commandLines (lines : List String) : List (Nat × String) := commandLinesFrom 1 lines

/-- Dispatch numbered command lines one after the other with `Call`: an error is reported
with the file name and the number of the line and the next line is dispatched all the same;
a panic ends the run. The result is as for `executeLines`. -/
def dispatchLines (exec : Exec) (name : String) :
    List (Nat × String) → Commands → Term → Option (Commands × Term × Bool)
  | [], c, t => some (c, t, false)
  | (i, line) :: rest, c, t =>
    match CallWith exec c line t with
    | none => none
    | some r =>
      match r.ret with
      | .ok => dispatchLines exec name rest r.c r.t
      | .error e => dispatchLines exec name rest r.c (r.t.record (.lineError name i e))
      | .panic => some (r.c, r.t, true)

/-- The canonical alias of a command: the first one. -/
def firstAlias (v : command) : String := v.aliases.headD ""

/-- The aliases of the four commands of a recording. -/
def recordingAliases : List String :=
  ["rewind", "rw", "check", "checkpoint", "checkpoints", "clear-checkpoint", "clearcheck"]

/-- The options the help text of `stack` lists. -/
def stackOptions : List String := ["-full", "-g", "-s", "-offsets"]

/-! ## A sample service, for the concrete instances -/

/-- A state stopped at a line of `main.go`, with the given "next in progress" flag. -/
def sampleState (inProgress : Bool) (line : Int) : api.DebuggerState :=
  { CurrentThread := some ⟨1, 4096, "main.go", line, some ⟨"main.worker", false⟩, 1, none, none⟩,
    SelectedGoroutine := none, NextInProgress := inProgress, Err := none, When := "",
    Threads := [] }

/-- The breakpoint number 1 of the sample service, with one deferred expression. -/
def sampleBreakpoint : api.Breakpoint :=
  { emptyBreakpoint with ID := 1, Addr := 4096, File := "main.go", Line := 10,
                         Variables := ["a"] }

/-- A service: `Step` stops at line 10 with the step still in progress; the first `Continue`
after it delivers one state, at line 20, where the step is complete; breakpoint 1 exists and
no other; amending succeeds. -/
def sampleClient : Client :=
  { Recorded := false
    GetState := fun _ => .ok (sampleState false 10)
    Continue := fun v =>
      if v.count .Continue = 0 then [sampleState false 20] else [sampleState false 30]
    Rewind := fun _ => [sampleState false 5]
    Step := fun _ => .ok (sampleState true 10)
    StepInstruction := fun _ => .ok (sampleState false 11)
    Next := fun _ => .ok (sampleState true 10)
    StepOut := fun _ => .ok (sampleState true 10)
    SwitchGoroutine := fun _ _ => .ok (sampleState false 10)
    GetBreakpoint := fun _ id =>
      if id = 1 then .ok sampleBreakpoint else .error (.service "no breakpoint with this id")
    GetBreakpointByName := fun _ _ => .error (.service "no breakpoint with this name")
    CreateBreakpoint := fun _ bp => .ok bp
    AmendBreakpoint := fun _ _ => none
    ClearBreakpoint := fun _ _ => .ok sampleBreakpoint
    ClearBreakpointByName := fun _ _ => .error (.service "no breakpoint with this name")
    ListBreakpoints := fun _ => .ok [sampleBreakpoint]
    FindLocation := fun _ _ _ => .ok [⟨4096, "main.go", 10, some ⟨"main.worker", false⟩⟩]
    EvalVariable := fun _ _ expr _ => .ok ⟨expr, "1"⟩
    ListFunctionArgs := fun _ _ _ => .ok []
    ListLocalVariables := fun _ _ _ => .ok []
    Stacktrace := fun _ _ _ _ => .ok []
    Checkpoint := fun _ _ => .ok 1
    ClearCheckpoint := fun _ _ => none }

/-- A terminal on the sample service, with an empty record. -/
def sampleTerm : Term :=
  { client := sampleClient, loadConfig := LongLoadConfig,
    validBreakpointName := fun _ => false, regexpCompile := fun _ => none,
    readFile := fun _ => .error (.service "no such file"), log := [] }

/-- A state that carries an error. -/
def errorState : api.DebuggerState :=
  { sampleState false 20 with Err := some (.service "process exited") }

/-- A service like the sample one, except that the streams of `Continue` and `Rewind` are a
state at line 15, then a state that carries an error, then a state at line 30. -/
def failingClient : Client :=
  { sampleClient with
    Continue := fun _ => [sampleState false 15, errorState, sampleState false 30]
    Rewind := fun _ => [sampleState false 15, errorState, sampleState false 30] }

/-- A terminal on the failing service, with an empty record. -/
def failingTerm : Term := { sampleTerm with client := failingClient }

/-- A service like the sample one, except that the first `Continue` stops at line 20 with the
step still in progress, and the second one completes it at line 30. -/
def busyClient : Client :=
  { sampleClient with
    Continue := fun v =>
      if v.count .Continue = 0 then [sampleState true 20] else [sampleState false 30] }

/-- A terminal on the busy service, with an empty record. -/
def busyTerm : Term := { sampleTerm with client := busyClient }

/-- A service like the sample one, where every location specifier resolves to three
addresses. -/
def inlinedClient : Client :=
  { sampleClient with
    FindLocation := fun _ _ _ =>
      .ok [⟨4096, "main.go", 10, some ⟨"main.worker", false⟩⟩,
           ⟨4200, "main.go", 10, some ⟨"main.worker", false⟩⟩,
           ⟨4300, "main.go", 10, some ⟨"main.worker", false⟩⟩] }

/-- A terminal on that service, for which `mybp` is the valid breakpoint name. -/
def inlinedTerm : Term :=
  { sampleTerm with client := inlinedClient, validBreakpointName := fun s => s == "mybp" }

/-- A service like the sample one, where the specifiers `main.go:10` and `mybp +1` resolve to
one address each and no other specifier resolves. -/
def namingClient : Client :=
  { sampleClient with
    FindLocation := fun _ _ loc =>
      if loc = "main.go:10" then .ok [⟨4096, "main.go", 10, some ⟨"main.worker", false⟩⟩]
      else if loc = "mybp +1" then .ok [⟨4200, "main.go", 11, some ⟨"main.worker", false⟩⟩]
      else .error (.service ("location not found: " ++ loc)) }

/-- A terminal on that service, for which `mybp` is the valid breakpoint name. -/
def namingTerm : Term :=
  { sampleTerm with client := namingClient, validBreakpointName := fun s => s == "mybp" }

/-- A service like the sample one, with four breakpoints: number 1 at the address 4096, whose
deletion fails, an internal one (id -1) at the same address, number 2 at another address, and
number 3 at the address 4096. -/
def crowdedClient : Client :=
  { sampleClient with
    ListBreakpoints := fun _ =>
      .ok [sampleBreakpoint,
           { sampleBreakpoint with ID := -1 },
           { sampleBreakpoint with ID := 2, Addr := 5000, Line := 40 },
           { sampleBreakpoint with ID := 3 }]
    ClearBreakpoint := fun _ id =>
      if id = 1 then .error (.service "could not remove breakpoint")
      else .ok { sampleBreakpoint with ID := id } }

/-- A terminal on the crowded service, with an empty record. -/
def crowdedTerm : Term := { sampleTerm with client := crowdedClient }

/-- A state whose selected goroutine is at `(main.worker, file.ext, 42, 0x1000)`, the current
thread being elsewhere, in a function that is not known. -/
def workerState : api.DebuggerState :=
  { CurrentThread := some ⟨1, 8192, "proc.go", 7, none, 5, none, none⟩,
    SelectedGoroutine := some
      { ID := 5,
        CurrentLoc := ⟨4096, "file.ext", 42, some ⟨"main.worker", false⟩⟩,
        UserCurrentLoc := ⟨4096, "file.ext", 42, some ⟨"main.worker", false⟩⟩,
        GoStatementLoc := ⟨4000, "file.ext", 30, some ⟨"main.main", false⟩⟩,
        ThreadID := 0 },
    NextInProgress := false, Err := none, When := "", Threads := [] }

/-- A recording, like the sample service, whose state is `workerState`. -/
def recordedClient : Client :=
  { sampleClient with Recorded := true, GetState := fun _ => .ok workerState }

/-- A terminal on the recording, with an empty record. -/
def recordedTerm : Term := { sampleTerm with client := recordedClient }

/-- A terminal on the sample service that can read the command file `init.dlv`: a comment, a
blank line, a command that does not exist, a `print`, an indented comment and `exit`. -/
def scriptTerm : Term :=
  { sampleTerm with
    readFile := fun name =>
      if name = "init.dlv" then
        .ok (["# set up", "", "  bogus  ", "print a", "   # done", "exit"], none)
      else .error (.service "no such file") }

/-- A service like the sample one, where every `Continue` stops at line 20 with the step
still in progress. -/
def spinningClient : Client :=
  { sampleClient with Continue := fun _ => [sampleState true 20] }

/-- A terminal on the spinning service, with an empty record. -/
def spinningTerm : Term := { sampleTerm with client := spinningClient }

/-- A way to run handlers in which every handler returns the error `noCmdError` and changes
nothing. -/
def refusingExec : Exec := fun _ c t ctx _ => some ⟨c, t, ctx.Breakpoint, .error .noCmdError⟩

/-- A state without an error whose current thread has a file and a line but no function. -/
def bareState (inProgress : Bool) : api.DebuggerState :=
  { CurrentThread := some ⟨1, 8192, "proc.go", 7, none, 5, none, none⟩,
    SelectedGoroutine := none, NextInProgress := inProgress, Err := none, When := "",
    Threads := [] }

/-- A service like the sample one, where `Step`, `Next` and `StepOut` stop in a function that
is not known, with the step still in progress, and the stream of every `Continue` is one
state, in a function that is not known, on which the step is complete. -/
def bareClient : Client :=
  { sampleClient with
    Step := fun _ => .ok (bareState true)
    Next := fun _ => .ok (bareState true)
    StepOut := fun _ => .ok (bareState true)
    Continue := fun _ => [bareState false] }

/-- A terminal on the bare service, with an empty record. -/
def bareTerm : Term := { sampleTerm with client := bareClient }

/-- A service like the sample one, where the stream of `Continue` is a state in a function
that is not known, then a state that carries an error. -/
def bareFailingClient : Client :=
  { sampleClient with Continue := fun _ => [bareState false, errorState] }

/-- A terminal on that service, with an empty record. -/
def bareFailingTerm : Term := { sampleTerm with client := bareFailingClient }

/-- A state without a current thread, on which no step is in progress. -/
def idleState : api.DebuggerState :=
  { CurrentThread := none, SelectedGoroutine := none, NextInProgress := false, Err := none,
    When := "", Threads := [] }

/-- A state whose selected goroutine is at `(main.worker, file.ext, 42, 0x1000)` and which has
no current thread. -/
def strandedState : api.DebuggerState := { workerState with CurrentThread := none }

/-- A recording, like the sample service, whose state is `strandedState`. -/
def strandedClient : Client :=
  { sampleClient with Recorded := true, GetState := fun _ => .ok strandedState }

/-- A terminal on that recording, with an empty record. -/
def strandedTerm : Term := { sampleTerm with client := strandedClient }

/-- The built-in command `continue`, which accepts no prefix. -/
def continueCommand : command :=
  { aliases := ["continue", "c"], cmdFn := .cont,
    helpMsg := "Run until breakpoint or program termination." }

/-- The context `Call` starts from. -/
def plainContext : callContext := { Prefix := noPrefix, Scope := ⟨-1, 0⟩, Breakpoint := none }

/-- Handlers without an embedded body, taken to do nothing. -/
def sampleExtern : Extern := fun _ c t _ _ => (c, t, .ok)

/-! ## Lemmas on the registry -/

theorem matchAliases_iff (s : String) (l : List String) : matchAliases s l = true ↔ s ∈ l := by
  induction l with
  | nil => simp [matchAliases]
  | cons v rest ih =>
    by_cases h : v = s
    · simp [matchAliases, h]
    · have h1 : ¬ s = v := fun e => h e.symm
      simp [matchAliases, h, h1, ih]

theorem land_two_pow_cases (m k : Nat) : m &&& 2 ^ k = 0 ∨ m &&& 2 ^ k = 2 ^ k := by
  by_cases h : m.testBit k
  · right
    apply Nat.eq_of_testBit_eq
    intro i
    rw [Nat.testBit_and, Nat.testBit_two_pow]
    by_cases e : k = i
    · subst e; simp [h]
    · simp [e]
  · left
    apply Nat.eq_of_testBit_eq
    intro i
    rw [Nat.testBit_and, Nat.testBit_two_pow]
    by_cases e : k = i
    · subst e; simp [h]
    · simp [e]

theorem skip_iff_not_eligible (v : command) (pfx : cmdPrefix) (hp : pfx ∈ prefixKinds) :
    (pfx ≠ noPrefix ∧ v.allowedPrefixes &&& pfx = 0) ↔ eligible v pfx = false := by
  simp only [prefixKinds, List.mem_cons, List.mem_singleton, List.not_mem_nil, or_false] at hp
  rcases hp with h | h | h
  · subst h; simp [eligible, noPrefix]
  · subst h
    have hc : v.allowedPrefixes &&& 2 = 0 ∨ v.allowedPrefixes &&& 2 = 2 :=
      land_two_pow_cases v.allowedPrefixes 1
    have e : scopePrefix = 2 := by decide
    rw [e]
    rcases hc with hc | hc <;> simp [eligible, noPrefix, hc]
  · subst h
    have hc : v.allowedPrefixes &&& 4 = 0 ∨ v.allowedPrefixes &&& 4 = 4 :=
      land_two_pow_cases v.allowedPrefixes 2
    have e : onPrefix = 4 := by decide
    rw [e]
    rcases hc with hc | hc <;> simp [eligible, noPrefix, hc]

theorem findLoop_eq_find (input : String) (pfx : cmdPrefix) (hp : pfx ∈ prefixKinds)
    (l : List command) :
    findLoop input pfx l =
      (l.find? (fun v => decide (input ∈ v.aliases) && eligible v pfx)).map (fun v => v.cmdFn) := by
  induction l with
  | nil => rfl
  | cons v rest ih =>
    have hs := skip_iff_not_eligible v pfx hp
    by_cases hm : input ∈ v.aliases
    · have hm1 : command.match v input = true := (matchAliases_iff input v.aliases).2 hm
      by_cases he : eligible v pfx = true
      · have hns : ¬ (pfx ≠ noPrefix ∧ v.allowedPrefixes &&& pfx = 0) := by
          rw [hs]; simp [he]
        simp only [findLoop, hm1, if_true, if_neg hns, List.find?, hm, decide_True, he,
          Bool.and_self, Option.map_some']
      · have he1 : eligible v pfx = false := by simpa using he
        have hsk : pfx ≠ noPrefix ∧ v.allowedPrefixes &&& pfx = 0 := hs.2 he1
        simp only [findLoop, hm1, if_true, if_pos hsk, List.find?, hm, decide_True, he1,
          Bool.and_false, ih]
    · have hm1 : command.match v input = false := by
        cases h : command.match v input
        · rfl
        · exact absurd ((matchAliases_iff input v.aliases).1 h) hm
      simp only [findLoop, hm1, List.find?, hm, decide_False, Bool.false_and, ih]
      simp

theorem run_noCmdAvailable (ext : Extern) (fuel : Nat) (c : Commands) (t : Term)
    (ctx : callContext) (args : String) :
    run ext fuel .noCmdAvailable c t ctx args = some ⟨c, t, ctx.Breakpoint, .error .noCmdError⟩ := by
  cases fuel <;> rfl

theorem run_nullCommand (ext : Extern) (fuel : Nat) (c : Commands) (t : Term)
    (ctx : callContext) (args : String) :
    run ext fuel .nullCommand c t ctx args = some ⟨c, t, ctx.Breakpoint, .ok⟩ := by
  cases fuel <;> rfl

/-! ## C1: `Register` on an existing alias -/

set_option maxRecDepth 100000 in
/-- C1, evaluated on the code: in the default registry `help` is an alias of an existing
command; after `Register("help", h, ...)` with a new handler `h` the registry is unchanged and
`Find("help", noPrefix)` still returns the old handler `help`, not `h`. -/
theorem Register_existing_alias_keeps_old_handler :
    Register (DebugCommands none) "help" (.custom 0) "new help" = DebugCommands none ∧
    (Find (Register (DebugCommands none) "help" (.custom 0) "new help") "help" noPrefix).1
      = cmdfunc.help ∧
    (Find (Register (DebugCommands none) "help" (.custom 0) "new help") "help" noPrefix).1
      ≠ cmdfunc.custom 0 := by
  decide

/-! ## C3: `Find` on a non-empty input -/

/-- C3: for a non-empty input and a prefix kind, `Find` returns the handler of the first
command in list order that has an alias equal to the input and is eligible, and records it in
`lastCmd`; when there is none it returns `noCmdAvailable` (leaving the registry as it is), and
`noCmdAvailable` returns the error `noCmdError` for every terminal, context and argument. -/
theorem Find_returns_first_eligible (c : Commands) (input : String) (pfx : cmdPrefix)
    (hin : input ≠ "") (hp : pfx ∈ prefixKinds) :
    Find c input pfx =
      (match firstEligible c input pfx with
       | some v => (v.cmdFn, { c with lastCmd := some v.cmdFn })
       | none => (cmdfunc.noCmdAvailable, c)) ∧
    ∀ (ext : Extern) (fuel : Nat) (c1 : Commands) (t : Term) (ctx : callContext) (args : String),
      run ext fuel .noCmdAvailable c1 t ctx args
        = some ⟨c1, t, ctx.Breakpoint, .error .noCmdError⟩ := by
  refine ⟨?_, fun ext fuel c1 t ctx args => run_noCmdAvailable ext fuel c1 t ctx args⟩
  unfold Find firstEligible
  rw [if_neg hin, findLoop_eq_find input pfx hp]
  cases List.find? (fun v => decide (input ∈ v.aliases) && eligible v pfx) c.cmds <;> rfl

/-- C3 at a concrete input: `p` under the on-prefix in the default registry. -/
theorem Find_returns_first_eligible_witness :
    ("p" ≠ "" ∧ onPrefix ∈ prefixKinds) ∧
    Find (DebugCommands none) "p" onPrefix =
      (match firstEligible (DebugCommands none) "p" onPrefix with
       | some v => (v.cmdFn, { DebugCommands none with lastCmd := some v.cmdFn })
       | none => (cmdfunc.noCmdAvailable, DebugCommands none)) :=
  ⟨⟨by decide, by decide⟩,
   (Find_returns_first_eligible (DebugCommands none) "p" onPrefix (by decide) (by decide)).1⟩

/-! ## C5: `Find` on the empty input -/

/-- C5: `Find("", q)` returns the recorded `lastCmd` when there is one, whatever the prefix
kind `q`, and `nullCommand` when there is none; `nullCommand` returns nil for every terminal,
context and argument; and after a `Find(a, p)` that found the command `v`, `Find("", q)` returns
exactly the handler that call returned. -/
theorem Find_empty_input_replays_last (c : Commands) (q : cmdPrefix) :
    (∀ h, c.lastCmd = some h → Find c "" q = (h, c)) ∧
    (c.lastCmd = none → Find c "" q = (cmdfunc.nullCommand, c)) ∧
    (∀ (ext : Extern) (fuel : Nat) (c1 : Commands) (t : Term) (ctx : callContext)
        (args : String),
      run ext fuel .nullCommand c1 t ctx args = some ⟨c1, t, ctx.Breakpoint, .ok⟩) ∧
    (∀ a p v, a ≠ "" → p ∈ prefixKinds → firstEligible c a p = some v →
      (Find c a p).1 = v.cmdFn ∧ (Find (Find c a p).2 "" q).1 = (Find c a p).1) := by
  refine ⟨?_, ?_, fun ext fuel c1 t ctx args => run_nullCommand ext fuel c1 t ctx args, ?_⟩
  · intro h hl
    simp [Find, hl]
  · intro hl
    simp [Find, hl]
  · intro a p v ha hp hv
    have hf : findLoop a p c.cmds = some v.cmdFn := by
      rw [findLoop_eq_find a p hp]
      unfold firstEligible at hv
      rw [hv]; rfl
    have h1 : Find c a p = (v.cmdFn, { c with lastCmd := some v.cmdFn }) := by
      unfold Find
      rw [if_neg ha, hf]
    rw [h1]
    exact ⟨rfl, by simp [Find]⟩

set_option maxRecDepth 100000 in
/-- C5 at concrete inputs: the default registry has no last command, so the empty input gives
`nullCommand`; after `Find("c", noPrefix)` found `continue`, the empty input under the scope
prefix gives the handler `cont` again. -/
theorem Find_empty_input_replays_last_witness :
    ((DebugCommands none).lastCmd = none ∧ "c" ≠ "" ∧ noPrefix ∈ prefixKinds ∧
      firstEligible (DebugCommands none) "c" noPrefix =
        some { aliases := ["continue", "c"], cmdFn := .cont,
               helpMsg := "Run until breakpoint or program termination." }) ∧
    Find (DebugCommands none) "" scopePrefix = (cmdfunc.nullCommand, DebugCommands none) ∧
    (Find (DebugCommands none) "c" noPrefix).1 = cmdfunc.cont ∧
    (Find (Find (DebugCommands none) "c" noPrefix).2 "" scopePrefix).1
      = (Find (DebugCommands none) "c" noPrefix).1 :=
  have hv : firstEligible (DebugCommands none) "c" noPrefix =
      some { aliases := ["continue", "c"], cmdFn := .cont,
             helpMsg := "Run until breakpoint or program termination." } := by decide
  ⟨⟨by decide, by decide, by decide, hv⟩,
   (Find_empty_input_replays_last (DebugCommands none) scopePrefix).2.1 (by decide),
   ((Find_empty_input_replays_last (DebugCommands none) scopePrefix).2.2.2 "c" noPrefix _
      (by decide) (by decide) hv).1,
   ((Find_empty_input_replays_last (DebugCommands none) scopePrefix).2.2.2 "c" noPrefix _
      (by decide) (by decide) hv).2⟩

/-! ## C6 and C7: `Merge` -/

theorem mergeOne_restore_fixed (X : String → Option (List String)) (v w : command)
    (h : mergeOne X (restoreBuiltin v) = some w) : mergeOne X (restoreBuiltin w) = some w := by
  rcases v with ⟨al, bi, ap, hm, fn⟩
  cases bi with
  | none =>
    cases al with
    | nil => simp [restoreBuiltin, mergeOne] at h
    | cons a0 rest =>
      simp only [restoreBuiltin, mergeOne] at h
      cases hx : X a0 with
      | none =>
        rw [hx] at h
        simp only [Option.some.injEq] at h
        subst h
        simp [restoreBuiltin, mergeOne, hx]
      | some u =>
        rw [hx] at h
        simp only [if_true, Option.some.injEq] at h
        subst h
        simp [restoreBuiltin, mergeOne, hx]
  | some b =>
    cases b with
    | nil => simp [restoreBuiltin, mergeOne] at h
    | cons a0 rest =>
      simp only [restoreBuiltin, mergeOne] at h
      cases hx : X a0 with
      | none =>
        rw [hx] at h
        simp only [Option.some.injEq] at h
        subst h
        simp [restoreBuiltin, mergeOne, hx]
      | some u =>
        rw [hx] at h
        simp only [Option.some.injEq] at h
        subst h
        simp [restoreBuiltin, mergeOne, hx]

theorem mergeLoop_restore_fixed (X : String → Option (List String)) (l l1 : List command)
    (h : mergeLoop X (l.map restoreBuiltin) = some l1) :
    mergeLoop X (l1.map restoreBuiltin) = some l1 := by
  induction l generalizing l1 with
  | nil =>
    simp only [List.map, mergeLoop, Option.some.injEq] at h
    subst h; rfl
  | cons v rest ih =>
    simp only [List.map, mergeLoop] at h
    cases h1 : mergeOne X (restoreBuiltin v) with
    | none => rw [h1] at h; simp at h
    | some w =>
      rw [h1] at h
      cases h2 : mergeLoop X (List.map restoreBuiltin rest) with
      | none => rw [h2] at h; simp at h
      | some rest1 =>
        rw [h2] at h
        simp only [Option.some.injEq] at h
        subst h
        simp only [List.map, mergeLoop, mergeOne_restore_fixed X v w h1, ih rest1 h2]

theorem mergeLoop_total (X : String → Option (List String)) (l : List command)
    (hwf : ∀ v ∈ l, v.aliases ≠ [] ∧ v.builtinAliases ≠ some []) :
    ∃ l1, mergeLoop X (l.map restoreBuiltin) = some l1 := by
  induction l with
  | nil => exact ⟨[], rfl⟩
  | cons v rest ih =>
    obtain ⟨rest1, hr⟩ := ih (fun u hu => hwf u (List.mem_cons_of_mem _ hu))
    have hv := hwf v (List.mem_cons_self _ _)
    have h1 : ∃ w, mergeOne X (restoreBuiltin v) = some w := by
      rcases v with ⟨al, bi, ap, hm, fn⟩
      cases bi with
      | none =>
        cases al with
        | nil => simp at hv
        | cons a0 r =>
          simp only [restoreBuiltin, mergeOne]
          cases X a0 <;> simp
      | some b =>
        cases b with
        | nil => simp at hv
        | cons a0 r =>
          simp only [restoreBuiltin, mergeOne]
          cases X a0 <;> simp
    obtain ⟨w, hw⟩ := h1
    exact ⟨w :: rest1, by simp only [List.map, mergeLoop, hw, hr]⟩

/-- C6: `Merge` is idempotent. When `Merge(X)` returns, a second `Merge(X)` returns as well
and leaves the registry, hence the alias list of every command, as the first call left it;
and `Merge(X)` returns on every registry whose commands have an alias (and no empty built-in
list). -/
theorem Merge_idempotent (c : Commands) (X : String → Option (List String)) :
    (∀ c1, Merge c X = some c1 →
      ∃ c2, Merge c1 X = some c2 ∧ aliasLists c2 = aliasLists c1 ∧ c2 = c1) ∧
    ((∀ v ∈ c.cmds, v.aliases ≠ [] ∧ v.builtinAliases ≠ some []) →
      ∃ c1, Merge c X = some c1) := by
  constructor
  · intro c1 h
    unfold Merge at h
    cases h1 : mergeLoop X (List.map restoreBuiltin c.cmds) with
    | none => rw [h1] at h; simp at h
    | some l1 =>
      rw [h1] at h
      simp only [Option.some.injEq] at h
      subst h
      refine ⟨_, ?_, rfl, rfl⟩
      unfold Merge
      simp only [mergeLoop_restore_fixed X c.cmds l1 h1]
  · intro hwf
    obtain ⟨l1, h1⟩ := mergeLoop_total X c.cmds hwf
    exact ⟨{ c with cmds := l1 }, by unfold Merge; rw [h1]⟩

set_option maxRecDepth 100000 in
/-- C6 at a concrete input: the default registry and the mapping that gives `continue` the
user alias `go`. The merged alias list of `continue` is `continue, c, go`, also after the
second call. -/
theorem Merge_idempotent_witness :
    (∀ v ∈ (DebugCommands none).cmds, v.aliases ≠ [] ∧ v.builtinAliases ≠ some []) ∧
    (∃ c1, Merge (DebugCommands none) (fun s => if s = "continue" then some ["go"] else none)
        = some c1 ∧
      ["continue", "c", "go"] ∈ aliasLists c1 ∧
      ∃ c2, Merge c1 (fun s => if s = "continue" then some ["go"] else none) = some c2 ∧
        aliasLists c2 = aliasLists c1 ∧ c2 = c1) :=
  have hwf : ∀ v ∈ (DebugCommands none).cmds, v.aliases ≠ [] ∧ v.builtinAliases ≠ some [] := by
    decide
  have hin : ∀ c1, Merge (DebugCommands none)
      (fun s => if s = "continue" then some ["go"] else none) = some c1 →
      ["continue", "c", "go"] ∈ aliasLists c1 := by
    intro c1 h
    have h2 : (Merge (DebugCommands none)
        (fun s => if s = "continue" then some ["go"] else none)).map
        (fun c => decide (["continue", "c", "go"] ∈ aliasLists c)) = some true := by decide
    rw [h] at h2
    simpa using h2
  ⟨hwf,
   match (Merge_idempotent (DebugCommands none)
      (fun s => if s = "continue" then some ["go"] else none)).2 hwf with
   | ⟨c1, h1⟩ =>
     ⟨c1, h1, hin c1 h1,
      (Merge_idempotent (DebugCommands none)
        (fun s => if s = "continue" then some ["go"] else none)).1 c1 h1⟩⟩

theorem DebugCommands_eq (client : Option Client) :
    DebugCommands client = DebugCommands none ∨
    DebugCommands client = { cmds := sortByFirstAlias builtinCommands } := by
  unfold DebugCommands
  cases h : client.all (fun cl => cl.Recorded)
  · right; simp
  · left; simp [Option.all]

set_option maxRecDepth 100000 in
theorem DebugCommands_fresh (client : Option Client) :
    ∀ v ∈ (DebugCommands client).cmds, v.aliases ≠ [] ∧ v.builtinAliases = none := by
  rcases DebugCommands_eq client with h | h <;> rw [h] <;> decide

theorem descendsFrom_self (l : List command)
    (h : ∀ v ∈ l, v.aliases ≠ [] ∧ v.builtinAliases = none) :
    List.Forall₂ descendsFrom l l := by
  induction l with
  | nil => exact List.Forall₂.nil
  | cons v rest ih =>
    refine List.Forall₂.cons ?_ (ih (fun u hu => h u (List.mem_cons_of_mem _ hu)))
    have hv := h v (List.mem_cons_self _ _)
    exact ⟨hv.1, by simp [restoreBuiltin, hv.2]⟩

theorem mergeOne_descends (X : String → Option (List String)) (v0 v : command)
    (h : descendsFrom v0 v) :
    ∃ w, mergeOne X (restoreBuiltin v) = some w ∧ descendsFrom v0 w ∧
      w.aliases = mergedAliases X v0 := by
  obtain ⟨hne, hal⟩ := h
  rcases v0 with ⟨al0, bi0, ap0, hm0, fn0⟩
  rcases v with ⟨al, bi, ap, hm, fn⟩
  simp only at hne
  cases al0 with
  | nil => exact absurd rfl hne
  | cons a0 r0 =>
    cases bi with
    | none =>
      simp only [restoreBuiltin] at hal
      subst hal
      cases hx : X a0 with
      | none =>
        refine ⟨⟨a0 :: r0, none, ap, hm, fn⟩, ?_, ⟨hne, ?_⟩, ?_⟩
        · simp [restoreBuiltin, mergeOne, hx]
        · simp [restoreBuiltin]
        · simp [mergedAliases, hx]
      | some u =>
        refine ⟨⟨(a0 :: r0) ++ u, some (a0 :: r0), ap, hm, fn⟩, ?_, ⟨hne, ?_⟩, ?_⟩
        · simp [restoreBuiltin, mergeOne, hx]
        · simp [restoreBuiltin]
        · simp [mergedAliases, hx]
    | some b =>
      simp only [restoreBuiltin] at hal
      subst hal
      cases hx : X a0 with
      | none =>
        refine ⟨⟨a0 :: r0, some (a0 :: r0), ap, hm, fn⟩, ?_, ⟨hne, ?_⟩, ?_⟩
        · simp [restoreBuiltin, mergeOne, hx]
        · simp [restoreBuiltin]
        · simp [mergedAliases, hx]
      | some u =>
        refine ⟨⟨(a0 :: r0) ++ u, some (a0 :: r0), ap, hm, fn⟩, ?_, ⟨hne, ?_⟩, ?_⟩
        · simp [restoreBuiltin, mergeOne, hx]
        · simp [restoreBuiltin]
        · simp [mergedAliases, hx]

theorem mergeLoop_descends (X : String → Option (List String)) (l0 l : List command)
    (h : List.Forall₂ descendsFrom l0 l) :
    ∃ l1, mergeLoop X (l.map restoreBuiltin) = some l1 ∧ List.Forall₂ descendsFrom l0 l1 ∧
      l1.map (fun v => v.aliases) = l0.map (mergedAliases X) := by
  induction h with
  | nil => exact ⟨[], rfl, List.Forall₂.nil, rfl⟩
  | cons hv _ ih =>
    obtain ⟨rest1, hr, hd, ha⟩ := ih
    obtain ⟨w, hw, hdw, haw⟩ := mergeOne_descends X _ _ hv
    exact ⟨w :: rest1, by simp only [List.map, mergeLoop, hw, hr],
      List.Forall₂.cons hdw hd, by simp only [List.map, haw, ha]⟩

theorem Merge_descends (X : String → Option (List String)) (l0 : List command) (c : Commands)
    (h : List.Forall₂ descendsFrom l0 c.cmds) :
    ∃ c1, Merge c X = some c1 ∧ List.Forall₂ descendsFrom l0 c1.cmds ∧
      aliasLists c1 = l0.map (mergedAliases X) := by
  obtain ⟨l1, h1, hd, ha⟩ := mergeLoop_descends X l0 c.cmds h
  exact ⟨{ c with cmds := l1 }, by unfold Merge; rw [h1], hd, ha⟩

theorem mergeAll_descends (Xs : List (String → Option (List String)))
    (Y : String → Option (List String)) (l0 : List command) (c : Commands)
    (h : List.Forall₂ descendsFrom l0 c.cmds) :
    ∃ c1, mergeAll (Xs ++ [Y]) c = some c1 ∧ aliasLists c1 = l0.map (mergedAliases Y) := by
  induction Xs generalizing c with
  | nil =>
    obtain ⟨c1, h1, _, ha⟩ := Merge_descends Y l0 c h
    exact ⟨c1, by simp only [List.nil_append, mergeAll, h1], ha⟩
  | cons X rest ih =>
    obtain ⟨c1, h1, hd, _⟩ := Merge_descends X l0 c h
    obtain ⟨c2, h2, ha⟩ := ih c1 hd
    refine ⟨c2, ?_, ha⟩
    show mergeAll (X :: (rest ++ [Y])) c = some c2
    simp only [mergeAll, h1, h2]

/-- C7: on a default registry (with or without the recording commands), every sequence of
`Merge` calls that ends with `Merge(Y)` returns, and afterwards the alias list of each command
is its built-in alias list followed by `Y[canonical name]` when `Y` has an entry for its
canonical (first) alias, and exactly its built-in alias list otherwise; the aliases added by
the earlier calls are gone. -/
theorem Merge_sequence_restores_builtin (client : Option Client)
    (Xs : List (String → Option (List String))) (Y : String → Option (List String)) :
    ∃ c1, mergeAll (Xs ++ [Y]) (DebugCommands client) = some c1 ∧
      aliasLists c1 = (DebugCommands client).cmds.map (mergedAliases Y) := by
  exact mergeAll_descends Xs Y _ _ (descendsFrom_self _ (DebugCommands_fresh client))

/-! ## Lemmas on the record of a run -/

theorem Term.record_eq_extend (t : Term) (e : Event) : t.record e = t.extend [e] := rfl

theorem Term.extend_extend (t : Term) (a b : List Event) :
    (t.extend a).extend b = t.extend (a ++ b) := by
  simp [Term.extend, List.append_assoc]

theorem Term.extend_nil (t : Term) : t.extend [] = t := by
  cases t; simp [Term.extend]

@[simp] theorem Term.extend_client (t : Term) (l : List Event) :
    (t.extend l).client = t.client := rfl

@[simp] theorem Term.extend_log (t : Term) (l : List Event) :
    (t.extend l).log = t.log ++ l := rfl

theorem Term.extend_view (t : Term) (l : List Event) :
    (t.extend l).view = t.view ++ l.filterMap Event.toRequest := by
  simp [Term.view, Term.extend, List.filterMap_append]

theorem printcontext_requests (σ : List api.DebuggerState) :
    (σ.map Event.printcontext).filterMap Event.toRequest = [] := by
  induction σ with
  | nil => rfl
  | cons x rest ih => simp [Event.toRequest]

theorem printcontext_not_printfile (σ : List api.DebuggerState) :
    (σ.map Event.printcontext).filter Event.isPrintfile = [] := by
  induction σ with
  | nil => rfl
  | cons x rest ih => simp [Event.isPrintfile]

theorem rangeStates_clean (σ : List api.DebuggerState) (t : Term)
    (last : Option api.DebuggerState) (h : ∀ x ∈ σ, x.Err = none)
    (hd : ∀ x ∈ σ, printcontextPanics x = false) :
    rangeStates σ t last =
      (t.extend (σ.map Event.printcontext),
       .ok (match σ.getLast? with
            | some s => some s
            | none => last)) := by
  induction σ generalizing t last with
  | nil => simp [rangeStates, Term.extend_nil]
  | cons x rest ih =>
    have hx : x.Err = none := h x (List.mem_cons_self _ _)
    have hr : ∀ y ∈ rest, y.Err = none := fun y hy => h y (List.mem_cons_of_mem _ hy)
    have hdx : printcontextPanics x = false := hd x (List.mem_cons_self _ _)
    have hdr : ∀ y ∈ rest, printcontextPanics y = false :=
      fun y hy => hd y (List.mem_cons_of_mem _ hy)
    simp only [rangeStates, hx, printcontext, hdx]
    rw [ih _ _ hr hdr]
    simp only [printcontext, Term.record_eq_extend, Term.extend_extend, List.map,
      List.singleton_append]
    cases rest with
    | nil => rfl
    | cons y ys =>
      rw [List.getLast?_cons_cons]
      cases hs : (y :: ys).getLast? with
      | none => simp at hs
      | some s => rfl

theorem nthStream_succ (cl : Client) (v : List Request) (i : Nat) :
    nthStream cl (v ++ [.Continue]) i = nthStream cl v (i + 1) := by
  simp [nthStream, List.replicate_succ]

theorem getLast_some_of_ne_nil {α : Type} (l : List α) (h : l ≠ []) : ∃ s, l.getLast? = some s := by
  cases hs : l.getLast? with
  | none => exact absurd (List.getLast?_eq_none_iff.1 hs) h
  | some s => exact ⟨s, rfl⟩

theorem continueLoop_completes (op : String) (final : api.DebuggerState) (n : Nat) :
    ∀ (fuel : Nat) (t : Term),
      n < fuel →
      (∀ i, i ≤ n → nthStream t.client t.view i ≠ [] ∧
        (∀ x ∈ nthStream t.client t.view i, x.Err = none) ∧
        ∀ x ∈ nthStream t.client t.view i, printcontextPanics x = false) →
      (∀ i, i < n → ∀ s, (nthStream t.client t.view i).getLast? = some s →
        s.NextInProgress = true) →
      (nthStream t.client t.view n).getLast? = some final →
      final.NextInProgress = false →
      ∃ d0, continueLoop fuel t op = some (showCurrentLine (t.extend d0) (some final)) ∧
        d0.filterMap Event.toRequest = List.replicate (n + 1) .Continue ∧
        d0.filter Event.isPrintfile = [] := by
  induction n with
  | zero =>
    intro fuel t hf hgood _ hlast hflag
    cases fuel with
    | zero => omega
    | succ f =>
      have hσ : nthStream t.client t.view 0 = t.client.Continue t.view := by simp [nthStream]
      have hg := hgood 0 (le_refl _)
      rw [hσ] at hg hlast
      refine ⟨[.call .Continue] ++ (t.client.Continue t.view).map .printcontext, ?_, ?_, ?_⟩
      · simp only [continueLoop, rangeStates_clean _ _ _ hg.2.1 hg.2.2, hlast, hflag,
          Term.record_eq_extend, Term.extend_extend]
        simp
      · simp [List.filterMap_append, printcontext_requests, Event.toRequest]
      · simp [List.filter_append, printcontext_not_printfile, Event.isPrintfile]
  | succ m ih =>
    intro fuel t hf hgood htrue hlast hflag
    cases fuel with
    | zero => omega
    | succ f =>
      have hσ : nthStream t.client t.view 0 = t.client.Continue t.view := by simp [nthStream]
      have hg := hgood 0 (Nat.zero_le _)
      rw [hσ] at hg
      obtain ⟨s, hs⟩ := getLast_some_of_ne_nil _ hg.1
      have hl := htrue 0 (Nat.succ_pos _) s (by rw [hσ]; exact hs)
      have hv : (t.extend ([.call .Continue] ++
          (t.client.Continue t.view).map .printcontext ++
          [.print ("\tbreakpoint hit during " ++ op ++ ", continuing...\n")])).view
          = t.view ++ [.Continue] := by
        simp [Term.extend_view, List.filterMap_append, printcontext_requests, Event.toRequest]
      obtain ⟨d, hd, hq, hp⟩ := ih f (t.extend ([.call .Continue] ++
          (t.client.Continue t.view).map .printcontext ++
          [.print ("\tbreakpoint hit during " ++ op ++ ", continuing...\n")])) (by omega)
        (by
          intro i hi
          rw [hv, Term.extend_client, nthStream_succ]
          exact hgood (i + 1) (by omega))
        (by
          intro i hi s1 h1
          rw [hv, Term.extend_client, nthStream_succ] at h1
          exact htrue (i + 1) (by omega) s1 h1)
        (by
          rw [hv, Term.extend_client, nthStream_succ]
          exact hlast)
        hflag
      refine ⟨[.call .Continue] ++ (t.client.Continue t.view).map .printcontext ++
        [.print ("\tbreakpoint hit during " ++ op ++ ", continuing...\n")] ++ d, ?_, ?_, ?_⟩
      · simp only [continueLoop, rangeStates_clean _ _ _ hg.2.1 hg.2.2, hs, hl,
          Term.record_eq_extend, Term.extend_extend]
        simp only [Bool.not_true, Bool.false_eq_true, if_false]
        rw [hd, Term.extend_extend]
      · simp [List.filterMap_append, printcontext_requests, Event.toRequest, hq,
          List.replicate_succ]
      · simp [List.filter_append, printcontext_not_printfile, Event.isPrintfile, hp]

theorem continueUntilCompleteNext_completes (op : String) (t : Term)
    (s0 final : api.DebuggerState) (k fuel : Nat)
    (hgood : ∀ i, i < k → nthStream t.client t.view i ≠ [] ∧
      (∀ x ∈ nthStream t.client t.view i, x.Err = none) ∧
      ∀ x ∈ nthStream t.client t.view i, printcontextPanics x = false)
    (htrue : ∀ j, j < k →
      (finalStateAt t.client t.view s0 j).map (fun s => s.NextInProgress) = some true)
    (hfinal : finalStateAt t.client t.view s0 k = some final)
    (hfalse : final.NextInProgress = false)
    (hfuel : k ≤ fuel) :
    ∃ d0, continueUntilCompleteNext fuel t s0 op
          = some (showCurrentLine (t.extend d0) (some final)) ∧
      d0.filterMap Event.toRequest = List.replicate k .Continue ∧
      d0.filter Event.isPrintfile = [] := by
  cases k with
  | zero =>
    simp only [finalStateAt, Option.some.injEq] at hfinal
    subst hfinal
    exact ⟨[], by simp [continueUntilCompleteNext, hfalse, Term.extend_nil], rfl, rfl⟩
  | succ n =>
    have h0 := htrue 0 (Nat.succ_pos _)
    simp only [finalStateAt, Option.map_some', Option.some.injEq] at h0
    obtain ⟨d, hd, hq, hp⟩ := continueLoop_completes op final n fuel t (by omega)
      (fun i hi => hgood i (by omega))
      (by
        intro i hi s hs
        have h := htrue (i + 1) (by omega)
        simp only [finalStateAt, hs, Option.map_some', Option.some.injEq] at h
        exact h)
      hfinal hfalse
    exact ⟨d, by simp [continueUntilCompleteNext, h0, hd], hq, hp⟩

theorem run_step_eq (ext : Extern) (fuel : Nat) (c : Commands) (t : Term) (ctx : callContext)
    (args : String) :
    run ext fuel .step c t ctx args =
      (step fuel t ctx args).bind (fun r => some ⟨c, r.1, ctx.Breakpoint, r.2⟩) := by
  cases fuel <;> rfl

theorem run_next_eq (ext : Extern) (fuel : Nat) (c : Commands) (t : Term) (ctx : callContext)
    (args : String) :
    run ext fuel .next c t ctx args =
      (next fuel t ctx args).bind (fun r => some ⟨c, r.1, ctx.Breakpoint, r.2⟩) := by
  cases fuel <;> rfl

theorem run_stepout_eq (ext : Extern) (fuel : Nat) (c : Commands) (t : Term)
    (ctx : callContext) (args : String) :
    run ext fuel .stepout c t ctx args =
      (stepout fuel t ctx args).bind (fun r => some ⟨c, r.1, ctx.Breakpoint, r.2⟩) := by
  cases fuel <;> rfl

theorem showCurrentLine_some (t : Term) (final : api.DebuggerState) :
    showCurrentLine t (some final) =
      (match final.CurrentThread with
       | some th => (t.extend [.printfile th.File th.Line true], Ret.ok)
       | none => (t, Ret.panic)) := by
  rcases final with ⟨ct, sg, nip, err, wh, ths⟩
  cases ct <;> rfl

/-! ## The step-completion protocol -/

/-- The step-completion protocol, where the states can be displayed: let `fn` be `step`,
`next` or `stepout`, issued after its scope switch left the terminal `t1`, and let the initial
operation return the state `s0`. Let the streams of the first `k` successive `Continue`
requests be non-empty and free of errors, let `printcontext` not panic on `s0` and on the
states of these streams, let the "next in
progress" flag be true on `s0` and on the final states of the first `k - 1` streams, and false
on `final`, the final state of round `k` (the first false flag). Then with fuel `k` the
handler sends the initial request followed by exactly `k` `Continue` (`k + 1` operations, two
for `k = 1`), displays no source location in between, and ends by displaying the location of
the current thread of `final`, the final state of the last stream, and returning nil (when
`final` has no current thread there is no location to display and the dereference panics). -/
theorem step_completion_protocol (ext : Extern) (fn : cmdfunc) (q : Request)
    (hk : (fn, q) ∈ stepKinds) (c : Commands) (t t1 : Term) (ctx : callContext)
    (args : String) (s0 final : api.DebuggerState) (k fuel : Nat)
    (hsw : scopePrefixSwitch t ctx = (t1, none))
    (h0 : initialAnswer t1.client q t1.view = .ok s0)
    (hshown : printcontextPanics s0 = false)
    (hgood : ∀ i, i < k → nthStream t1.client (t1.view ++ [q]) i ≠ [] ∧
      (∀ x ∈ nthStream t1.client (t1.view ++ [q]) i, x.Err = none) ∧
      ∀ x ∈ nthStream t1.client (t1.view ++ [q]) i, printcontextPanics x = false)
    (htrue : ∀ j, j < k →
      (finalStateAt t1.client (t1.view ++ [q]) s0 j).map (fun s => s.NextInProgress)
        = some true)
    (hfinal : finalStateAt t1.client (t1.view ++ [q]) s0 k = some final)
    (hfalse : final.NextInProgress = false)
    (hfuel : k ≤ fuel) :
    ∃ d0, d0.filterMap Event.toRequest = q :: List.replicate k .Continue ∧
      d0.filter Event.isPrintfile = [] ∧
      run ext fuel fn c t ctx args =
        some (match final.CurrentThread with
              | some th =>
                ⟨c, t1.extend (d0 ++ [.printfile th.File th.Line true]), ctx.Breakpoint, .ok⟩
              | none => ⟨c, t1.extend d0, ctx.Breakpoint, .panic⟩) := by
  have hv : ((t1.extend [.call q, .printcontext s0]).view) = t1.view ++ [q] := by
    simp [Term.extend_view, Event.toRequest]
  have hcore := fun op =>
    continueUntilCompleteNext_completes op (t1.extend [.call q, .printcontext s0]) s0 final
      k fuel (by rw [hv]; exact hgood) (by rw [hv]; exact htrue) (by rw [hv]; exact hfinal)
      hfalse hfuel
  have hfin : ∀ d : List Event,
      d.filterMap Event.toRequest = List.replicate k .Continue →
      d.filter Event.isPrintfile = [] →
      ([Event.call q, Event.printcontext s0] ++ d).filterMap Event.toRequest
          = q :: List.replicate k .Continue ∧
        ([Event.call q, Event.printcontext s0] ++ d).filter Event.isPrintfile = [] := by
    intro d hq hp
    refine ⟨?_, ?_⟩
    · simp [List.filterMap_append, Event.toRequest, hq]
    · simp [List.filter_append, Event.isPrintfile, hp]
  simp only [stepKinds, List.mem_cons, Prod.mk.injEq, List.mem_singleton, List.not_mem_nil,
    or_false] at hk
  rcases hk with ⟨rfl, rfl⟩ | ⟨rfl, rfl⟩ | ⟨rfl, rfl⟩
  · obtain ⟨d, hd, hq, hp⟩ := hcore "step"
    refine ⟨[.call .Step, .printcontext s0] ++ d, (hfin d hq hp).1, (hfin d hq hp).2, ?_⟩
    simp only [initialAnswer] at h0
    simp only [run_step_eq, step, hsw, h0, printcontext, hshown, Term.record_eq_extend,
      Term.extend_extend, List.singleton_append, hd, Option.some_bind, List.cons_append,
      List.nil_append, showCurrentLine_some]
    cases final.CurrentThread <;> simp [Term.extend_extend]
  · obtain ⟨d, hd, hq, hp⟩ := hcore "next"
    refine ⟨[.call .Next, .printcontext s0] ++ d, (hfin d hq hp).1, (hfin d hq hp).2, ?_⟩
    simp only [initialAnswer] at h0
    simp only [run_next_eq, next, hsw, h0, printcontext, hshown, Term.record_eq_extend,
      Term.extend_extend, List.singleton_append, hd, Option.some_bind, List.cons_append,
      List.nil_append, showCurrentLine_some]
    cases final.CurrentThread <;> simp [Term.extend_extend]
  · obtain ⟨d, hd, hq, hp⟩ := hcore "stepout"
    refine ⟨[.call .StepOut, .printcontext s0] ++ d, (hfin d hq hp).1, (hfin d hq hp).2, ?_⟩
    simp only [initialAnswer] at h0
    simp only [run_stepout_eq, stepout, hsw, h0, printcontext, hshown, Term.record_eq_extend,
      Term.extend_extend, List.singleton_append, hd, Option.some_bind, List.cons_append,
      List.nil_append, showCurrentLine_some]
    cases final.CurrentThread <;> simp [Term.extend_extend]

/-- The protocol at the concrete input of the specification: `step` stops with the step still in
progress, the first `Continue` completes it at line 20. Two operations are issued and the
location displayed is line 20, not line 10. -/
theorem step_completion_protocol_witness :
    ((cmdfunc.step, Request.Step) ∈ stepKinds ∧
      scopePrefixSwitch sampleTerm plainContext = (sampleTerm, none) ∧
      initialAnswer sampleClient .Step [] = .ok (sampleState true 10) ∧
      nthStream sampleClient [.Step] 0 = [sampleState false 20] ∧
      finalStateAt sampleClient [.Step] (sampleState true 10) 1 = some (sampleState false 20)) ∧
    ∃ d0, d0.filterMap Event.toRequest = [.Step, .Continue] ∧
      d0.filter Event.isPrintfile = [] ∧
      run sampleExtern 1 .step (DebugCommands none) sampleTerm plainContext "" =
        some ⟨DebugCommands none, sampleTerm.extend (d0 ++ [.printfile "main.go" 20 true]),
          none, .ok⟩ :=
  ⟨⟨by decide, rfl, rfl, rfl, rfl⟩,
   step_completion_protocol sampleExtern .step .Step (by decide) (DebugCommands none)
     sampleTerm sampleTerm plainContext "" (sampleState true 10) (sampleState false 20) 1 1
     rfl rfl rfl
     (by
       intro i hi
       have hi0 : i = 0 := by omega
       subst hi0
       decide)
     (by
       intro j hj
       have hj0 : j = 0 := by omega
       subst hj0
       rfl)
     rfl rfl (le_refl _)⟩

/-! ## C2: the step-completion protocol and the display of a state -/

set_option maxRecDepth 100000 in
/-- C2, evaluated on the code: on the bare service `Step`, `Next` and `StepOut` return a state
without an error on which the step is still in progress, and the stream of the `Continue` that
would follow is one state without an error on which the step is complete, so the first false
flag is that of round 1. The current thread of these states has the file `proc.go` and no
function, and `printcontextThread` reads `fn.Name` of the nil function: each of `step`, `next`
and `stepout` panics in the display of the state of its initial operation, having sent that
one request and no `Continue`, and displays no source location. On the sample service, whose
states have a function, `step` sends `Step` and one `Continue` and ends with the location of
line 20. -/
theorem step_panics_in_display_of_initial_state :
    (bareClient.Step [] = .ok (bareState true) ∧ bareClient.Next [] = .ok (bareState true) ∧
      bareClient.StepOut [] = .ok (bareState true)) ∧
    ((bareState true).Err = none ∧ (bareState true).NextInProgress = true ∧
      printcontextPanics (bareState true) = true) ∧
    ((∀ v, bareClient.Continue v = [bareState false]) ∧
      (bareState false).Err = none ∧ (bareState false).NextInProgress = false) ∧
    run sampleExtern 1 .step (DebugCommands none) bareTerm plainContext "" =
      some ⟨DebugCommands none,
        bareTerm.extend [.call .Step, .printcontext (bareState true)], none, .panic⟩ ∧
    run sampleExtern 1 .next (DebugCommands none) bareTerm plainContext "" =
      some ⟨DebugCommands none,
        bareTerm.extend [.call .Next, .printcontext (bareState true)], none, .panic⟩ ∧
    run sampleExtern 1 .stepout (DebugCommands none) bareTerm plainContext "" =
      some ⟨DebugCommands none,
        bareTerm.extend [.call .StepOut, .printcontext (bareState true)], none, .panic⟩ ∧
    run sampleExtern 1 .step (DebugCommands none) sampleTerm plainContext "" =
      some ⟨DebugCommands none,
        sampleTerm.extend [.call .Step, .printcontext (sampleState true 10),
          .call .Continue, .printcontext (sampleState false 20),
          .printfile "main.go" 20 true], none, .ok⟩ := by
  refine ⟨⟨rfl, rfl, rfl⟩, ⟨rfl, rfl, rfl⟩, ⟨fun _ => rfl, rfl, rfl⟩, rfl, rfl, rfl, rfl⟩

/-! ## Lemmas on the tokenising of a command line -/

theorem trimLeft_word (a x : List Char) (ha : a ≠ []) (hns : ∀ ch ∈ a, isSpace ch = false) :
    trimLeft (a ++ x) = a ++ x := by
  cases a with
  | nil => exact absurd rfl ha
  | cons ch rest => simp [trimLeft, hns ch (List.mem_cons_self _ _)]

theorem trimRight_word (a x : List Char) (hns : ∀ ch ∈ a, isSpace ch = false) :
    trimRight (a ++ x) = a ++ trimRight x := by
  induction a with
  | nil => rfl
  | cons ch rest ih =>
    have h1 := ih (fun c hc => hns c (List.mem_cons_of_mem _ hc))
    have h2 := hns ch (List.mem_cons_self _ _)
    have h3 : trimRight (ch :: (rest ++ x)) =
        (match trimRight (rest ++ x) with
         | [] => if isSpace ch then [] else [ch]
         | r :: rs => ch :: r :: rs) := rfl
    rw [List.cons_append, h3, h1]
    show _ = ch :: (rest ++ trimRight x)
    cases h : rest ++ trimRight x with
    | nil => simp [h2]
    | cons r rs => rfl

theorem trimRight_blank (x : List Char) (h : x = [] ∨ x.head? = some ' ') :
    trimRight x = [] ∨ ∃ y, trimRight x = ' ' :: y := by
  cases x with
  | nil => left; rfl
  | cons ch rest =>
    have hc : ch = ' ' := by simpa using h
    subst hc
    simp only [trimRight]
    cases trimRight rest with
    | nil => left; rfl
    | cons r rs => right; exact ⟨r :: rs, rfl⟩

theorem not_blank_of_not_space (a : List Char) (hns : ∀ ch ∈ a, isSpace ch = false) :
    ∀ ch ∈ a, ch ≠ ' ' := by
  intro ch hch e
  have := hns ch hch
  rw [e] at this
  exact absurd this (by decide)

theorem cutAtBlank_word_end (a : List Char) (hnb : ∀ ch ∈ a, ch ≠ ' ') :
    cutAtBlank a = (a, none) := by
  induction a with
  | nil => rfl
  | cons ch rest ih =>
    have h1 := ih (fun c hc => hnb c (List.mem_cons_of_mem _ hc))
    have h2 := hnb ch (List.mem_cons_self _ _)
    simp [cutAtBlank, h1, h2]

theorem cutAtBlank_word_blank (a y : List Char) (hnb : ∀ ch ∈ a, ch ≠ ' ') :
    cutAtBlank (a ++ ' ' :: y) = (a, some y) := by
  induction a with
  | nil => simp [cutAtBlank]
  | cons ch rest ih =>
    have h1 := ih (fun c hc => hnb c (List.mem_cons_of_mem _ hc))
    have h2 := hnb ch (List.mem_cons_self _ _)
    simp [cutAtBlank, h1, h2]

theorem isWord_iff (a : String) :
    isWord a = true ↔ a.data ≠ [] ∧ ∀ ch ∈ a.data, isSpace ch = false := by
  simp [isWord, List.isEmpty_iff]

theorem CallWithContextWith_word (exec : Exec) (c : Commands) (t : Term) (ctx : callContext)
    (a tail : String) (ha : isWord a = true)
    (htail : tail = "" ∨ tail.data.head? = some ' ') :
    CallWithContextWith exec c (a ++ tail) t ctx =
      exec (Find c a ctx.Prefix).1 (Find c a ctx.Prefix).2
        (t.record (.invoke (Find c a ctx.Prefix).1 ctx (tailArgs tail))) ctx (tailArgs tail) := by
  obtain ⟨hne, hns⟩ := (isWord_iff a).1 ha
  have hnb := not_blank_of_not_space a.data hns
  have htl : tail.data = [] ∨ tail.data.head? = some ' ' := by
    rcases htail with h | h
    · left; rw [h]
    · right; exact h
  have htrim : (TrimSpace (a ++ tail)).data = a.data ++ trimRight tail.data := by
    simp only [TrimSpace, String.data_append]
    rw [trimLeft_word _ _ hne hns, trimRight_word _ _ hns]
  unfold CallWithContextWith SplitN2
  rw [htrim]
  rcases trimRight_blank tail.data htl with h | ⟨y, h⟩
  · simp only [h, List.append_nil, cutAtBlank_word_end _ hnb, tailArgs]
  · simp only [h, cutAtBlank_word_blank _ _ hnb, tailArgs]
theorem parseDigits_some (ds : List Char) (acc n : Nat) (h : parseDigits ds acc = some n) :
    ∀ ch ∈ ds, ch ≠ ' ' := by
  induction ds generalizing acc with
  | nil => simp
  | cons d rest ih =>
    simp only [parseDigits] at h
    split at h
    · rename_i hd
      intro ch hch
      rcases List.mem_cons.1 hch with e | e
      · subst e
        intro e2
        rw [e2] at hd
        exact absurd hd.1 (by decide)
      · exact ih _ h ch e
    · simp at h

theorem Atoi_ok_no_blank (tok : String) (n : Int) (h : Atoi tok = .ok n) :
    ∀ ch ∈ tok.data, ch ≠ ' ' := by
  have key : ∀ (neg : Bool) (ds : List Char),
      (match ds with
        | [] => (Except.error (Err.numError tok) : Except Err Int)
        | _ =>
          match parseDigits ds 0 with
          | none => .error (.numError tok)
          | some n =>
            if neg then (if n ≤ 2 ^ 63 then .ok (-(n : Int)) else .error (.numError tok))
            else (if n < 2 ^ 63 then .ok (n : Int) else .error (.numError tok))) = .ok n →
      ∀ ch ∈ ds, ch ≠ ' ' := by
    intro neg ds hd
    cases ds with
    | nil => simp
    | cons d rest =>
      simp only at hd
      cases hp : parseDigits (d :: rest) 0 with
      | none => rw [hp] at hd; simp at hd
      | some m => exact parseDigits_some _ _ _ hp
  unfold Atoi at h
  simp only at h
  split at h
  · rename_i ds hds
    rw [hds]
    intro ch hch
    rcases List.mem_cons.1 hch with e | e
    · rw [e]; decide
    · exact key true ds h ch e
  · rename_i ds hds
    rw [hds]
    intro ch hch
    rcases List.mem_cons.1 hch with e | e
    · rw [e]; decide
    · exact key false ds h ch e
  · exact key false _ h

theorem SplitN2_token (tok rest : String) (h : ∀ ch ∈ tok.data, ch ≠ ' ') :
    SplitN2 (tok ++ " " ++ rest) = [tok, rest] := by
  have hd : (tok ++ " " ++ rest).data = tok.data ++ ' ' :: rest.data := by
    simp [String.data_append]
  unfold SplitN2
  rw [hd, cutAtBlank_word_blank _ _ h]

set_option maxRecDepth 100000 in
theorem default_aliases_are_words (client : Option Client) :
    ∀ v ∈ (DebugCommands client).cmds, ∀ a ∈ v.aliases, isWord a = true := by
  rcases DebugCommands_eq client with h | h <;> rw [h] <;> decide

set_option maxRecDepth 100000 in
theorem default_scope_excluded (client : Option Client) :
    ∀ v ∈ (DebugCommands client).cmds, v.allowedPrefixes &&& scopePrefix = 0 →
      ∀ a ∈ v.aliases,
        findLoop a scopePrefix (DebugCommands client).cmds = none ∧
        v.cmdFn ≠ .noCmdAvailable := by
  rcases DebugCommands_eq client with h | h <;> rw [h] <;> decide

theorem Find_none (c : Commands) (a : String) (pfx : cmdPrefix) (ha : isWord a = true)
    (h : findLoop a pfx c.cmds = none) : Find c a pfx = (.noCmdAvailable, c) := by
  have hne : a ≠ "" := by
    intro e
    rw [e] at ha
    exact absurd ha (by decide)
  unfold Find
  rw [if_neg hne, h]
/-! ## C4: commands that do not accept the scope prefix -/

/-- C4: in a default registry (whatever its last command), let `v` be a command whose
allowed-prefix mask excludes `scopePrefix` and `a` one of its aliases. Dispatching
`<id> a ...` through the `goroutine` handler (outside the on-prefix) or through the `frame`
handler, with `<id>` an integer, returns the error `noCmdError`; the only handler invoked is
`noCmdAvailable`, never the handler of `v`, and nothing else is recorded. -/
theorem scope_prefix_rejects_excluded_command (ext : Extern) (client : Option Client)
    (c : Commands) (hc : c.cmds = (DebugCommands client).cmds)
    (v : command) (hv : v ∈ c.cmds) (hmask : v.allowedPrefixes &&& scopePrefix = 0)
    (a : String) (ha : a ∈ v.aliases)
    (t : Term) (ctx : callContext) (tok tail : String) (n : Int) (fuel : Nat)
    (htok : Atoi tok = .ok n) (htail : tail = "" ∨ tail.data.head? = some ' ') :
    (ctx.Prefix ≠ onPrefix →
      ∃ delta, run ext (fuel + 1) .goroutine c t ctx (tok ++ " " ++ (a ++ tail)) =
          some ⟨c, t.extend delta, ctx.Breakpoint, .error .noCmdError⟩ ∧
        delta = [.invoke .noCmdAvailable
          { ctx with Prefix := scopePrefix, Scope := { ctx.Scope with GoroutineID := n } }
          (tailArgs tail)] ∧
        invoked v.cmdFn delta = false) ∧
    (∃ delta, run ext (fuel + 1) .frame c t ctx (tok ++ " " ++ (a ++ tail)) =
        some ⟨c, t.extend delta, ctx.Breakpoint, .error .noCmdError⟩ ∧
      delta = [.invoke .noCmdAvailable
        { ctx with Prefix := scopePrefix, Scope := { ctx.Scope with Frame := n } }
        (tailArgs tail)] ∧
      invoked v.cmdFn delta = false) := by
  rw [hc] at hv
  have hw := default_aliases_are_words client v hv a ha
  obtain ⟨hfl, hfn⟩ := default_scope_excluded client v hv hmask a ha
  rw [← hc] at hfl
  have hfind : Find c a scopePrefix = (.noCmdAvailable, c) := Find_none c a scopePrefix hw hfl
  have hsplit := SplitN2_token tok (a ++ tail) (Atoi_ok_no_blank tok n htok)
  have hinv : ∀ ctx1 args1,
      invoked v.cmdFn [Event.invoke .noCmdAvailable ctx1 args1] = false := by
    intro ctx1 args1
    simp [invoked, Ne.symm hfn]
  constructor
  · intro hon
    refine ⟨_, ?_, rfl, hinv _ _⟩
    show goroutine (run ext fuel) c t ctx (tok ++ " " ++ (a ++ tail)) = _
    unfold goroutine
    simp only [hon, if_false, hsplit, htok]
    rw [CallWithContextWith_word _ _ _ _ a tail hw htail]
    simp only [hfind, run_noCmdAvailable, Term.record_eq_extend]
  · refine ⟨_, ?_, rfl, hinv _ _⟩
    show frame (run ext fuel) c t ctx (tok ++ " " ++ (a ++ tail)) = _
    unfold frame
    simp only [hsplit, htok]
    rw [CallWithContextWith_word _ _ _ _ a tail hw htail]
    simp only [hfind, run_noCmdAvailable, Term.record_eq_extend]
set_option maxRecDepth 100000 in
/-- C4 at a concrete input: `goroutine 1 continue` and `frame 1 continue` in the default
registry; `continue` does not accept the scope prefix. -/
theorem scope_prefix_rejects_excluded_command_witness :
    (continueCommand ∈ (DebugCommands none).cmds ∧
      continueCommand.allowedPrefixes &&& scopePrefix = 0 ∧
      "continue" ∈ continueCommand.aliases ∧ Atoi "1" = .ok 1 ∧
      plainContext.Prefix ≠ onPrefix) ∧
    (∃ delta, run sampleExtern 1 .goroutine (DebugCommands none) sampleTerm plainContext
          ("1" ++ " " ++ ("continue" ++ "")) =
        some ⟨DebugCommands none, sampleTerm.extend delta, none, .error .noCmdError⟩ ∧
      delta = [.invoke .noCmdAvailable ⟨scopePrefix, ⟨1, 0⟩, none⟩ ""] ∧
      invoked .cont delta = false) ∧
    (∃ delta, run sampleExtern 1 .frame (DebugCommands none) sampleTerm plainContext
          ("1" ++ " " ++ ("continue" ++ "")) =
        some ⟨DebugCommands none, sampleTerm.extend delta, none, .error .noCmdError⟩ ∧
      delta = [.invoke .noCmdAvailable ⟨scopePrefix, ⟨-1, 1⟩, none⟩ ""] ∧
      invoked .cont delta = false) :=
  have hv : continueCommand ∈ (DebugCommands none).cmds := by decide
  have h := scope_prefix_rejects_excluded_command sampleExtern none (DebugCommands none) rfl
    continueCommand hv (by decide) "continue" (by decide) sampleTerm plainContext "1" "" 1 0
    rfl (Or.inl rfl)
  ⟨⟨hv, by decide, by decide, rfl, by decide⟩, h.1 (by decide), h.2⟩
theorem SplitN2_no_blank (s : String) (h : ∀ ch ∈ s.data, ch ≠ ' ') : SplitN2 s = [s] := by
  unfold SplitN2
  rw [cutAtBlank_word_end _ h]

/-! ## The bound breakpoint stays bound -/

theorem CallWithContextWith_keeps (exec : Exec) (h : KeepsBound exec) (c : Commands)
    (cmdstr : String) (t : Term) (ctx : callContext) (r : Result)
    (hb : ctx.Breakpoint ≠ none) (hr : CallWithContextWith exec c cmdstr t ctx = some r) :
    r.bp ≠ none := by
  unfold CallWithContextWith at hr
  split at hr
  · simp only [Option.some.injEq] at hr
    subst hr
    exact hb
  · exact h _ _ _ _ _ _ hb hr

theorem printVar_keeps (t : Term) (ctx : callContext) (args : String)
    (hb : ctx.Breakpoint ≠ none) : (printVar t ctx args).2.1 ≠ none := by
  unfold printVar
  cases hbp : ctx.Breakpoint with
  | none => exact absurd hbp hb
  | some b =>
    simp only []
    repeat' split
    all_goals simp

theorem args_keeps (t : Term) (ctx : callContext) (argstr : String)
    (hb : ctx.Breakpoint ≠ none) : (args t ctx argstr).2.1 ≠ none := by
  unfold args
  cases hbp : ctx.Breakpoint with
  | none => exact absurd hbp hb
  | some b =>
    simp only []
    repeat' split
    all_goals simp

theorem locals_keeps (t : Term) (ctx : callContext) (argstr : String)
    (hb : ctx.Breakpoint ≠ none) : (locals t ctx argstr).2.1 ≠ none := by
  unfold locals
  cases hbp : ctx.Breakpoint with
  | none => exact absurd hbp hb
  | some b =>
    simp only []
    repeat' split
    all_goals simp

theorem stackCommand_keeps (t : Term) (ctx : callContext) (argstr : String)
    (hb : ctx.Breakpoint ≠ none) : (stackCommand t ctx argstr).2.1 ≠ none := by
  unfold stackCommand
  cases hbp : ctx.Breakpoint with
  | none => exact absurd hbp hb
  | some b =>
    simp only []
    repeat' split
    all_goals simp

theorem goroutine_keeps (exec : Exec) (h : KeepsBound exec) (c : Commands) (t : Term)
    (ctx : callContext) (argstr : String) (r : Result) (hb : ctx.Breakpoint ≠ none)
    (hr : goroutine exec c t ctx argstr = some r) : r.bp ≠ none := by
  unfold goroutine at hr
  cases hbp : ctx.Breakpoint with
  | none => exact absurd hbp hb
  | some b =>
    simp only [hbp] at hr
    split at hr
    · split at hr <;> (simp only [Option.some.injEq] at hr; subst hr; simp)
    · split at hr
      · simp only [Option.some.injEq] at hr; subst hr; simp
      · repeat' split at hr
        all_goals (simp only [Option.some.injEq] at hr; subst hr; simp)
      · split at hr
        · simp only [Option.some.injEq] at hr; subst hr; simp
        · exact CallWithContextWith_keeps exec h _ _ _ _ r (by simp [hbp]) hr

theorem frame_keeps (exec : Exec) (h : KeepsBound exec) (c : Commands) (t : Term)
    (ctx : callContext) (args : String) (r : Result) (hb : ctx.Breakpoint ≠ none)
    (hr : frame exec c t ctx args = some r) : r.bp ≠ none := by
  unfold frame at hr
  split at hr
  · split at hr
    · simp only [Option.some.injEq] at hr; subst hr; exact hb
    · exact CallWithContextWith_keeps exec h _ _ _ _ r (by simpa using hb) hr
  · simp only [Option.some.injEq] at hr; subst hr; exact hb

theorem onCmd_keeps (exec : Exec) (c : Commands) (t : Term)
    (ctx : callContext) (argstr : String) (r : Result) (hb : ctx.Breakpoint ≠ none)
    (hr : onCmd exec c t ctx argstr = some r) : r.bp ≠ none := by
  unfold onCmd at hr
  repeat' split at hr
  all_goals first
    | (simp only [Option.some.injEq] at hr; subst hr; exact hb)
    | simp at hr

theorem sourceCommand_keeps (exec : Exec) (c : Commands) (t : Term)
    (ctx : callContext) (args : String) (r : Result) (hb : ctx.Breakpoint ≠ none)
    (hr : sourceCommand exec c t ctx args = some r) : r.bp ≠ none := by
  unfold sourceCommand at hr
  repeat' split at hr
  all_goals first
    | (simp only [Option.some.injEq] at hr; subst hr; exact hb)
    | simp at hr

theorem bind_plain_keeps (x : Option (Term × Ret)) (c : Commands) (ctx : callContext)
    (r : Result) (hb : ctx.Breakpoint ≠ none)
    (hr : x.bind (fun p => some (⟨c, p.1, ctx.Breakpoint, p.2⟩ : Result)) = some r) :
    r.bp ≠ none := by
  cases x with
  | none => simp at hr
  | some p =>
    simp only [Option.some_bind, Option.some.injEq] at hr
    subst hr
    exact hb

theorem handler_keeps (ext : Extern) (fuel : Nat) (nested : Exec) (h : KeepsBound nested) :
    KeepsBound (handler ext fuel nested) := by
  intro fn c t ctx args r hb hr
  cases fn <;> simp only [handler] at hr
  case goroutine => exact goroutine_keeps nested h c t ctx args r hb hr
  case frame => exact frame_keeps nested h c t ctx args r hb hr
  case onCmd => exact onCmd_keeps nested c t ctx args r hb hr
  case sourceCommand => exact sourceCommand_keeps nested c t ctx args r hb hr
  case step => exact bind_plain_keeps _ c ctx r hb hr
  case next => exact bind_plain_keeps _ c ctx r hb hr
  case stepout => exact bind_plain_keeps _ c ctx r hb hr
  case printVar =>
    simp only [Option.some.injEq] at hr; subst hr; exact printVar_keeps t ctx args hb
  case args =>
    simp only [Option.some.injEq] at hr; subst hr; exact args_keeps t ctx args hb
  case locals =>
    simp only [Option.some.injEq] at hr; subst hr; exact locals_keeps t ctx args hb
  case stackCommand =>
    simp only [Option.some.injEq] at hr; subst hr; exact stackCommand_keeps t ctx args hb
  all_goals (simp only [Option.some.injEq] at hr; subst hr; exact hb)

theorem run_keeps (ext : Extern) (fuel : Nat) : KeepsBound (run ext fuel) := by
  induction fuel with
  | zero =>
    exact handler_keeps ext 0 _ (by intro fn c t ctx args r _ hr; simp at hr)
  | succ n ih => exact handler_keeps ext (n + 1) _ ih
/-! ## C8: the on-prefix and `AmendBreakpoint` -/

/-- C8: the `on` handler. With fewer than two tokens (no blank in the argument) it returns
"not enough arguments" and records nothing. For `<ref> <rest>`: resolving `<ref>` sends one
request; when that fails its error is returned and nothing is dispatched or amended; when it
gives the breakpoint `bp`, `<rest>` is dispatched under the on-prefix with `bp` bound, and
then, if the dispatch returned an error, that error is returned with the record as the
dispatch left it (no `AmendBreakpoint`), and if it returned nil, the bound breakpoint is
still there, as `bp1`, and one `AmendBreakpoint` request carrying `bp1` is sent, whose result
is the result. -/
theorem on_prefix_amends_after_success (ext : Extern) (c : Commands) (t : Term)
    (ctx : callContext) (fuel : Nat) :
    (∀ argstr : String, (∀ ch ∈ argstr.data, ch ≠ ' ') →
      run ext (fuel + 1) .onCmd c t ctx argstr
        = some ⟨c, t, ctx.Breakpoint, .error (.new "not enough arguments")⟩) ∧
    (∀ ref rest : String, (∀ ch ∈ ref.data, ch ≠ ' ') →
      (getBreakpointByIDOrName t ref).1 =
        t.record (.call (match Atoi ref with
                         | .ok id => .GetBreakpoint id
                         | .error _ => .GetBreakpointByName ref)) ∧
      (∀ e, (getBreakpointByIDOrName t ref).2 = .error e →
        run ext (fuel + 1) .onCmd c t ctx (ref ++ " " ++ rest)
          = some ⟨c, (getBreakpointByIDOrName t ref).1, ctx.Breakpoint, .error e⟩) ∧
      (∀ bp r, (getBreakpointByIDOrName t ref).2 = .ok bp →
        CallWithContext ext fuel c rest (getBreakpointByIDOrName t ref).1
          { ctx with Prefix := onPrefix, Breakpoint := some bp } = some r →
        (∀ e, r.ret = .error e →
          run ext (fuel + 1) .onCmd c t ctx (ref ++ " " ++ rest)
            = some ⟨r.c, r.t, ctx.Breakpoint, .error e⟩) ∧
        (r.ret = .ok → ∃ bp1, r.bp = some bp1 ∧
          run ext (fuel + 1) .onCmd c t ctx (ref ++ " " ++ rest)
            = some ⟨r.c, r.t.record (.call (.AmendBreakpoint bp1)), ctx.Breakpoint,
                match r.t.client.AmendBreakpoint r.t.view bp1 with
                | none => .ok
                | some e => .error e⟩))) := by
  constructor
  · intro argstr h
    show onCmd (run ext fuel) c t ctx argstr = _
    unfold onCmd
    rw [SplitN2_no_blank argstr h]
  · intro ref rest href
    have hsplit := SplitN2_token ref rest href
    refine ⟨?_, ?_, ?_⟩
    · unfold getBreakpointByIDOrName
      cases Atoi ref <;> rfl
    · intro e he
      show onCmd (run ext fuel) c t ctx (ref ++ " " ++ rest) = _
      unfold onCmd
      simp only [hsplit]
      generalize getBreakpointByIDOrName t ref = g at he ⊢
      rcases g with ⟨t1, res⟩
      simp only at he
      subst he
      rfl
    · intro bp r hbp hr
      unfold CallWithContext at hr
      constructor
      · intro e he
        show onCmd (run ext fuel) c t ctx (ref ++ " " ++ rest) = _
        unfold onCmd
        simp only [hsplit]
        generalize getBreakpointByIDOrName t ref = g at hbp hr ⊢
        rcases g with ⟨t1, res⟩
        simp only at hbp hr
        subst hbp
        simp only [hr, he]
      · intro hok
        have hsome : r.bp ≠ none :=
          CallWithContextWith_keeps (run ext fuel) (run_keeps ext fuel) _ _ _ _ r
            (by simp) hr
        obtain ⟨bp1, hb⟩ : ∃ bp1, r.bp = some bp1 := by
          cases hx : r.bp with
          | none => exact absurd hx hsome
          | some b => exact ⟨b, rfl⟩
        refine ⟨bp1, hb, ?_⟩
        show onCmd (run ext fuel) c t ctx (ref ++ " " ++ rest) = _
        unfold onCmd
        simp only [hsplit]
        generalize getBreakpointByIDOrName t ref = g at hbp hr ⊢
        rcases g with ⟨t1, res⟩
        simp only at hbp hr
        subst hbp
        simp only [hr, hok, hb]
        cases r.t.client.AmendBreakpoint r.t.view bp1 <;> rfl
set_option maxRecDepth 100000 in
/-- C8 at a concrete input: `on 1 print x` on the sample service. The nested `print` appends
`x` to the bound breakpoint, and one `AmendBreakpoint` with that breakpoint follows. -/
theorem on_prefix_amends_after_success_witness :
    ((∀ ch ∈ "1".data, ch ≠ ' ') ∧
      (getBreakpointByIDOrName sampleTerm "1").2 = .ok sampleBreakpoint) ∧
    ∃ r, CallWithContext sampleExtern 0 (DebugCommands none) "print x"
          (getBreakpointByIDOrName sampleTerm "1").1
          { plainContext with Prefix := onPrefix, Breakpoint := some sampleBreakpoint } = some r ∧
      r.ret = .ok ∧ r.bp = some { sampleBreakpoint with Variables := ["a", "x"] } ∧
      run sampleExtern 1 .onCmd (DebugCommands none) sampleTerm plainContext
          ("1" ++ " " ++ "print x")
        = some ⟨r.c,
            r.t.record (.call (.AmendBreakpoint { sampleBreakpoint with Variables := ["a", "x"] })),
            none, .ok⟩ :=
  have hb : ∀ ch ∈ "1".data, ch ≠ ' ' := by decide
  have hr : CallWithContext sampleExtern 0 (DebugCommands none) "print x"
      (getBreakpointByIDOrName sampleTerm "1").1
      { plainContext with Prefix := onPrefix, Breakpoint := some sampleBreakpoint } =
      some ⟨{ DebugCommands none with lastCmd := some .printVar },
        ((sampleTerm.record (.call (.GetBreakpoint 1))).record
          (.invoke .printVar ⟨onPrefix, ⟨-1, 0⟩, some sampleBreakpoint⟩ "x")),
        some { sampleBreakpoint with Variables := ["a", "x"] }, .ok⟩ := by
    rfl
  match (((on_prefix_amends_after_success sampleExtern (DebugCommands none) sampleTerm
      plainContext 0).2 "1" "print x" hb).2.2 sampleBreakpoint _ rfl hr).2 rfl with
  | ⟨_, h1, h2⟩ => ⟨⟨hb, rfl⟩, _, hr, rfl, rfl, by cases h1; exact h2⟩
theorem trimLeft_length_le (x : List Char) : (trimLeft x).length ≤ x.length := by
  induction x with
  | nil => simp [trimLeft]
  | cons ch rest ih =>
    simp only [trimLeft]
    split
    · simp only [List.length_cons]; omega
    · exact le_refl _

theorem trimLeft_eq_of_length (x : List Char) (h : x.length ≤ (trimLeft x).length) :
    trimLeft x = x := by
  cases x with
  | nil => rfl
  | cons ch rest =>
    simp only [trimLeft] at h ⊢
    split
    · rename_i hs
      simp only [hs, if_true, List.length_cons] at h
      have := trimLeft_length_le rest
      omega
    · rfl

theorem trimRight_length_le (x : List Char) : (trimRight x).length ≤ x.length := by
  induction x with
  | nil => simp [trimRight]
  | cons ch rest ih =>
    simp only [trimRight]
    cases h : trimRight rest with
    | nil =>
      simp only
      split <;> simp
    | cons r rs =>
      rw [h] at ih
      simp only [List.length_cons] at ih ⊢
      omega

theorem trimmed_data (e : String) (h : TrimSpace e = e) :
    trimLeft e.data = e.data ∧ trimRight e.data = e.data := by
  have hd : trimRight (trimLeft e.data) = e.data := by
    have := congrArg String.data h
    simpa [TrimSpace] using this
  have h1 := trimRight_length_le (trimLeft e.data)
  rw [hd] at h1
  have h2 := trimLeft_eq_of_length e.data h1
  rw [h2] at hd
  exact ⟨h2, hd⟩

theorem tailArgs_blank (e : String) (he : e ≠ "") (h : TrimSpace e = e) :
    tailArgs (" " ++ e) = e := by
  obtain ⟨h1, h2⟩ := trimmed_data e h
  have hne : e.data ≠ [] := by
    intro hn
    apply he
    cases e
    simp only at hn
    subst hn
    rfl
  have hd : (" " ++ e).data = ' ' :: e.data := by simp [String.data_append]
  unfold tailArgs
  rw [hd]
  have h3 : trimRight (' ' :: e.data) = ' ' :: e.data := by
    have h4 : trimRight (' ' :: e.data) =
        (match trimRight e.data with
         | [] => if isSpace ' ' then [] else [' ']
         | r :: rs => ' ' :: r :: rs) := rfl
    rw [h4, h2]
    cases hx : e.data with
    | nil => exact absurd hx hne
    | cons r rs => rfl
  rw [h3]
  exact h

theorem resolve_records (t : Term) (ref : String) :
    (getBreakpointByIDOrName t ref).1 = t.extend [.call (resolveRequest ref)] := by
  unfold getBreakpointByIDOrName resolveRequest
  cases Atoi ref <;> rfl

theorem run_printVar_eq (ext : Extern) (fuel : Nat) (c : Commands) (t : Term)
    (ctx : callContext) (args : String) :
    run ext fuel .printVar c t ctx args =
      some ⟨c, (printVar t ctx args).1, (printVar t ctx args).2.1, (printVar t ctx args).2.2⟩ := by
  cases fuel <;> rfl

set_option maxRecDepth 100000 in
theorem default_print_on (client : Option Client) :
    ∀ w ∈ ["print", "p"],
      findLoop w onPrefix (DebugCommands client).cmds = some .printVar ∧ isWord w = true := by
  rcases DebugCommands_eq client with h | h <;> rw [h] <;> decide

theorem length_ne_zero_of_ne_empty (e : String) (he : e ≠ "") : ¬ e.length = 0 := by
  intro h
  apply he
  cases e with
  | mk d =>
    have : d = [] := List.length_eq_zero.1 h
    subst this
    rfl

/-! ## C9: `print` under the on-prefix -/

/-- C9: in a default registry, for a breakpoint reference that resolves to `bp` and a
non-empty expression `e` (without white space around it), `on <ref> print e` (or `p e`)
records exactly three events: the request that resolves the reference, the invocation of
`printVar` under the on-prefix with `bp` bound and `e` as argument, and one
`AmendBreakpoint` whose breakpoint is `bp` with `e` appended to `Variables` and every other
field as it was. No `EvalVariable` request is sent; the result is that of `AmendBreakpoint`. -/
theorem on_print_defers_expression (ext : Extern) (client : Option Client) (c : Commands)
    (hc : c.cmds = (DebugCommands client).cmds) (t : Term) (ctx : callContext) (fuel : Nat)
    (w : String) (hw : w ∈ ["print", "p"]) (ref e : String) (bp : api.Breakpoint)
    (href : ∀ ch ∈ ref.data, ch ≠ ' ') (he : e ≠ "") (htrim : TrimSpace e = e)
    (hres : (getBreakpointByIDOrName t ref).2 = .ok bp) :
    ∃ delta ret, run ext (fuel + 1) .onCmd c t ctx (ref ++ " " ++ (w ++ (" " ++ e))) =
        some ⟨{ c with lastCmd := some .printVar }, t.extend delta, ctx.Breakpoint, ret⟩ ∧
      delta = [.call (resolveRequest ref),
               .invoke .printVar { ctx with Prefix := onPrefix, Breakpoint := some bp } e,
               .call (.AmendBreakpoint { bp with Variables := bp.Variables ++ [e] })] ∧
      (∀ scope expr cfg, Event.call (.EvalVariable scope expr cfg) ∉ delta) ∧
      ret = (match t.client.AmendBreakpoint (t.view ++ [resolveRequest ref])
                { bp with Variables := bp.Variables ++ [e] } with
             | none => .ok
             | some err => .error err) := by
  obtain ⟨hfl, hword⟩ := default_print_on client w hw
  rw [← hc] at hfl
  have hne : w ≠ "" := by
    intro h0
    rw [h0] at hword
    exact absurd hword (by decide)
  have hfind : Find c w onPrefix = (.printVar, { c with lastCmd := some .printVar }) := by
    unfold Find
    rw [if_neg hne, hfl]
  have hsplit := SplitN2_token ref (w ++ (" " ++ e)) href
  have htail : (" " ++ e) = "" ∨ (" " ++ e).data.head? = some ' ' := by
    right; simp [String.data_append]
  refine ⟨_, _, ?_, rfl, ?_, rfl⟩
  · show onCmd (run ext fuel) c t ctx (ref ++ " " ++ (w ++ (" " ++ e))) = _
    unfold onCmd
    simp only [hsplit]
    have hrec := resolve_records t ref
    generalize getBreakpointByIDOrName t ref = g at hres hrec ⊢
    rcases g with ⟨t1, res⟩
    simp only at hres hrec
    subst hres
    subst hrec
    simp only []
    rw [CallWithContextWith_word _ _ _ _ w (" " ++ e) hword htail, tailArgs_blank e he htrim]
    simp only [hfind, run_printVar_eq, printVar, length_ne_zero_of_ne_empty e he, if_false,
      if_true, Term.record_eq_extend, Term.extend_extend, Term.extend_client, Term.extend_view,
      List.filterMap, Event.toRequest, List.append_nil, List.cons_append, List.nil_append]
    cases t.client.AmendBreakpoint (t.view ++ [resolveRequest ref])
      { bp with Variables := bp.Variables ++ [e] } <;> rfl
  · intro scope expr cfg hmem
    simp only [List.mem_cons, Event.call.injEq, List.mem_singleton, List.not_mem_nil,
      or_false] at hmem
    rcases hmem with h | h | h
    · unfold resolveRequest at h
      cases hA : Atoi ref <;> rw [hA] at h <;> simp at h
    · simp at h
    · simp at h
set_option maxRecDepth 100000 in
/-- C9 at a concrete input: `on 1 print x + y` on the sample service. -/
theorem on_print_defers_expression_witness :
    ("print" ∈ ["print", "p"] ∧ (∀ ch ∈ "1".data, ch ≠ ' ') ∧ "x + y" ≠ "" ∧
      TrimSpace "x + y" = "x + y" ∧
      (getBreakpointByIDOrName sampleTerm "1").2 = .ok sampleBreakpoint) ∧
    run sampleExtern 1 .onCmd (DebugCommands none) sampleTerm plainContext
        ("1" ++ " " ++ ("print" ++ (" " ++ "x + y"))) =
      some ⟨{ DebugCommands none with lastCmd := some .printVar },
        sampleTerm.extend
          [.call (.GetBreakpoint 1),
           .invoke .printVar ⟨onPrefix, ⟨-1, 0⟩, some sampleBreakpoint⟩ "x + y",
           .call (.AmendBreakpoint { sampleBreakpoint with Variables := ["a", "x + y"] })],
        none, .ok⟩ := by
  have h1 : "print" ∈ ["print", "p"] := by decide
  have h2 : ∀ ch ∈ "1".data, ch ≠ ' ' := by decide
  have h3 : "x + y" ≠ "" := by decide
  have h4 : TrimSpace "x + y" = "x + y" := by decide
  have h5 : (getBreakpointByIDOrName sampleTerm "1").2 = .ok sampleBreakpoint := rfl
  obtain ⟨delta, ret, h, hd, _, hr⟩ :=
    on_print_defers_expression sampleExtern none (DebugCommands none) rfl sampleTerm
      plainContext 0 "print" h1 "1" "x + y" sampleBreakpoint h2 h3 h4 h5
  subst hd hr
  exact ⟨⟨h1, h2, h3, h4, h5⟩, h⟩
set_option maxRecDepth 100000 in
theorem default_on_table (client : Option Client) :
    ∀ v ∈ (DebugCommands client).cmds,
      (v.allowedPrefixes &&& onPrefix ≠ 0 ↔ v.aliases.headD "" ∈ onPrefixCommands) ∧
      (v.allowedPrefixes &&& onPrefix = 0 → ∀ a ∈ v.aliases,
        findLoop a onPrefix (DebugCommands client).cmds = none ∧
        v.cmdFn ≠ .noCmdAvailable) := by
  rcases DebugCommands_eq client with h | h <;> rw [h] <;> decide

theorem amended_resolve (ref : String) : amended [.call (resolveRequest ref)] = false := by
  unfold resolveRequest
  cases Atoi ref <;> rfl

/-! ## C10: commands that do not accept the on-prefix -/

/-- C10: in a default registry the commands whose allowed-prefix mask includes `onPrefix` are
exactly those whose canonical name is `print`, `args`, `locals`, `stack` or `goroutine`; and
for every alias `a` of any other command `v`, `on <ref> a ...` returns an error (that of the
resolution of `<ref>`, or `noCmdError`) without invoking the handler of `v` and without an
`AmendBreakpoint` request. -/
theorem on_prefix_rejects_other_commands (ext : Extern) (client : Option Client)
    (c : Commands) (hc : c.cmds = (DebugCommands client).cmds) :
    (∀ v ∈ c.cmds,
      (v.allowedPrefixes &&& onPrefix ≠ 0 ↔ v.aliases.headD "" ∈ onPrefixCommands)) ∧
    (∀ v ∈ c.cmds, v.aliases.headD "" ∉ onPrefixCommands → ∀ a ∈ v.aliases,
      ∀ (t : Term) (ctx : callContext) (ref tail : String) (fuel : Nat),
        (∀ ch ∈ ref.data, ch ≠ ' ') → (tail = "" ∨ tail.data.head? = some ' ') →
        ∃ delta e, run ext (fuel + 1) .onCmd c t ctx (ref ++ " " ++ (a ++ tail)) =
            some ⟨c, t.extend delta, ctx.Breakpoint, .error e⟩ ∧
          invoked v.cmdFn delta = false ∧ amended delta = false) := by
  constructor
  · intro v hv
    rw [hc] at hv
    exact (default_on_table client v hv).1
  · intro v hv hnot a ha t ctx ref tail fuel href htail
    rw [hc] at hv
    obtain ⟨hiff, hex⟩ := default_on_table client v hv
    have hmask : v.allowedPrefixes &&& onPrefix = 0 := by
      by_contra hm
      exact hnot (hiff.1 hm)
    obtain ⟨hfl, hfn⟩ := hex hmask a ha
    rw [← hc] at hfl
    have hw := default_aliases_are_words client v hv a ha
    have hfind : Find c a onPrefix = (.noCmdAvailable, c) := Find_none c a onPrefix hw hfl
    have hsplit := SplitN2_token ref (a ++ tail) href
    have hrec := resolve_records t ref
    have hrun : run ext (fuel + 1) .onCmd c t ctx (ref ++ " " ++ (a ++ tail)) =
        onCmd (run ext fuel) c t ctx (ref ++ " " ++ (a ++ tail)) := rfl
    rw [hrun]
    unfold onCmd
    simp only [hsplit]
    generalize getBreakpointByIDOrName t ref = g at hrec ⊢
    rcases g with ⟨t1, res⟩
    simp only at hrec
    subst hrec
    cases res with
    | error e =>
      refine ⟨[.call (resolveRequest ref)], e, rfl, ?_, amended_resolve ref⟩
      simp [invoked]
    | ok bp =>
      refine ⟨[.call (resolveRequest ref), .invoke .noCmdAvailable
        { ctx with Prefix := onPrefix, Breakpoint := some bp } (tailArgs tail)],
        .noCmdError, ?_, ?_, ?_⟩
      · simp only []
        rw [CallWithContextWith_word _ _ _ _ a tail hw htail]
        simp only [hfind, run_noCmdAvailable, Term.record_eq_extend, Term.extend_extend,
          List.singleton_append]
      · simp [invoked, Ne.symm hfn]
      · have := amended_resolve ref
        simp only [amended, List.any_cons, List.any_nil, Bool.or_false] at this ⊢
        simp [this]

set_option maxRecDepth 100000 in
/-- C10 at a concrete input: `on 1 continue` in the default registry. -/
theorem on_prefix_rejects_other_commands_witness :
    (continueCommand ∈ (DebugCommands none).cmds ∧
      continueCommand.aliases.headD "" ∉ onPrefixCommands ∧
      "continue" ∈ continueCommand.aliases ∧ (∀ ch ∈ "1".data, ch ≠ ' ')) ∧
    ∃ delta e, run sampleExtern 1 .onCmd (DebugCommands none) sampleTerm plainContext
          ("1" ++ " " ++ ("continue" ++ "")) =
        some ⟨DebugCommands none, sampleTerm.extend delta, none, .error e⟩ ∧
      invoked .cont delta = false ∧ amended delta = false :=
  have hv : continueCommand ∈ (DebugCommands none).cmds := by decide
  have hn : continueCommand.aliases.headD "" ∉ onPrefixCommands := by decide
  have hb : ∀ ch ∈ "1".data, ch ≠ ' ' := by decide
  ⟨⟨hv, hn, by decide, hb⟩,
    (on_prefix_rejects_other_commands sampleExtern none (DebugCommands none) rfl).2
      continueCommand hv hn "continue" (by decide) sampleTerm plainContext "1" "" 0 hb
      (Or.inl rfl)⟩
theorem Atoi_error_form (tok : String) (e : Err) (h : Atoi tok = .error e) :
    e = .numError tok := by
  have key : ∀ (neg : Bool) (ds : List Char),
      (match ds with
        | [] => (Except.error (Err.numError tok) : Except Err Int)
        | _ =>
          match parseDigits ds 0 with
          | none => .error (.numError tok)
          | some n =>
            if neg then (if n ≤ 2 ^ 63 then .ok (-(n : Int)) else .error (.numError tok))
            else (if n < 2 ^ 63 then .ok (n : Int) else .error (.numError tok))) = .error e →
      e = .numError tok := by
    intro neg ds hd
    cases ds with
    | nil => simpa using hd.symm
    | cons d rest =>
      simp only at hd
      cases hp : parseDigits (d :: rest) 0 with
      | none => rw [hp] at hd; simpa using hd.symm
      | some m =>
        rw [hp] at hd
        simp only at hd
        repeat' split at hd
        all_goals first
          | (simp only [Except.error.injEq] at hd; exact hd.symm)
          | simp at hd
  unfold Atoi at h
  simp only at h
  split at h
  · exact key true _ h
  · exact key false _ h
  · exact key false _ h

theorem split_at_first_blank (l : List Char) (h : ' ' ∈ l) :
    ∃ a b, l = a ++ ' ' :: b ∧ ∀ ch ∈ a, ch ≠ ' ' := by
  induction l with
  | nil => simp at h
  | cons x rest ih =>
    by_cases hx : x = ' '
    · exact ⟨[], rest, by simp [hx], by simp⟩
    · have hr : ' ' ∈ rest := by
        rcases List.mem_cons.1 h with e | e
        · exact absurd e.symm hx
        · exact e
      obtain ⟨a, b, hab, ha⟩ := ih hr
      refine ⟨x :: a, b, by simp [hab], ?_⟩
      intro ch hch
      rcases List.mem_cons.1 hch with e | e
      · rw [e]; exact hx
      · exact ha ch e

theorem string_split_at_first_blank (s : String) (h : ' ' ∈ s.data) :
    ∃ tok rest : String, s = tok ++ " " ++ rest ∧ ∀ ch ∈ tok.data, ch ≠ ' ' := by
  obtain ⟨a, b, hab, ha⟩ := split_at_first_blank s.data h
  refine ⟨⟨a⟩, ⟨b⟩, ?_, ha⟩
  apply String.ext
  simp [String.data_append, hab]

/-! ## C11: the goroutine prefix -/

/-- C11: outside the on-prefix, the `goroutine` handler applied to `<id> <rest>` (the token
`<id>` without a blank) does the following. When `<id>` parses as the integer `n`, it
dispatches `<rest>` with the incoming context in which the prefix kind is `scopePrefix` and the
goroutine id is `n`, the frame index and the bound breakpoint being those of the incoming
context, and its result is the result of that dispatch. When `<id>` does not parse, it returns
the parse error; the registry and the record are untouched. -/
theorem goroutine_prefix_dispatches (ext : Extern) (c : Commands) (t : Term)
    (ctx : callContext) (tok rest : String) (fuel : Nat)
    (hctx : ctx.Prefix ≠ onPrefix) (htok : ∀ ch ∈ tok.data, ch ≠ ' ') :
    (∀ n, Atoi tok = .ok n →
      run ext (fuel + 1) .goroutine c t ctx (tok ++ " " ++ rest) =
        CallWithContext ext fuel c rest t
          { Prefix := scopePrefix, Scope := { GoroutineID := n, Frame := ctx.Scope.Frame },
            Breakpoint := ctx.Breakpoint }) ∧
    (∀ e, Atoi tok = .error e →
      run ext (fuel + 1) .goroutine c t ctx (tok ++ " " ++ rest) =
        some ⟨c, t, ctx.Breakpoint, .error e⟩) := by
  have hsplit := SplitN2_token tok rest htok
  constructor
  · intro n hn
    show goroutine (run ext fuel) c t ctx (tok ++ " " ++ rest) = _
    unfold goroutine CallWithContext
    simp only [hctx, if_false, hsplit, hn]
  · intro e he
    show goroutine (run ext fuel) c t ctx (tok ++ " " ++ rest) = _
    unfold goroutine
    simp only [hctx, if_false, hsplit, he]

/-! ## C12: the frame prefix -/

/-- C12: the `frame` handler. On an argument without a blank (fewer than two tokens) it
returns "not enough arguments" and leaves the registry and the record untouched: nothing is
dispatched and nothing is sent to the target. Every argument with a blank is `<idx> <rest>`
with `<idx>` free of blanks, and then the handler does not take that exit: when `<idx>` parses
as the integer `idx` its result is that of the dispatch of `<rest>` with prefix kind
`scopePrefix`, frame index `idx` and the incoming goroutine id and bound breakpoint; when
`<idx>` does not parse it returns the parse error, which is not the usage error. -/
theorem frame_prefix_needs_two_tokens (ext : Extern) (c : Commands) (t : Term)
    (ctx : callContext) (fuel : Nat) :
    (∀ args : String, (∀ ch ∈ args.data, ch ≠ ' ') →
      run ext (fuel + 1) .frame c t ctx args =
        some ⟨c, t, ctx.Breakpoint, .error (.new "not enough arguments")⟩) ∧
    (∀ args : String, ' ' ∈ args.data →
      ∃ tok rest : String, args = tok ++ " " ++ rest ∧ (∀ ch ∈ tok.data, ch ≠ ' ') ∧
        (∀ idx, Atoi tok = .ok idx →
          run ext (fuel + 1) .frame c t ctx args =
            CallWithContext ext fuel c rest t
              { Prefix := scopePrefix,
                Scope := { GoroutineID := ctx.Scope.GoroutineID, Frame := idx },
                Breakpoint := ctx.Breakpoint }) ∧
        (∀ e, Atoi tok = .error e →
          run ext (fuel + 1) .frame c t ctx args = some ⟨c, t, ctx.Breakpoint, .error e⟩ ∧
          e ≠ .new "not enough arguments")) := by
  constructor
  · intro args h
    show frame (run ext fuel) c t ctx args = _
    unfold frame
    rw [SplitN2_no_blank args h]
  · intro args h
    obtain ⟨tok, rest, hs, htok⟩ := string_split_at_first_blank args h
    refine ⟨tok, rest, hs, htok, ?_, ?_⟩
    · intro idx hi
      rw [hs]
      show frame (run ext fuel) c t ctx (tok ++ " " ++ rest) = _
      unfold frame CallWithContext
      simp only [SplitN2_token tok rest htok, hi]
    · intro e he
      rw [hs]
      refine ⟨?_, ?_⟩
      · show frame (run ext fuel) c t ctx (tok ++ " " ++ rest) = _
        unfold frame
        simp only [SplitN2_token tok rest htok, he]
      · rw [Atoi_error_form tok e he]
        simp
set_option maxRecDepth 100000 in
/-- C11 at concrete inputs: `goroutine 3 print a` dispatches `print a` in the scope of
goroutine 3, frame 0, which sends one `EvalVariable` request in that scope; `goroutine x
print a` returns the parse error of `x`. -/
theorem goroutine_prefix_dispatches_witness :
    (plainContext.Prefix ≠ onPrefix ∧ (∀ ch ∈ "3".data, ch ≠ ' ') ∧ Atoi "3" = .ok 3 ∧
      (∀ ch ∈ "x".data, ch ≠ ' ') ∧ Atoi "x" = .error (.numError "x")) ∧
    run sampleExtern 1 .goroutine (DebugCommands none) sampleTerm plainContext
        ("3" ++ " " ++ "print a") =
      CallWithContext sampleExtern 0 (DebugCommands none) "print a" sampleTerm
        { Prefix := scopePrefix, Scope := { GoroutineID := 3, Frame := 0 },
          Breakpoint := none } ∧
    (CallWithContext sampleExtern 0 (DebugCommands none) "print a" sampleTerm
        { Prefix := scopePrefix, Scope := { GoroutineID := 3, Frame := 0 },
          Breakpoint := none }).map (fun r => (r.t.view, r.ret)) =
      some ([.EvalVariable ⟨3, 0⟩ "a" LongLoadConfig], .ok) ∧
    run sampleExtern 1 .goroutine (DebugCommands none) sampleTerm plainContext
        ("x" ++ " " ++ "print a") =
      some ⟨DebugCommands none, sampleTerm, none, .error (.numError "x")⟩ :=
  have h1 : plainContext.Prefix ≠ onPrefix := by decide
  have h2 : ∀ ch ∈ "3".data, ch ≠ ' ' := by decide
  have h3 : ∀ ch ∈ "x".data, ch ≠ ' ' := by decide
  ⟨⟨h1, h2, rfl, h3, rfl⟩,
    (goroutine_prefix_dispatches sampleExtern (DebugCommands none) sampleTerm plainContext
      "3" "print a" 0 h1 h2).1 3 rfl,
    by decide,
    (goroutine_prefix_dispatches sampleExtern (DebugCommands none) sampleTerm plainContext
      "x" "print a" 0 h1 h3).2 _ rfl⟩

set_option maxRecDepth 100000 in
/-- C12 at concrete inputs: `frame 2` is a usage error; `frame 2 print a` is not. -/
theorem frame_prefix_needs_two_tokens_witness :
    ((∀ ch ∈ "2".data, ch ≠ ' ') ∧ ' ' ∈ "2 print a".data) ∧
    run sampleExtern 1 .frame (DebugCommands none) sampleTerm plainContext "2" =
      some ⟨DebugCommands none, sampleTerm, none, .error (.new "not enough arguments")⟩ ∧
    (∃ tok rest : String, "2 print a" = tok ++ " " ++ rest ∧ (∀ ch ∈ tok.data, ch ≠ ' ') ∧
      (∀ idx, Atoi tok = .ok idx →
        run sampleExtern 1 .frame (DebugCommands none) sampleTerm plainContext "2 print a" =
          CallWithContext sampleExtern 0 (DebugCommands none) rest sampleTerm
            { Prefix := scopePrefix, Scope := { GoroutineID := -1, Frame := idx },
              Breakpoint := none }) ∧
      (∀ e, Atoi tok = .error e →
        run sampleExtern 1 .frame (DebugCommands none) sampleTerm plainContext "2 print a" =
          some ⟨DebugCommands none, sampleTerm, none, .error e⟩ ∧
        e ≠ .new "not enough arguments")) ∧
    (run sampleExtern 1 .frame (DebugCommands none) sampleTerm plainContext "2 print a").map
        (fun r => (r.t.view, r.ret)) =
      some ([.EvalVariable ⟨-1, 2⟩ "a" LongLoadConfig], .ok) :=
  have h1 : ∀ ch ∈ "2".data, ch ≠ ' ' := by decide
  have h2 : ' ' ∈ "2 print a".data := by decide
  ⟨⟨h1, h2⟩,
    (frame_prefix_needs_two_tokens sampleExtern (DebugCommands none) sampleTerm plainContext
      0).1 "2" h1,
    (frame_prefix_needs_two_tokens sampleExtern (DebugCommands none) sampleTerm plainContext
      0).2 "2 print a" h2,
    by decide⟩
set_option maxRecDepth 100000 in
theorem default_stepping_scope (client : Option Client) :
    ∀ w ∈ steppingAliases,
      isWord w = true ∧
      ∃ fn ∈ steppingHandlers, findLoop w scopePrefix (DebugCommands client).cmds = some fn := by
  rcases DebugCommands_eq client with h | h <;> rw [h] <;> decide

theorem run_stepInstruction_eq (ext : Extern) (fuel : Nat) (c : Commands) (t : Term)
    (ctx : callContext) (args : String) :
    run ext fuel .stepInstruction c t ctx args =
      some ⟨c, (stepInstruction t ctx args).1, ctx.Breakpoint, (stepInstruction t ctx args).2⟩ := by
  cases fuel <;> rfl

theorem scopePrefixSwitch_frame (t : Term) (ctx : callContext) (hp : ctx.Prefix = scopePrefix)
    (hf : ctx.Scope.Frame ≠ 0) :
    scopePrefixSwitch t ctx = (t, some (.new "frame prefix not accepted")) := by
  simp [scopePrefixSwitch, hp, hf]

/-! ## C16: stepping under a frame prefix -/

/-- C16, amended: in a default registry, for every frame index `idx` other than 0 and every
alias `w` of `step`, `step-instruction`, `next` or `stepout`, `frame <idx> w ...` invokes the
stepping handler in the scope of frame `idx`, which returns the error "frame prefix not
accepted"; the invocation is the only event recorded, so neither a goroutine switch nor the
execution operation (nor any other request) is sent to the target. -/
theorem stepping_rejects_nonzero_frame (ext : Extern) (client : Option Client)
    (c : Commands) (hc : c.cmds = (DebugCommands client).cmds) (t : Term) (ctx : callContext)
    (tok tail w : String) (idx : Int) (fuel : Nat)
    (hw : w ∈ steppingAliases) (htok : Atoi tok = .ok idx) (hidx : idx ≠ 0)
    (htail : tail = "" ∨ tail.data.head? = some ' ') :
    ∃ fn delta, fn ∈ steppingHandlers ∧
      run ext (fuel + 1) .frame c t ctx (tok ++ " " ++ (w ++ tail)) =
        some ⟨{ c with lastCmd := some fn }, t.extend delta, ctx.Breakpoint,
              .error (.new "frame prefix not accepted")⟩ ∧
      delta = [.invoke fn
        { Prefix := scopePrefix, Scope := { GoroutineID := ctx.Scope.GoroutineID, Frame := idx },
          Breakpoint := ctx.Breakpoint } (tailArgs tail)] ∧
      delta.filterMap Event.toRequest = [] := by
  obtain ⟨hword, fn, hfn, hfl⟩ := default_stepping_scope client w hw
  rw [← hc] at hfl
  have hne : w ≠ "" := by
    intro h0
    rw [h0] at hword
    exact absurd hword (by decide)
  have hfind : Find c w scopePrefix = (fn, { c with lastCmd := some fn }) := by
    unfold Find
    rw [if_neg hne, hfl]
  have hsplit := SplitN2_token tok (w ++ tail) (Atoi_ok_no_blank tok idx htok)
  refine ⟨fn, _, hfn, ?_, rfl, rfl⟩
  show frame (run ext fuel) c t ctx (tok ++ " " ++ (w ++ tail)) = _
  unfold frame
  simp only [hsplit, htok]
  rw [CallWithContextWith_word _ _ _ _ w tail hword htail]
  simp only [hfind, Term.record_eq_extend]
  simp only [steppingHandlers, List.mem_cons, List.mem_singleton, List.not_mem_nil,
    or_false] at hfn
  have hsw : ∀ t1 : Term,
      scopePrefixSwitch t1
        { Prefix := scopePrefix, Scope := { GoroutineID := ctx.Scope.GoroutineID, Frame := idx },
          Breakpoint := ctx.Breakpoint } = (t1, some (.new "frame prefix not accepted")) :=
    fun t1 => scopePrefixSwitch_frame t1 _ rfl hidx
  rcases hfn with rfl | rfl | rfl | rfl
  · simp [run_step_eq, step, hsw]
  · simp [run_stepInstruction_eq, stepInstruction, hsw]
  · simp [run_next_eq, next, hsw]
  · simp [run_stepout_eq, stepout, hsw]

set_option maxRecDepth 100000 in
/-- C16 at a concrete input: `frame 2 next` in the default registry. -/
theorem stepping_rejects_nonzero_frame_witness :
    ("next" ∈ steppingAliases ∧ Atoi "2" = .ok 2 ∧ (2 : Int) ≠ 0) ∧
    ∃ fn delta, fn ∈ steppingHandlers ∧
      run sampleExtern 1 .frame (DebugCommands none) sampleTerm plainContext
          ("2" ++ " " ++ ("next" ++ "")) =
        some ⟨{ DebugCommands none with lastCmd := some fn }, sampleTerm.extend delta, none,
              .error (.new "frame prefix not accepted")⟩ ∧
      delta = [.invoke fn
        { Prefix := scopePrefix, Scope := { GoroutineID := -1, Frame := 2 },
          Breakpoint := none } ""] ∧
      delta.filterMap Event.toRequest = [] :=
  ⟨⟨by decide, rfl, by decide⟩,
    stepping_rejects_nonzero_frame sampleExtern none (DebugCommands none) rfl sampleTerm
      plainContext "2" "" "next" 2 0 (by decide) rfl (by decide) (Or.inl rfl)⟩

set_option maxRecDepth 100000 in
/-- C16 as stated fails at frame index 0: `frame 0 step` is not rejected. On the sample
service it sends `Step` and one `Continue` to the target and returns nil. -/
theorem stepping_accepts_frame_zero :
    (run sampleExtern 2 .frame (DebugCommands none) sampleTerm plainContext "0 step").map
      (fun r => (r.t.view, r.ret)) = some ([.Step, .Continue], .ok) := by
  decide

/-! ## Lemmas on the streams that carry an error -/

theorem rangeStates_first_error (pre post : List api.DebuggerState) (s : api.DebuggerState)
    (e : Err) (t : Term) (last : Option api.DebuggerState)
    (hpre : ∀ x ∈ pre, x.Err = none) (hshown : ∀ x ∈ pre, printcontextPanics x = false)
    (hs : s.Err = some e) :
    rangeStates (pre ++ s :: post) t last =
      (printfileNoState (t.extend (pre.map Event.printcontext)), .error (.error e)) := by
  induction pre generalizing t last with
  | nil => simp [rangeStates, hs, Term.extend_nil]
  | cons x rest ih =>
    have hx : x.Err = none := hpre x (List.mem_cons_self _ _)
    have hr : ∀ y ∈ rest, y.Err = none := fun y hy => hpre y (List.mem_cons_of_mem _ hy)
    have hdx : printcontextPanics x = false := hshown x (List.mem_cons_self _ _)
    have hdr : ∀ y ∈ rest, printcontextPanics y = false :=
      fun y hy => hshown y (List.mem_cons_of_mem _ hy)
    simp only [List.cons_append, rangeStates, hx, printcontext, hdx]
    show rangeStates (rest ++ s :: post) _ _ = _
    rw [ih _ _ hr hdr]
    simp [Term.record_eq_extend, Term.extend_extend]

theorem rewindStates_first_error (pre post : List api.DebuggerState) (s : api.DebuggerState)
    (e : Err) (t : Term) (last : Option api.DebuggerState)
    (hpre : ∀ x ∈ pre, x.Err = none) (hshown : ∀ x ∈ pre, printcontextPanics x = false)
    (hs : s.Err = some e) :
    rewindStates (pre ++ s :: post) t last =
      (t.extend (pre.map Event.printcontext), .error (.error e)) := by
  induction pre generalizing t last with
  | nil => simp [rewindStates, hs, Term.extend_nil]
  | cons x rest ih =>
    have hx : x.Err = none := hpre x (List.mem_cons_self _ _)
    have hr : ∀ y ∈ rest, y.Err = none := fun y hy => hpre y (List.mem_cons_of_mem _ hy)
    have hdx : printcontextPanics x = false := hshown x (List.mem_cons_self _ _)
    have hdr : ∀ y ∈ rest, printcontextPanics y = false :=
      fun y hy => hshown y (List.mem_cons_of_mem _ hy)
    simp only [List.cons_append, rewindStates, hx, printcontext, hdx]
    show rewindStates (rest ++ s :: post) _ _ = _
    rw [ih _ _ hr hdr]
    simp [Term.record_eq_extend, Term.extend_extend]

theorem rewindStates_clean (σ : List api.DebuggerState) (t : Term)
    (last : Option api.DebuggerState) (h : ∀ x ∈ σ, x.Err = none)
    (hd : ∀ x ∈ σ, printcontextPanics x = false) :
    rewindStates σ t last =
      (t.extend (σ.map Event.printcontext),
       .ok (match σ.getLast? with
            | some s => some s
            | none => last)) := by
  induction σ generalizing t last with
  | nil => simp [rewindStates, Term.extend_nil]
  | cons x rest ih =>
    have hx : x.Err = none := h x (List.mem_cons_self _ _)
    have hr : ∀ y ∈ rest, y.Err = none := fun y hy => h y (List.mem_cons_of_mem _ hy)
    have hdx : printcontextPanics x = false := hd x (List.mem_cons_self _ _)
    have hdr : ∀ y ∈ rest, printcontextPanics y = false :=
      fun y hy => hd y (List.mem_cons_of_mem _ hy)
    simp only [rewindStates, hx, printcontext, hdx]
    rw [ih _ _ hr hdr]
    simp only [Term.record_eq_extend, Term.extend_extend, List.map,
      List.singleton_append]
    cases rest with
    | nil => rfl
    | cons y ys =>
      rw [List.getLast?_cons_cons]
      cases hs : (y :: ys).getLast? with
      | none => simp at hs
      | some s => rfl

theorem printfileNoState_view (t : Term) : (printfileNoState t).view = t.view ++ [.GetState] := by
  unfold printfileNoState
  cases t.client.GetState t.view with
  | error e => simp [Term.record_eq_extend, Term.extend_view, Event.toRequest]
  | ok state =>
    cases hct : state.CurrentThread with
    | none => simp [hct, Term.record_eq_extend, Term.extend_view, Event.toRequest]
    | some th =>
      simp [hct, printfile, Term.record_eq_extend, Term.extend_extend, Term.extend_view,
        Event.toRequest]

theorem continueLoop_error (op : String) (pre post : List api.DebuggerState)
    (s : api.DebuggerState) (e : Err) (hpre : ∀ x ∈ pre, x.Err = none)
    (hshown : ∀ x ∈ pre, printcontextPanics x = false) (hs : s.Err = some e)
    (j : Nat) :
    ∀ (fuel : Nat) (t : Term),
      j < fuel →
      (∀ i, i < j → nthStream t.client t.view i ≠ [] ∧
        (∀ x ∈ nthStream t.client t.view i, x.Err = none) ∧
        (∀ x ∈ nthStream t.client t.view i, printcontextPanics x = false) ∧
        ∀ x, (nthStream t.client t.view i).getLast? = some x → x.NextInProgress = true) →
      nthStream t.client t.view j = pre ++ s :: post →
      ∃ d0, continueLoop fuel t op = some (printfileNoState (t.extend d0), .error e) ∧
        d0.filterMap Event.toRequest = List.replicate (j + 1) .Continue := by
  induction j with
  | zero =>
    intro fuel t hf _ hstream
    cases fuel with
    | zero => omega
    | succ f =>
      have hσ : nthStream t.client t.view 0 = t.client.Continue t.view := by simp [nthStream]
      rw [hσ] at hstream
      refine ⟨[.call .Continue] ++ pre.map .printcontext, ?_, ?_⟩
      · simp only [continueLoop, hstream,
          rangeStates_first_error pre post s e _ _ hpre hshown hs,
          Term.record_eq_extend, Term.extend_extend]
      · simp [List.filterMap_append, printcontext_requests, Event.toRequest]
  | succ m ih =>
    intro fuel t hf hgood hstream
    cases fuel with
    | zero => omega
    | succ f =>
      have hσ : nthStream t.client t.view 0 = t.client.Continue t.view := by simp [nthStream]
      have hg := hgood 0 (Nat.succ_pos _)
      rw [hσ] at hg
      obtain ⟨x, hx⟩ := getLast_some_of_ne_nil _ hg.1
      have hl := hg.2.2.2 x hx
      have hv : (t.extend ([.call .Continue] ++
          (t.client.Continue t.view).map .printcontext ++
          [.print ("\tbreakpoint hit during " ++ op ++ ", continuing...\n")])).view
          = t.view ++ [.Continue] := by
        simp [Term.extend_view, List.filterMap_append, printcontext_requests, Event.toRequest]
      obtain ⟨d, hd, hq⟩ := ih f (t.extend ([.call .Continue] ++
          (t.client.Continue t.view).map .printcontext ++
          [.print ("\tbreakpoint hit during " ++ op ++ ", continuing...\n")])) (by omega)
        (by
          intro i hi
          rw [hv, Term.extend_client, nthStream_succ]
          exact hgood (i + 1) (by omega))
        (by
          rw [hv, Term.extend_client, nthStream_succ]
          exact hstream)
      refine ⟨[.call .Continue] ++ (t.client.Continue t.view).map .printcontext ++
        [.print ("\tbreakpoint hit during " ++ op ++ ", continuing...\n")] ++ d, ?_, ?_⟩
      · simp only [continueLoop, rangeStates_clean _ _ _ hg.2.1 hg.2.2.1, hx, hl,
          Term.record_eq_extend, Term.extend_extend]
        simp only [Bool.not_true, Bool.false_eq_true, if_false]
        rw [hd, Term.extend_extend]
      · simp [List.filterMap_append, printcontext_requests, Event.toRequest, hq,
          List.replicate_succ]

/-- Where every state before the first error can be displayed, the first error of a stream is
what is returned. Let a stream be `pre ++ s :: post`, where no state of `pre` carries an error
or makes `printcontext` panic, and `s` carries the error `e`. When this is the stream of
`cont`, `cont` returns `e`, having displayed the states of `pre` and made the best-effort
display `printfileNoState`; the requests it sent are `Continue` and the `GetState` of that
display, and nothing after it. When it is the stream of round `j` of the continuation loop of
`step`, `next` or `stepout` (the rounds before it having error-free, non-empty streams that
can be displayed and end with the step still in progress), the loop returns `e` after exactly
`j + 1` `Continue` and that one `GetState`. This holds for every service, whatever `GetState`
answers. -/
theorem first_error_returned_when_displayable (t : Term) (ctx : callContext) (args : String)
    (pre post : List api.DebuggerState) (s : api.DebuggerState) (e : Err)
    (hpre : ∀ x ∈ pre, x.Err = none) (hshown : ∀ x ∈ pre, printcontextPanics x = false)
    (hs : s.Err = some e) :
    (t.client.Continue t.view = pre ++ s :: post →
      cont t ctx args =
        (printfileNoState (t.extend (.call .Continue :: pre.map .printcontext)), .error e) ∧
      (cont t ctx args).1.view = t.view ++ [.Continue, .GetState]) ∧
    (∀ (op : String) (s0 : api.DebuggerState) (j fuel : Nat),
      s0.NextInProgress = true → j < fuel →
      (∀ i, i < j → nthStream t.client t.view i ≠ [] ∧
        (∀ x ∈ nthStream t.client t.view i, x.Err = none) ∧
        (∀ x ∈ nthStream t.client t.view i, printcontextPanics x = false) ∧
        ∀ x, (nthStream t.client t.view i).getLast? = some x → x.NextInProgress = true) →
      nthStream t.client t.view j = pre ++ s :: post →
      ∃ t1, continueUntilCompleteNext fuel t s0 op = some (t1, .error e) ∧
        t1.view = t.view ++ List.replicate (j + 1) .Continue ++ [.GetState]) := by
  constructor
  · intro hstream
    have h1 : cont t ctx args =
        (printfileNoState (t.extend (.call .Continue :: pre.map .printcontext)), .error e) := by
      simp only [cont, hstream, rangeStates_first_error pre post s e _ _ hpre hshown hs,
        Term.record_eq_extend, Term.extend_extend, List.singleton_append]
    refine ⟨h1, ?_⟩
    rw [h1]
    simp [printfileNoState_view, Term.extend_view, printcontext_requests, Event.toRequest]
  · intro op s0 j fuel h0 hf hgood hstream
    obtain ⟨d0, hd, hq⟩ :=
      continueLoop_error op pre post s e hpre hshown hs j fuel t hf hgood hstream
    refine ⟨printfileNoState (t.extend d0), ?_, ?_⟩
    · simp [continueUntilCompleteNext, h0, hd]
    · simp [printfileNoState_view, Term.extend_view, hq]

/-! ## C13: an error state in a stream -/

/-- C13, evaluated on the code: the stream of `Continue` of the bare failing service is a
state without an error, whose current thread has the file `proc.go` and no function, followed
by a state that carries the error "process exited". `printcontextThread` reads `fn.Name` of
the nil function of the first state and panics: `cont` and the continuation loop of `next` end
in that panic after the `Continue`, and the error of the stream is not returned, nor is the
best-effort display made. On the failing service, whose first state has a function, the error
is returned after that display. -/
theorem display_panic_precedes_stream_error :
    bareFailingClient.Continue [] = [bareState false, errorState] ∧
    (bareState false).Err = none ∧
    errorState.Err = some (.service "process exited") ∧
    printcontextPanics (bareState false) = true ∧
    cont bareFailingTerm plainContext "" =
      (bareFailingTerm.extend [.call .Continue, .printcontext (bareState false)], .panic) ∧
    continueUntilCompleteNext 1 bareFailingTerm (sampleState true 10) "next" =
      some (bareFailingTerm.extend [.call .Continue, .printcontext (bareState false)],
        .panic) ∧
    cont failingTerm plainContext "" =
      (failingTerm.extend
        [.call .Continue, .printcontext (sampleState false 15), .call .GetState,
         .printfile "main.go" 10 true],
       .error (.service "process exited")) := by
  refine ⟨rfl, rfl, rfl, rfl, rfl, rfl, rfl⟩

/-! ## Lemmas on the states a loop receives -/

theorem received_le (σ : List api.DebuggerState) : received σ ≤ σ.length := by
  induction σ with
  | nil => simp [received]
  | cons x rest ih =>
    cases hx : x.Err with
    | some e => simp [received, hx]
    | none => simp [received, hx]; omega

theorem received_clean (σ : List api.DebuggerState) (h : ∀ x ∈ σ, x.Err = none) :
    received σ = σ.length := by
  induction σ with
  | nil => rfl
  | cons x rest ih =>
    have hx : x.Err = none := h x (List.mem_cons_self _ _)
    have hr := ih (fun y hy => h y (List.mem_cons_of_mem _ hy))
    simp only [received, hx, hr, List.length_cons]
    omega

theorem received_first_error (pre post : List api.DebuggerState) (s : api.DebuggerState)
    (hpre : ∀ x ∈ pre, x.Err = none) (hs : s.Err ≠ none) :
    received (pre ++ s :: post) = pre.length + 1 := by
  induction pre with
  | nil =>
    cases hx : s.Err with
    | none => exact absurd hx hs
    | some e => simp [received, hx]
  | cons x rest ih =>
    have hx : x.Err = none := hpre x (List.mem_cons_self _ _)
    have hr := ih (fun y hy => hpre y (List.mem_cons_of_mem _ hy))
    have h : received (x :: (rest ++ s :: post)) = received (rest ++ s :: post) + 1 := by
      simp [received, hx, Nat.add_comm]
    rw [List.cons_append, h, hr, List.length_cons]

theorem first_error_split (σ : List api.DebuggerState) :
    (∀ x ∈ σ, x.Err = none) ∨
    ∃ pre s post e, σ = pre ++ s :: post ∧ (∀ x ∈ pre, x.Err = none) ∧ s.Err = some e := by
  induction σ with
  | nil => exact Or.inl (by simp)
  | cons x rest ih =>
    cases hx : x.Err with
    | some e => exact Or.inr ⟨[], x, rest, e, rfl, by simp, hx⟩
    | none =>
      rcases ih with h | ⟨pre, s, post, e, hσ, hpre, hs⟩
      · left
        intro y hy
        rcases List.mem_cons.1 hy with rfl | hy
        · exact hx
        · exact h y hy
      · right
        refine ⟨x :: pre, s, post, e, by simp [hσ], ?_, hs⟩
        intro y hy
        rcases List.mem_cons.1 hy with rfl | hy
        · exact hx
        · exact hpre y hy

/-! ## C15: how much of a stream is consumed -/

/-- C15, amended: `cont`, the continuation loop and `rewind` consume a stream up to and
including the first state that carries an error and return there. Let the stream be
`pre ++ s :: post`, where no state of `pre` carries an error (or makes `printcontext` panic)
and `s` carries the error `e`. The loop of `cont` and of the continuation loop displays the
states of `pre`, in order, makes the best-effort display and returns `e`; the loop of `rewind`
displays the states of `pre` and returns `e`; so do `cont`, `rewind` and a round of the
continuation loop on that stream. Nothing in these results depends on `post`: the states that
follow the error are not consumed, and the states received are those of `pre` and `s`,
`pre.length + 1` of them. A stream without errors (whose states can be displayed) is consumed
whole: each state is displayed and the last one is the state the loop ends with. Every stream
is of one of these two forms. -/
theorem stream_consumed_up_to_first_error (t : Term) (ctx : callContext) (args : String)
    (pre post : List api.DebuggerState) (s : api.DebuggerState) (e : Err)
    (hpre : ∀ x ∈ pre, x.Err = none) (hshown : ∀ x ∈ pre, printcontextPanics x = false)
    (hs : s.Err = some e) :
    (∀ t1 last, rangeStates (pre ++ s :: post) t1 last =
      (printfileNoState (t1.extend (pre.map .printcontext)), .error (.error e))) ∧
    (∀ t1 last, rewindStates (pre ++ s :: post) t1 last =
      (t1.extend (pre.map .printcontext), .error (.error e))) ∧
    (t.client.Continue t.view = pre ++ s :: post →
      cont t ctx args =
        (printfileNoState (t.extend (.call .Continue :: pre.map .printcontext)), .error e) ∧
      ∀ fuel op, continueLoop (fuel + 1) t op =
        some (printfileNoState (t.extend (.call .Continue :: pre.map .printcontext)),
          .error e)) ∧
    (t.client.Rewind t.view = pre ++ s :: post →
      rewind t ctx args = (t.extend (.call .Rewind :: pre.map .printcontext), .error e)) ∧
    received (pre ++ s :: post) = pre.length + 1 ∧
    (∀ (σ : List api.DebuggerState) t1 last, (∀ x ∈ σ, x.Err = none) →
      (∀ x ∈ σ, printcontextPanics x = false) →
      rangeStates σ t1 last =
        (t1.extend (σ.map .printcontext),
         .ok (match σ.getLast? with
              | some x => some x
              | none => last)) ∧
      rewindStates σ t1 last =
        (t1.extend (σ.map .printcontext),
         .ok (match σ.getLast? with
              | some x => some x
              | none => last)) ∧
      received σ = σ.length) ∧
    (∀ σ : List api.DebuggerState, (∀ x ∈ σ, x.Err = none) ∨
      ∃ pre1 s1 post1 e1, σ = pre1 ++ s1 :: post1 ∧ (∀ x ∈ pre1, x.Err = none) ∧
        s1.Err = some e1) := by
  refine ⟨fun t1 last => rangeStates_first_error pre post s e t1 last hpre hshown hs,
    fun t1 last => rewindStates_first_error pre post s e t1 last hpre hshown hs, ?_, ?_,
    received_first_error pre post s hpre (by rw [hs]; exact Option.some_ne_none e), ?_,
    first_error_split⟩
  · intro hstream
    refine ⟨?_, ?_⟩
    · simp only [cont, hstream, rangeStates_first_error pre post s e _ _ hpre hshown hs,
        Term.record_eq_extend, Term.extend_extend, List.singleton_append]
    · intro fuel op
      simp only [continueLoop, hstream, rangeStates_first_error pre post s e _ _ hpre hshown hs,
        Term.record_eq_extend, Term.extend_extend, List.singleton_append]
  · intro hstream
    simp only [rewind, hstream, rewindStates_first_error pre post s e _ _ hpre hshown hs,
      Term.record_eq_extend, Term.extend_extend, List.singleton_append]
  · intro σ t1 last hclean hdisp
    exact ⟨rangeStates_clean σ t1 last hclean hdisp, rewindStates_clean σ t1 last hclean hdisp,
      received_clean σ hclean⟩

/-- C15 amended, at a concrete input: of the three states of the failing stream, the first is
displayed, the second is the one whose error is returned, and the third is not consumed. -/
theorem stream_consumed_up_to_first_error_witness :
    ((∀ x ∈ [sampleState false 15], x.Err = none) ∧
      (∀ x ∈ [sampleState false 15], printcontextPanics x = false) ∧
      errorState.Err = some (.service "process exited") ∧
      failingTerm.client.Continue failingTerm.view =
        [sampleState false 15] ++ errorState :: [sampleState false 30] ∧
      failingTerm.client.Rewind failingTerm.view =
        [sampleState false 15] ++ errorState :: [sampleState false 30]) ∧
    (cont failingTerm plainContext "" =
        (printfileNoState (failingTerm.extend
          (.call .Continue :: [sampleState false 15].map .printcontext)),
         .error (.service "process exited")) ∧
      ∀ fuel op, continueLoop (fuel + 1) failingTerm op =
        some (printfileNoState (failingTerm.extend
          (.call .Continue :: [sampleState false 15].map .printcontext)),
          .error (.service "process exited"))) ∧
    rewind failingTerm plainContext "" =
      (failingTerm.extend (.call .Rewind :: [sampleState false 15].map .printcontext),
       .error (.service "process exited")) ∧
    received ([sampleState false 15] ++ errorState :: [sampleState false 30]) = 1 + 1 :=
  have h1 : ∀ x ∈ [sampleState false 15], x.Err = none := by decide
  have h2 : ∀ x ∈ [sampleState false 15], printcontextPanics x = false := by decide
  ⟨⟨h1, h2, rfl, rfl, rfl⟩,
    (stream_consumed_up_to_first_error failingTerm plainContext "" [sampleState false 15]
      [sampleState false 30] errorState (.service "process exited") h1 h2 rfl).2.2.1 rfl,
    (stream_consumed_up_to_first_error failingTerm plainContext "" [sampleState false 15]
      [sampleState false 30] errorState (.service "process exited") h1 h2 rfl).2.2.2.1 rfl,
    (stream_consumed_up_to_first_error failingTerm plainContext "" [sampleState false 15]
      [sampleState false 30] errorState (.service "process exited") h1 h2 rfl).2.2.2.2.1⟩

/-- C15 as stated fails: on the failing service the `Continue` stream has three states, the
second one with an error. `cont` receives two of them and returns the error; the state that
follows the error (line 30) is not consumed, and the record shows the display of the first
state, the best-effort display at line 10 and nothing about line 30. And on the bare failing
service, whose stream is a state whose display fails followed by a state with an error, `cont`
panics in the display of the first state: the state with the error is not consumed either. -/
theorem cont_leaves_states_after_error :
    received (failingClient.Continue []) = 2 ∧
    (failingClient.Continue []).length = 3 ∧
    cont failingTerm plainContext "" =
      (failingTerm.extend
        [.call .Continue, .printcontext (sampleState false 15), .call .GetState,
         .printfile "main.go" 10 true],
       .error (.service "process exited")) ∧
    (bareFailingClient.Continue [] = [bareState false, errorState] ∧
      printcontextPanics (bareState false) = true ∧
      cont bareFailingTerm plainContext "" =
        (bareFailingTerm.extend [.call .Continue, .printcontext (bareState false)],
         .panic)) := by
  refine ⟨by decide, by decide, rfl, rfl, rfl, rfl⟩

/-! ## C17: `rewind` and `cont` on an error state -/

/-- C17, evaluated on the code: on the failing service the streams of `Rewind` and of
`Continue` are the same and carry an error in their second state. Both handlers return that
error, but `cont` first makes the best-effort display (a `GetState` request and the source
line), while `rewind` returns at once: it sends no `GetState` and displays no source line. -/
theorem rewind_skips_best_effort_display :
    failingClient.Rewind [] = failingClient.Continue [] ∧
    cont failingTerm plainContext "" =
      (failingTerm.extend
        [.call .Continue, .printcontext (sampleState false 15), .call .GetState,
         .printfile "main.go" 10 true],
       .error (.service "process exited")) ∧
    rewind failingTerm plainContext "" =
      (failingTerm.extend [.call .Rewind, .printcontext (sampleState false 15)],
       .error (.service "process exited")) := by
  refine ⟨rfl, rfl, rfl⟩

/-! ## Lemmas on the reports of the continuation loop -/

theorem call_ne_continuingReport (op : String) (q : Request) :
    (Event.call q = continuingReport op) = False := by simp [continuingReport]

theorem printcontext_ne_continuingReport (op : String) (x : api.DebuggerState) :
    (Event.printcontext x = continuingReport op) = False := by simp [continuingReport]

theorem printfile_ne_continuingReport (op : String) (f : String) (l : Int) (b : Bool) :
    (Event.printfile f l b = continuingReport op) = False := by simp [continuingReport]

theorem continuingReport_ne_call (op : String) (q : Request) :
    (continuingReport op = Event.call q) = False := by simp [continuingReport]

theorem printfileNoState_quiet (op : String) (t : Term) :
    ∃ d, printfileNoState t = t.extend d ∧
      d.count (continuingReport op) = 0 ∧ d.count (.call .Continue) = 0 := by
  unfold printfileNoState
  cases t.client.GetState t.view with
  | error e =>
    exact ⟨[.call .GetState], by simp [Term.record_eq_extend],
      by simp [List.count_cons, call_ne_continuingReport], by simp [List.count_cons]⟩
  | ok state =>
    cases hct : state.CurrentThread with
    | none =>
      exact ⟨[.call .GetState], by simp [hct, Term.record_eq_extend],
        by simp [List.count_cons, call_ne_continuingReport], by simp [List.count_cons]⟩
    | some th =>
      exact ⟨[.call .GetState, .printfile th.File th.Line true],
        by simp [hct, printfile, Term.record_eq_extend, Term.extend_extend],
        by simp [List.count_cons, call_ne_continuingReport, printfile_ne_continuingReport],
        by simp [List.count_cons]⟩

theorem rangeStates_quiet (op : String) (σ : List api.DebuggerState) :
    ∀ (t : Term) (last : Option api.DebuggerState),
      ∃ d, (rangeStates σ t last).1 = t.extend d ∧
        d.count (continuingReport op) = 0 ∧ d.count (.call .Continue) = 0 := by
  induction σ with
  | nil =>
    intro t last
    exact ⟨[], by simp [rangeStates, Term.extend_nil], rfl, rfl⟩
  | cons x rest ih =>
    intro t last
    cases hx : x.Err with
    | some e =>
      obtain ⟨d, hd, h1, h2⟩ := printfileNoState_quiet op t
      exact ⟨d, by simp [rangeStates, hx, hd], h1, h2⟩
    | none =>
      cases hp : printcontextPanics x with
      | true =>
        refine ⟨[.printcontext x], ?_, ?_, ?_⟩
        · simp [rangeStates, hx, printcontext, hp, Term.record_eq_extend]
        · simp [List.count_cons, printcontext_ne_continuingReport]
        · simp [List.count_cons]
      | false =>
        obtain ⟨d, hd, h1, h2⟩ := ih (t.extend [.printcontext x]) (some x)
        refine ⟨.printcontext x :: d, ?_, ?_, ?_⟩
        · simp only [rangeStates, hx, printcontext, hp, Term.record_eq_extend]
          rw [hd]
          simp [Term.extend_extend]
        · simp [List.count_cons, h1, printcontext_ne_continuingReport]
        · simp [List.count_cons, h2]

theorem showCurrentLine_quiet (op : String) (t : Term) (state : api.DebuggerState) :
    ∃ d, (showCurrentLine t (some state)).1 = t.extend d ∧
      d.count (continuingReport op) = 0 ∧ d.count (.call .Continue) = 0 := by
  rw [showCurrentLine_some]
  cases state.CurrentThread with
  | none => exact ⟨[], by simp [Term.extend_nil], rfl, rfl⟩
  | some th =>
    exact ⟨[.printfile th.File th.Line true], rfl,
      by simp [List.count_cons, printfile_ne_continuingReport], by simp [List.count_cons]⟩

theorem continueLoop_counts (op : String) :
    ∀ (fuel : Nat) (t : Term) (r : Term × Ret), continueLoop fuel t op = some r →
      ∃ d, r.1 = t.extend d ∧
        d.count (continuingReport op) + 1 = d.count (.call .Continue) := by
  intro fuel
  induction fuel with
  | zero =>
    intro t r h
    simp [continueLoop] at h
  | succ f ih =>
    intro t r h
    obtain ⟨d1, hd1, h1, h2⟩ :=
      rangeStates_quiet op (t.client.Continue t.view) (t.record (.call .Continue)) none
    simp only [continueLoop] at h
    rcases hrs : rangeStates (t.client.Continue t.view) (t.record (.call .Continue)) none with
      ⟨t1, res⟩
    rw [hrs] at h hd1
    simp only [Term.record_eq_extend, Term.extend_extend] at hd1
    subst hd1
    have hbase : ([Event.call .Continue] ++ d1).count (continuingReport op) + 1 =
        ([Event.call .Continue] ++ d1).count (.call .Continue) := by
      simp [List.count_cons, h1, h2, call_ne_continuingReport]
    cases res with
    | error e =>
      simp only [Option.some.injEq] at h
      subst h
      exact ⟨_, rfl, hbase⟩
    | ok st =>
      cases st with
      | none =>
        simp only [Option.some.injEq] at h
        subst h
        exact ⟨_, rfl, hbase⟩
      | some state =>
        cases hflag : state.NextInProgress with
        | false =>
          simp only [hflag, Bool.not_false, if_true, Option.some.injEq] at h
          subst h
          obtain ⟨d2, hd2, h3, h4⟩ :=
            showCurrentLine_quiet op (t.extend ([.call .Continue] ++ d1)) state
          refine ⟨([.call .Continue] ++ d1) ++ d2, by rw [hd2, Term.extend_extend], ?_⟩
          simp only [List.count_append, h3, h4] at hbase ⊢
          omega
        | true =>
          simp only [hflag, Bool.not_true, Bool.false_eq_true, if_false] at h
          obtain ⟨d2, hd2, h3⟩ := ih _ r h
          refine ⟨([.call .Continue] ++ d1) ++ ([continuingReport op] ++ d2), ?_, ?_⟩
          · rw [hd2]
            simp [Term.record_eq_extend, Term.extend_extend, continuingReport]
          · have h5 : [continuingReport op].count (Event.call .Continue) = 0 := by
              simp [List.count_cons, continuingReport_ne_call]
            simp only [List.count_append, List.count_singleton_self, h5] at hbase ⊢
            omega

theorem roundsLog_succ_succ (cl : Client) (op : String) (k : Nat) (v : List Request) :
    roundsLog cl op (k + 2) v =
      [.call .Continue] ++ (cl.Continue v).map .printcontext ++ [continuingReport op] ++
        roundsLog cl op (k + 1) (v ++ [.Continue]) := by
  simp [roundsLog]

theorem printcontext_count_report (op : String) (σ : List api.DebuggerState) :
    (σ.map Event.printcontext).count (continuingReport op) = 0 := by
  induction σ with
  | nil => rfl
  | cons x rest ih => simp [List.count_cons, printcontext_ne_continuingReport, ih]

theorem printcontext_count_continue (σ : List api.DebuggerState) :
    (σ.map Event.printcontext).count (Event.call .Continue) = 0 := by
  induction σ with
  | nil => rfl
  | cons x rest ih => simp [List.count_cons, ih]

theorem roundsLog_counts (cl : Client) (op : String) (k : Nat) :
    ∀ v : List Request,
      (roundsLog cl op (k + 1) v).count (continuingReport op) = k ∧
      (roundsLog cl op (k + 1) v).count (.call .Continue) = k + 1 := by
  induction k with
  | zero =>
    intro v
    simp [roundsLog, List.count_cons, call_ne_continuingReport, printcontext_count_report,
      printcontext_count_continue]
  | succ m ih =>
    intro v
    have h := ih (v ++ [.Continue])
    have h5 : [continuingReport op].count (Event.call .Continue) = 0 := by
      simp [List.count_cons, continuingReport_ne_call]
    have h6 : [Event.call .Continue].count (continuingReport op) = 0 := by
      simp [List.count_cons, call_ne_continuingReport]
    rw [roundsLog_succ_succ]
    simp only [List.count_append, List.count_singleton_self, h5, h6, h.1, h.2,
      printcontext_count_report, printcontext_count_continue]
    omega

theorem continueLoop_rounds (op : String) (final : api.DebuggerState) (n : Nat) :
    ∀ (fuel : Nat) (t : Term),
      n < fuel →
      (∀ i, i ≤ n → nthStream t.client t.view i ≠ [] ∧
        (∀ x ∈ nthStream t.client t.view i, x.Err = none) ∧
        ∀ x ∈ nthStream t.client t.view i, printcontextPanics x = false) →
      (∀ i, i < n → ∀ s, (nthStream t.client t.view i).getLast? = some s →
        s.NextInProgress = true) →
      (nthStream t.client t.view n).getLast? = some final →
      final.NextInProgress = false →
      continueLoop fuel t op =
        some (showCurrentLine (t.extend (roundsLog t.client op (n + 1) t.view)) (some final)) := by
  induction n with
  | zero =>
    intro fuel t hf hgood _ hlast hflag
    cases fuel with
    | zero => omega
    | succ f =>
      have hσ : nthStream t.client t.view 0 = t.client.Continue t.view := by simp [nthStream]
      have hg := hgood 0 (le_refl _)
      rw [hσ] at hg hlast
      simp only [continueLoop, rangeStates_clean _ _ _ hg.2.1 hg.2.2, hlast, hflag,
        Term.record_eq_extend, Term.extend_extend]
      simp [roundsLog]
  | succ m ih =>
    intro fuel t hf hgood htrue hlast hflag
    cases fuel with
    | zero => omega
    | succ f =>
      have hσ : nthStream t.client t.view 0 = t.client.Continue t.view := by simp [nthStream]
      have hg := hgood 0 (Nat.zero_le _)
      rw [hσ] at hg
      obtain ⟨s, hs⟩ := getLast_some_of_ne_nil _ hg.1
      have hl := htrue 0 (Nat.succ_pos _) s (by rw [hσ]; exact hs)
      have hv : (t.extend ([.call .Continue] ++
          (t.client.Continue t.view).map .printcontext ++
          [.print ("\tbreakpoint hit during " ++ op ++ ", continuing...\n")])).view
          = t.view ++ [.Continue] := by
        simp [Term.extend_view, List.filterMap_append, printcontext_requests, Event.toRequest]
      have hd := ih f (t.extend ([.call .Continue] ++
          (t.client.Continue t.view).map .printcontext ++
          [.print ("\tbreakpoint hit during " ++ op ++ ", continuing...\n")])) (by omega)
        (by
          intro i hi
          rw [hv, Term.extend_client, nthStream_succ]
          exact hgood (i + 1) (by omega))
        (by
          intro i hi s1 h1
          rw [hv, Term.extend_client, nthStream_succ] at h1
          exact htrue (i + 1) (by omega) s1 h1)
        (by
          rw [hv, Term.extend_client, nthStream_succ]
          exact hlast)
        hflag
      rw [hv, Term.extend_client, Term.extend_extend] at hd
      simp only [continueLoop, rangeStates_clean _ _ _ hg.2.1 hg.2.2, hs, hl,
        Term.record_eq_extend, Term.extend_extend]
      simp only [Bool.not_true, Bool.false_eq_true, if_false]
      rw [hd, roundsLog_succ_succ]
      rfl

theorem continueUntilCompleteNext_rounds (op : String) (t : Term)
    (s0 final : api.DebuggerState) (k fuel : Nat)
    (hgood : ∀ i, i < k → nthStream t.client t.view i ≠ [] ∧
      (∀ x ∈ nthStream t.client t.view i, x.Err = none) ∧
      ∀ x ∈ nthStream t.client t.view i, printcontextPanics x = false)
    (htrue : ∀ j, j < k →
      (finalStateAt t.client t.view s0 j).map (fun s => s.NextInProgress) = some true)
    (hfinal : finalStateAt t.client t.view s0 k = some final)
    (hfalse : final.NextInProgress = false)
    (hfuel : k ≤ fuel) :
    continueUntilCompleteNext fuel t s0 op
      = some (showCurrentLine (t.extend (roundsLog t.client op k t.view)) (some final)) := by
  cases k with
  | zero =>
    simp only [finalStateAt, Option.some.injEq] at hfinal
    subst hfinal
    simp [continueUntilCompleteNext, hfalse, roundsLog, Term.extend_nil]
  | succ n =>
    have h0 := htrue 0 (Nat.succ_pos _)
    simp only [finalStateAt, Option.map_some', Option.some.injEq] at h0
    have hd := continueLoop_rounds op final n fuel t (by omega)
      (fun i hi => hgood i (by omega))
      (by
        intro i hi s hs
        have h := htrue (i + 1) (by omega)
        simp only [finalStateAt, hs, Option.map_some', Option.some.injEq] at h
        exact h)
      hfinal hfalse
    simp [continueUntilCompleteNext, h0, hd]

theorem continueUntilCompleteNext_counts (op : String) (fuel : Nat) (t : Term)
    (s0 : api.DebuggerState) (r : Term × Ret)
    (h : continueUntilCompleteNext fuel t s0 op = some r) :
    ∃ d, r.1 = t.extend d ∧
      (if s0.NextInProgress then
        d.count (continuingReport op) + 1 = d.count (.call .Continue)
       else d.count (continuingReport op) = 0 ∧ d.count (.call .Continue) = 0) := by
  cases hflag : s0.NextInProgress with
  | false =>
    simp only [continueUntilCompleteNext, hflag, Bool.not_false, if_true,
      Option.some.injEq] at h
    subst h
    obtain ⟨d, hd, h1, h2⟩ := showCurrentLine_quiet op t s0
    exact ⟨d, hd, by simp [h1, h2]⟩
  | true =>
    simp only [continueUntilCompleteNext, hflag, Bool.not_true, Bool.false_eq_true,
      if_false] at h
    obtain ⟨d, hd, h1⟩ := continueLoop_counts op fuel t r h
    exact ⟨d, hd, by simp [h1]⟩

theorem stepping_run_eq (ext : Extern) (fn : cmdfunc) (q : Request) (op : String)
    (hk : (fn, q, op) ∈ stepOps) (fuel : Nat) (c : Commands) (t t1 : Term) (ctx : callContext)
    (args : String) (s0 : api.DebuggerState)
    (hsw : scopePrefixSwitch t ctx = (t1, none))
    (h0 : initialAnswer t1.client q t1.view = .ok s0) (hshown : printcontextPanics s0 = false) :
    run ext fuel fn c t ctx args =
      (continueUntilCompleteNext fuel (t1.extend [.call q, .printcontext s0]) s0 op).bind
        (fun r => some ⟨c, r.1, ctx.Breakpoint, r.2⟩) := by
  simp only [stepOps, List.mem_cons, Prod.mk.injEq, List.mem_singleton, List.not_mem_nil,
    or_false] at hk
  rcases hk with ⟨rfl, rfl, rfl⟩ | ⟨rfl, rfl, rfl⟩ | ⟨rfl, rfl, rfl⟩
  · simp only [initialAnswer] at h0
    simp only [run_step_eq, step, hsw, h0, printcontext, hshown, Term.record_eq_extend,
      Term.extend_extend, List.singleton_append]
  · simp only [initialAnswer] at h0
    simp only [run_next_eq, next, hsw, h0, printcontext, hshown, Term.record_eq_extend,
      Term.extend_extend, List.singleton_append]
  · simp only [initialAnswer] at h0
    simp only [run_stepout_eq, stepout, hsw, h0, printcontext, hshown, Term.record_eq_extend,
      Term.extend_extend, List.singleton_append]

/-! ## C14: the reports of the continuation loop -/

/-- C14, amended: let `fn` be `step`, `next` or `stepout` with its name `op`, issued after its
scope switch left the terminal `t1`, and let the initial operation return the state `s0`,
whose display does not fail (`printcontext` does not panic on it). The
report "breakpoint hit during op, continuing..." is made when the flag is found true on the
final state of the stream of a `Continue`, and a `Continue` follows it; no report is made for
the state returned by the initial operation, after which the first `Continue` is issued
directly. So in every run that returns, `d` being what is recorded after the display of `s0`:
when the flag of `s0` is false there is no report and no `Continue`, and when it is true the
number of `Continue` is the number of reports plus one. Moreover, when the streams of the first
`k` `Continue` are non-empty and free of errors, their states can be displayed, and the first
false flag is that of the final state of round `k`, then with fuel `k` the run ends, and its
record is the initial request, the display of `s0`, the `k` rounds with a report between two
of them (`k - 1` reports, `k` `Continue`) and the final display (the final state being
dereferenced as in `continueUntilCompleteNext`). -/
theorem continuing_report_follows_continue_stream (ext : Extern) (fn : cmdfunc) (q : Request)
    (op : String) (hk : (fn, q, op) ∈ stepOps) (c : Commands) (t t1 : Term) (ctx : callContext)
    (args : String) (s0 : api.DebuggerState)
    (hsw : scopePrefixSwitch t ctx = (t1, none))
    (h0 : initialAnswer t1.client q t1.view = .ok s0) (hshown : printcontextPanics s0 = false) :
    (∀ fuel r, run ext fuel fn c t ctx args = some r →
      ∃ d, r.t = t1.extend ([.call q, .printcontext s0] ++ d) ∧
        (if s0.NextInProgress then
          d.count (continuingReport op) + 1 = d.count (.call .Continue)
         else d.count (continuingReport op) = 0 ∧ d.count (.call .Continue) = 0)) ∧
    (∀ (k fuel : Nat) (final : api.DebuggerState),
      (∀ i, i < k → nthStream t1.client (t1.view ++ [q]) i ≠ [] ∧
        (∀ x ∈ nthStream t1.client (t1.view ++ [q]) i, x.Err = none) ∧
        ∀ x ∈ nthStream t1.client (t1.view ++ [q]) i, printcontextPanics x = false) →
      (∀ j, j < k →
        (finalStateAt t1.client (t1.view ++ [q]) s0 j).map (fun s => s.NextInProgress)
          = some true) →
      finalStateAt t1.client (t1.view ++ [q]) s0 k = some final →
      final.NextInProgress = false →
      k ≤ fuel →
      run ext fuel fn c t ctx args =
        some ⟨c,
          (showCurrentLine (t1.extend ([.call q, .printcontext s0] ++
            roundsLog t1.client op k (t1.view ++ [q]))) (some final)).1,
          ctx.Breakpoint,
          (showCurrentLine (t1.extend ([.call q, .printcontext s0] ++
            roundsLog t1.client op k (t1.view ++ [q]))) (some final)).2⟩ ∧
      (roundsLog t1.client op k (t1.view ++ [q])).count (continuingReport op) = k - 1 ∧
      (roundsLog t1.client op k (t1.view ++ [q])).count (.call .Continue) = k) := by
  have hv : ((t1.extend [.call q, .printcontext s0]).view) = t1.view ++ [q] := by
    simp [Term.extend_view, Event.toRequest]
  constructor
  · intro fuel r hr
    rw [stepping_run_eq ext fn q op hk fuel c t t1 ctx args s0 hsw h0 hshown] at hr
    cases hc : continueUntilCompleteNext fuel (t1.extend [.call q, .printcontext s0]) s0 op with
    | none => simp [hc] at hr
    | some r1 =>
      simp only [hc, Option.some_bind, Option.some.injEq] at hr
      subst hr
      obtain ⟨d, hd, hcount⟩ := continueUntilCompleteNext_counts op fuel _ s0 r1 hc
      exact ⟨d, by simp only [hd, Term.extend_extend], hcount⟩
  · intro k fuel final hgood htrue hfinal hfalse hfuel
    have hcore := continueUntilCompleteNext_rounds op (t1.extend [.call q, .printcontext s0])
      s0 final k fuel (by rw [hv]; exact hgood) (by rw [hv]; exact htrue)
      (by rw [hv]; exact hfinal) hfalse hfuel
    rw [hv, Term.extend_client, Term.extend_extend] at hcore
    refine ⟨?_, ?_, ?_⟩
    · rw [stepping_run_eq ext fn q op hk fuel c t t1 ctx args s0 hsw h0 hshown, hcore]
      rfl
    · cases k with
      | zero => rfl
      | succ n => exact (roundsLog_counts t1.client op n _).1
    · cases k with
      | zero => rfl
      | succ n => exact (roundsLog_counts t1.client op n _).2

/-- C14 amended, at a concrete input: on the busy service `next` stops with the step in
progress, the first `Continue` ends at line 20 with the step still in progress, the second
one completes it at line 30. Two `Continue` are issued and one report is made. -/
theorem continuing_report_follows_continue_stream_witness :
    ((cmdfunc.next, Request.Next, "next") ∈ stepOps ∧
      scopePrefixSwitch busyTerm plainContext = (busyTerm, none) ∧
      initialAnswer busyClient .Next [] = .ok (sampleState true 10) ∧
      printcontextPanics (sampleState true 10) = false ∧
      nthStream busyClient [.Next] 0 = [sampleState true 20] ∧
      nthStream busyClient [.Next] 1 = [sampleState false 30] ∧
      finalStateAt busyClient [.Next] (sampleState true 10) 2 = some (sampleState false 30)) ∧
    run sampleExtern 2 .next (DebugCommands none) busyTerm plainContext "" =
      some ⟨DebugCommands none,
        busyTerm.extend
          [.call .Next, .printcontext (sampleState true 10),
           .call .Continue, .printcontext (sampleState true 20),
           continuingReport "next",
           .call .Continue, .printcontext (sampleState false 30),
           .printfile "main.go" 30 true],
        none, .ok⟩ ∧
    (roundsLog busyClient "next" 2 [.Next]).count (continuingReport "next") = 1 ∧
    (roundsLog busyClient "next" 2 [.Next]).count (.call .Continue) = 2 :=
  ⟨⟨by decide, rfl, rfl, rfl, rfl, rfl, rfl⟩,
   (continuing_report_follows_continue_stream sampleExtern .next .Next "next" (by decide)
     (DebugCommands none) busyTerm busyTerm plainContext "" (sampleState true 10) rfl rfl
     rfl).2
     2 2 (sampleState false 30)
     (by
       intro i hi
       have hi0 : i = 0 ∨ i = 1 := by omega
       rcases hi0 with rfl | rfl <;> decide)
     (by
       intro j hj
       have hj0 : j = 0 ∨ j = 1 := by omega
       rcases hj0 with rfl | rfl <;> rfl)
     rfl rfl (le_refl _)⟩

/-- C14 as stated fails: on the sample service `step` returns a state with the step still in
progress, so the flag is found true on the state of the initial operation. The run issues one
`Continue` and makes no report: the record holds the request `Step`, the display of its
state, the `Continue` with the display of its state, and the final location. And on the bare
service, where `step` returns a state with the step still in progress whose display fails
(its current thread has a file and no function), the run panics in that display: the flag is
true on the state of the initial operation, and there is neither a report nor a `Continue`. -/
theorem initial_state_in_progress_is_not_reported :
    sampleClient.Step [] = .ok (sampleState true 10) ∧
    (sampleState true 10).NextInProgress = true ∧
    (run sampleExtern 1 .step (DebugCommands none) sampleTerm plainContext "").map
        (fun r => (r.t.log, r.ret)) =
      some ([.call .Step, .printcontext (sampleState true 10),
             .call .Continue, .printcontext (sampleState false 20),
             .printfile "main.go" 20 true], .ok) ∧
    ([Event.call .Step, .printcontext (sampleState true 10),
      .call .Continue, .printcontext (sampleState false 20),
      .printfile "main.go" 20 true].count (continuingReport "step") = 0) ∧
    ([Event.call .Step, .printcontext (sampleState true 10),
      .call .Continue, .printcontext (sampleState false 20),
      .printfile "main.go" 20 true].count (.call .Continue) = 1) ∧
    (bareClient.Step [] = .ok (bareState true) ∧
      (bareState true).NextInProgress = true ∧
      printcontextPanics (bareState true) = true ∧
      (run sampleExtern 1 .step (DebugCommands none) bareTerm plainContext "").map
          (fun r => (r.t.log, r.ret)) =
        some ([.call .Step, .printcontext (bareState true)], .panic)) := by
  refine ⟨rfl, rfl, rfl, by decide, by decide, rfl, rfl, rfl, rfl⟩

/-! ## Lemmas on the creation of breakpoints -/

theorem createLoop_all_ok (locs : List api.Location) :
    ∀ (rb : api.Breakpoint) (t : Term),
      (∀ pre loc post, locs = pre ++ loc :: post →
        ∃ bp, t.client.CreateBreakpoint
          (t.view ++ pre.map (fun l => Request.CreateBreakpoint { rb with Addr := l.PC }))
          { rb with Addr := loc.PC } = .ok bp) →
      (createLoop locs rb t).2 = .ok ∧
      (createLoop locs rb t).1.view =
        t.view ++ locs.map (fun l => Request.CreateBreakpoint { rb with Addr := l.PC }) ∧
      (createLoop locs rb t).1.client = t.client := by
  induction locs with
  | nil =>
    intro rb t _
    simp [createLoop]
  | cons loc rest ih =>
    intro rb t h
    obtain ⟨bp, hbp⟩ := h [] loc rest rfl
    simp only [List.map_nil, List.append_nil] at hbp
    have hrec := ih { rb with Addr := loc.PC }
      (t.extend [.call (.CreateBreakpoint { rb with Addr := loc.PC }), .bpMessage "set" bp none])
      (by
        intro pre l post hl
        obtain ⟨bp2, h2⟩ := h (loc :: pre) l post (by simp [hl])
        refine ⟨bp2, ?_⟩
        simpa [Term.extend_view, Term.extend_client, Event.toRequest] using h2)
    simp only [createLoop, hbp, Term.record_eq_extend, Term.extend_extend,
      List.singleton_append]
    refine ⟨hrec.1, ?_, ?_⟩
    · rw [hrec.2.1]
      simp [Term.extend_view, Event.toRequest]
    · rw [hrec.2.2, Term.extend_client]

theorem setBreakpoint_eq (t : Term) (tp : Bool) (argstr : String) :
    setBreakpoint t tp argstr =
      (match t.client.FindLocation t.view ⟨-1, 0⟩ (nameAndLocspec t argstr).2 with
       | .ok locs =>
         createLoop locs
           { emptyBreakpoint with Name := (nameAndLocspec t argstr).1, Tracepoint := tp }
           (t.extend [.call (.FindLocation ⟨-1, 0⟩ (nameAndLocspec t argstr).2)])
       | .error err =>
         if (nameAndLocspec t argstr).1 = "" then
           (t.extend [.call (.FindLocation ⟨-1, 0⟩ (nameAndLocspec t argstr).2)], .error err)
         else
           match t.client.FindLocation
               (t.view ++ [.FindLocation ⟨-1, 0⟩ (nameAndLocspec t argstr).2]) ⟨-1, 0⟩ argstr with
           | .error _ =>
             (t.extend [.call (.FindLocation ⟨-1, 0⟩ (nameAndLocspec t argstr).2),
                        .call (.FindLocation ⟨-1, 0⟩ argstr)], .error err)
           | .ok locs =>
             createLoop locs { emptyBreakpoint with Name := "", Tracepoint := tp }
               (t.extend [.call (.FindLocation ⟨-1, 0⟩ (nameAndLocspec t argstr).2),
                          .call (.FindLocation ⟨-1, 0⟩ argstr)])) := by
  unfold setBreakpoint nameAndLocspec SplitN2
  rcases cutAtBlank argstr.data with ⟨a, _ | b⟩
  · cases h1 : t.client.FindLocation t.view ⟨-1, 0⟩ argstr <;>
      simp [h1, Term.record_eq_extend, Term.extend_extend, Term.extend_view,
        Term.extend_client, Event.toRequest]
  · cases hv : t.validBreakpointName ⟨a⟩
    · cases h1 : t.client.FindLocation t.view ⟨-1, 0⟩ argstr <;>
        simp [hv, h1, Term.record_eq_extend, Term.extend_extend, Term.extend_view,
          Term.extend_client, Event.toRequest]
    · cases h1 : t.client.FindLocation t.view ⟨-1, 0⟩ ⟨b⟩ with
      | ok locs =>
        simp [hv, h1, Term.record_eq_extend, Term.extend_extend, Term.extend_view,
          Term.extend_client, Event.toRequest]
      | error err =>
        by_cases hname : (⟨a⟩ : String) = ""
        · have hv2 := hv
          rw [hname] at hv2
          simp [hv2, h1, hname, Term.record_eq_extend, Term.extend_extend, Term.extend_view,
            Term.extend_client, Event.toRequest]
        · cases hsecond : t.client.FindLocation
            (t.view ++ [Request.FindLocation ⟨-1, 0⟩ ⟨b⟩]) ⟨-1, 0⟩ argstr <;>
            simp [hv, h1, hname, hsecond, Term.record_eq_extend, Term.extend_extend,
              Term.extend_view, Term.extend_client, Event.toRequest]

theorem nameAndLocspec_valid (t : Term) (tok rest : String) (h : ∀ ch ∈ tok.data, ch ≠ ' ')
    (hv : t.validBreakpointName tok = true) :
    nameAndLocspec t (tok ++ " " ++ rest) = (tok, rest) := by
  simp [nameAndLocspec, SplitN2_token tok rest h, hv]

theorem nameAndLocspec_invalid (t : Term) (tok rest : String)
    (h : ∀ ch ∈ tok.data, ch ≠ ' ') (hv : t.validBreakpointName tok = false) :
    nameAndLocspec t (tok ++ " " ++ rest) = ("", tok ++ " " ++ rest) := by
  simp [nameAndLocspec, SplitN2_token tok rest h, hv]

theorem nameAndLocspec_single (t : Term) (argstr : String)
    (h : ∀ ch ∈ argstr.data, ch ≠ ' ') :
    nameAndLocspec t argstr = ("", argstr) := by
  simp [nameAndLocspec, SplitN2_no_blank argstr h]

theorem run_breakpoint_eq (ext : Extern) (fuel : Nat) (c : Commands) (t : Term)
    (ctx : callContext) (args : String) :
    run ext fuel .breakpoint c t ctx args =
      some ⟨c, (setBreakpoint t false args).1, ctx.Breakpoint, (setBreakpoint t false args).2⟩ := by
  cases fuel <;> rfl

theorem run_tracepoint_eq (ext : Extern) (fuel : Nat) (c : Commands) (t : Term)
    (ctx : callContext) (args : String) :
    run ext fuel .tracepoint c t ctx args =
      some ⟨c, (setBreakpoint t true args).1, ctx.Breakpoint, (setBreakpoint t true args).2⟩ := by
  cases fuel <;> rfl

theorem run_creator_eq (ext : Extern) (fn : cmdfunc) (tp : Bool) (hk : (fn, tp) ∈ creators)
    (fuel : Nat) (c : Commands) (t : Term) (ctx : callContext) (args : String) :
    run ext fuel fn c t ctx args =
      some ⟨c, (setBreakpoint t tp args).1, ctx.Breakpoint, (setBreakpoint t tp args).2⟩ := by
  simp only [creators, List.mem_cons, Prod.mk.injEq, List.mem_singleton, List.not_mem_nil,
    or_false] at hk
  rcases hk with ⟨rfl, rfl⟩ | ⟨rfl, rfl⟩
  · exact run_breakpoint_eq ext fuel c t ctx args
  · exact run_tracepoint_eq ext fuel c t ctx args

/-! ## C18: one breakpoint per resolved location -/

/-- C18: let `fn` be `break` (tracepoint flag false) or `trace` (flag true), applied to
`argstr`, from which `setBreakpoint` reads the name `name` and the location specifier
`locspec`. When the specifier resolves to the locations `locs` and each creation succeeds, the
command returns nil and the requests it sends are the resolution followed by exactly one
`CreateBreakpoint` per location, in order, the i-th with the address of the i-th location and
all with the name `name` and the tracepoint flag; so `locs.length` breakpoints are requested.
The same holds, with no name, when the first resolution fails and the whole input resolves to
`locs`. -/
theorem one_breakpoint_per_location (ext : Extern) (fn : cmdfunc) (tp : Bool)
    (hk : (fn, tp) ∈ creators) (fuel : Nat) (c : Commands) (t : Term) (ctx : callContext)
    (argstr name locspec : String) (locs : List api.Location)
    (hread : nameAndLocspec t argstr = (name, locspec)) :
    (t.client.FindLocation t.view ⟨-1, 0⟩ locspec = .ok locs →
      (∀ pre loc post, locs = pre ++ loc :: post →
        ∃ bp, t.client.CreateBreakpoint
          (t.view ++ .FindLocation ⟨-1, 0⟩ locspec ::
            pre.map (fun l => .CreateBreakpoint (requestedAt name tp l)))
          (requestedAt name tp loc) = .ok bp) →
      ∃ t1, run ext fuel fn c t ctx argstr = some ⟨c, t1, ctx.Breakpoint, .ok⟩ ∧
        t1.view = t.view ++ .FindLocation ⟨-1, 0⟩ locspec ::
          locs.map (fun l => .CreateBreakpoint (requestedAt name tp l)) ∧
        (t1.view.drop (t.view.length + 1)).length = locs.length) ∧
    (∀ err, t.client.FindLocation t.view ⟨-1, 0⟩ locspec = .error err → name ≠ "" →
      t.client.FindLocation (t.view ++ [.FindLocation ⟨-1, 0⟩ locspec]) ⟨-1, 0⟩ argstr
        = .ok locs →
      (∀ pre loc post, locs = pre ++ loc :: post →
        ∃ bp, t.client.CreateBreakpoint
          (t.view ++ .FindLocation ⟨-1, 0⟩ locspec :: .FindLocation ⟨-1, 0⟩ argstr ::
            pre.map (fun l => .CreateBreakpoint (requestedAt "" tp l)))
          (requestedAt "" tp loc) = .ok bp) →
      ∃ t1, run ext fuel fn c t ctx argstr = some ⟨c, t1, ctx.Breakpoint, .ok⟩ ∧
        t1.view = t.view ++ .FindLocation ⟨-1, 0⟩ locspec :: .FindLocation ⟨-1, 0⟩ argstr ::
          locs.map (fun l => .CreateBreakpoint (requestedAt "" tp l)) ∧
        (t1.view.drop (t.view.length + 2)).length = locs.length) := by
  have hn : (nameAndLocspec t argstr).1 = name := by rw [hread]
  have hl : (nameAndLocspec t argstr).2 = locspec := by rw [hread]
  constructor
  · intro hres hcreate
    have hloop := createLoop_all_ok locs
      { emptyBreakpoint with Name := name, Tracepoint := tp }
      (t.extend [.call (.FindLocation ⟨-1, 0⟩ locspec)])
      (by
        intro pre loc post hlocs
        obtain ⟨bp, hbp⟩ := hcreate pre loc post hlocs
        refine ⟨bp, ?_⟩
        simpa [Term.extend_view, Term.extend_client, Event.toRequest, requestedAt] using hbp)
    have hset : setBreakpoint t tp argstr =
        createLoop locs { emptyBreakpoint with Name := name, Tracepoint := tp }
          (t.extend [.call (.FindLocation ⟨-1, 0⟩ locspec)]) := by
      rw [setBreakpoint_eq, hn, hl, hres]
    refine ⟨(setBreakpoint t tp argstr).1, ?_, ?_, ?_⟩
    · rw [run_creator_eq ext fn tp hk, hset, hloop.1]
    · rw [hset, hloop.2.1]
      simp [Term.extend_view, Event.toRequest, requestedAt]
    · rw [hset, hloop.2.1]
      simp [Term.extend_view, Event.toRequest]
  · intro err herr hname hres hcreate
    have hloop := createLoop_all_ok locs
      { emptyBreakpoint with Name := "", Tracepoint := tp }
      (t.extend [.call (.FindLocation ⟨-1, 0⟩ locspec), .call (.FindLocation ⟨-1, 0⟩ argstr)])
      (by
        intro pre loc post hlocs
        obtain ⟨bp, hbp⟩ := hcreate pre loc post hlocs
        refine ⟨bp, ?_⟩
        simpa [Term.extend_view, Term.extend_client, Event.toRequest, requestedAt] using hbp)
    have hset : setBreakpoint t tp argstr =
        createLoop locs { emptyBreakpoint with Name := "", Tracepoint := tp }
          (t.extend [.call (.FindLocation ⟨-1, 0⟩ locspec),
                     .call (.FindLocation ⟨-1, 0⟩ argstr)]) := by
      rw [setBreakpoint_eq, hn, hl, herr]
      simp only [hname, if_false, hres]
    refine ⟨(setBreakpoint t tp argstr).1, ?_, ?_, ?_⟩
    · rw [run_creator_eq ext fn tp hk, hset, hloop.1]
    · rw [hset, hloop.2.1]
      simp [Term.extend_view, Event.toRequest, requestedAt]
    · rw [hset, hloop.2.1]
      simp [Term.extend_view, Event.toRequest]

/-- C18 at the concrete input of the specification: the specifier of `trace mybp main.worker`
resolves to three addresses, and exactly three breakpoints are requested, named `mybp`, with
the tracepoint flag, at the three addresses in order. -/
theorem one_breakpoint_per_location_witness :
    ((cmdfunc.tracepoint, true) ∈ creators ∧
      nameAndLocspec inlinedTerm "mybp main.worker" = ("mybp", "main.worker") ∧
      (inlinedClient.FindLocation [] ⟨-1, 0⟩ "main.worker").toOption.map List.length
        = some 3) ∧
    ∃ t1, run sampleExtern 0 .tracepoint (DebugCommands none) inlinedTerm plainContext
          "mybp main.worker" = some ⟨DebugCommands none, t1, none, .ok⟩ ∧
      t1.view = [.FindLocation ⟨-1, 0⟩ "main.worker",
        .CreateBreakpoint { emptyBreakpoint with Name := "mybp", Tracepoint := true, Addr := 4096 },
        .CreateBreakpoint { emptyBreakpoint with Name := "mybp", Tracepoint := true, Addr := 4200 },
        .CreateBreakpoint { emptyBreakpoint with Name := "mybp", Tracepoint := true, Addr := 4300 }] ∧
      (t1.view.drop 1).length = 3 :=
  ⟨⟨by decide, by decide, by decide⟩,
   (one_breakpoint_per_location sampleExtern .tracepoint true (by decide) 0 (DebugCommands none)
     inlinedTerm plainContext "mybp main.worker" "mybp" "main.worker"
     [⟨4096, "main.go", 10, some ⟨"main.worker", false⟩⟩,
      ⟨4200, "main.go", 10, some ⟨"main.worker", false⟩⟩,
      ⟨4300, "main.go", 10, some ⟨"main.worker", false⟩⟩] (by decide)).1 rfl
     (fun pre loc post _ => ⟨requestedAt "mybp" true loc, rfl⟩)⟩

/-! ## C19: the two resolutions of `setBreakpoint` -/

/-- C19: let the input be `tok ++ " " ++ rest`, the token `tok` non-empty, without a blank
and a valid breakpoint name. `setBreakpoint` first resolves `rest`; when that succeeds it
creates the breakpoints of the resolved locations with the name `tok`, and the whole input is
not resolved at all. When it fails with `err`, the whole input is resolved: on success the
breakpoints are created without a name, on failure nothing is created and `err`, the error of
the first resolution, is returned. When the input has no blank (a single token), or its first
token is not a valid name, the whole input is resolved once and the breakpoints are created
without a name, the error of that resolution being returned when it fails. -/
theorem setBreakpoint_resolves_name_first (t : Term) (tp : Bool) (argstr : String) :
    (∀ tok rest, argstr = tok ++ " " ++ rest → tok ≠ "" → (∀ ch ∈ tok.data, ch ≠ ' ') →
      t.validBreakpointName tok = true →
      (∀ locs, t.client.FindLocation t.view ⟨-1, 0⟩ rest = .ok locs →
        setBreakpoint t tp argstr =
          createLoop locs { emptyBreakpoint with Name := tok, Tracepoint := tp }
            (t.extend [.call (.FindLocation ⟨-1, 0⟩ rest)])) ∧
      (∀ err, t.client.FindLocation t.view ⟨-1, 0⟩ rest = .error err →
        (∀ locs,
          t.client.FindLocation (t.view ++ [.FindLocation ⟨-1, 0⟩ rest]) ⟨-1, 0⟩ argstr
            = .ok locs →
          setBreakpoint t tp argstr =
            createLoop locs { emptyBreakpoint with Name := "", Tracepoint := tp }
              (t.extend [.call (.FindLocation ⟨-1, 0⟩ rest),
                         .call (.FindLocation ⟨-1, 0⟩ argstr)])) ∧
        (∀ err2,
          t.client.FindLocation (t.view ++ [.FindLocation ⟨-1, 0⟩ rest]) ⟨-1, 0⟩ argstr
            = .error err2 →
          setBreakpoint t tp argstr =
            (t.extend [.call (.FindLocation ⟨-1, 0⟩ rest),
                       .call (.FindLocation ⟨-1, 0⟩ argstr)], .error err)))) ∧
    (((∀ ch ∈ argstr.data, ch ≠ ' ') ∨
        ∃ tok rest, argstr = tok ++ " " ++ rest ∧ (∀ ch ∈ tok.data, ch ≠ ' ') ∧
          t.validBreakpointName tok = false) →
      setBreakpoint t tp argstr =
        (match t.client.FindLocation t.view ⟨-1, 0⟩ argstr with
         | .ok locs =>
           createLoop locs { emptyBreakpoint with Name := "", Tracepoint := tp }
             (t.extend [.call (.FindLocation ⟨-1, 0⟩ argstr)])
         | .error err => (t.extend [.call (.FindLocation ⟨-1, 0⟩ argstr)], .error err))) := by
  constructor
  · intro tok rest harg hne hblank hvalid
    have hread : nameAndLocspec t argstr = (tok, rest) := by
      rw [harg]
      exact nameAndLocspec_valid t tok rest hblank hvalid
    have hn : (nameAndLocspec t argstr).1 = tok := by rw [hread]
    have hl : (nameAndLocspec t argstr).2 = rest := by rw [hread]
    refine ⟨?_, ?_⟩
    · intro locs hres
      rw [setBreakpoint_eq, hn, hl, hres]
    · intro err herr
      refine ⟨?_, ?_⟩
      · intro locs hres
        rw [setBreakpoint_eq, hn, hl, herr]
        simp only [hne, if_false, hres]
      · intro err2 hres
        rw [setBreakpoint_eq, hn, hl, herr]
        simp only [hne, if_false, hres]
  · intro h
    have hread : nameAndLocspec t argstr = ("", argstr) := by
      rcases h with h | ⟨tok, rest, harg, hblank, hinvalid⟩
      · exact nameAndLocspec_single t argstr h
      · rw [harg]
        exact nameAndLocspec_invalid t tok rest hblank hinvalid
    have hn : (nameAndLocspec t argstr).1 = "" := by rw [hread]
    have hl : (nameAndLocspec t argstr).2 = argstr := by rw [hread]
    rw [setBreakpoint_eq, hn, hl]
    cases t.client.FindLocation t.view ⟨-1, 0⟩ argstr <;> simp

/-- C19 at concrete inputs, on the naming service, where `mybp` is a valid name and the
specifiers `main.go:10` and `mybp +1` resolve: `mybp main.go:10` gives a breakpoint named
`mybp`; for `mybp +1` the resolution of `+1` fails and the whole input gives an unnamed
breakpoint; for `mybp nowhere` both resolutions fail and the error is that of `nowhere`; the
single token `main.go:10` is resolved once. -/
theorem setBreakpoint_resolves_name_first_witness :
    (("mybp main.go:10" = "mybp" ++ " " ++ "main.go:10" ∧ "mybp" ≠ "" ∧
        (∀ ch ∈ "mybp".data, ch ≠ ' ') ∧ namingTerm.validBreakpointName "mybp" = true) ∧
      ((setBreakpoint namingTerm false "mybp main.go:10").1.view =
          [.FindLocation ⟨-1, 0⟩ "main.go:10",
           .CreateBreakpoint { emptyBreakpoint with Name := "mybp", Addr := 4096 }] ∧
        (setBreakpoint namingTerm false "mybp main.go:10").2 = .ok)) ∧
    ((setBreakpoint namingTerm false "mybp +1").1.view =
        [.FindLocation ⟨-1, 0⟩ "+1", .FindLocation ⟨-1, 0⟩ "mybp +1",
         .CreateBreakpoint { emptyBreakpoint with Name := "", Addr := 4200 }] ∧
      (setBreakpoint namingTerm false "mybp +1").2 = .ok) ∧
    (setBreakpoint namingTerm false "mybp nowhere" =
      (namingTerm.extend [.call (.FindLocation ⟨-1, 0⟩ "nowhere"),
                          .call (.FindLocation ⟨-1, 0⟩ "mybp nowhere")],
       .error (.service "location not found: nowhere"))) ∧
    ((setBreakpoint namingTerm false "main.go:10").1.view =
        [.FindLocation ⟨-1, 0⟩ "main.go:10",
         .CreateBreakpoint { emptyBreakpoint with Name := "", Addr := 4096 }] ∧
      (setBreakpoint namingTerm false "main.go:10").2 = .ok) :=
  have hb : ∀ ch ∈ "mybp".data, ch ≠ ' ' := by decide
  have h1 := ((setBreakpoint_resolves_name_first namingTerm false "mybp main.go:10").1
    "mybp" "main.go:10" rfl (by decide) hb rfl).1
      [⟨4096, "main.go", 10, some ⟨"main.worker", false⟩⟩] rfl
  have h2 := (((setBreakpoint_resolves_name_first namingTerm false "mybp +1").1
    "mybp" "+1" rfl (by decide) hb rfl).2
      (.service "location not found: +1") rfl).1
      [⟨4200, "main.go", 11, some ⟨"main.worker", false⟩⟩] rfl
  have h3 := (((setBreakpoint_resolves_name_first namingTerm false "mybp nowhere").1
    "mybp" "nowhere" rfl (by decide) hb rfl).2
      (.service "location not found: nowhere") rfl).2
      (.service "location not found: mybp nowhere") rfl
  have h4 := (setBreakpoint_resolves_name_first namingTerm false "main.go:10").2
    (Or.inl (by decide))
  ⟨⟨⟨rfl, by decide, hb, rfl⟩, by rw [h1]; exact ⟨rfl, rfl⟩⟩,
   by rw [h2]; exact ⟨rfl, rfl⟩, h3, by rw [h4]; exact ⟨rfl, rfl⟩⟩

/-! ## Lemmas on `clearAll` -/

theorem clearAllLoop_view (locPCs : Option (List Nat)) (bps : List api.Breakpoint) :
    ∀ t : Term, (clearAllLoop locPCs bps t).view =
      t.view ++ (bps.filter (clearable locPCs)).map (fun bp => Request.ClearBreakpoint bp.ID) := by
  induction bps with
  | nil =>
    intro t
    simp [clearAllLoop]
  | cons bp rest ih =>
    intro t
    simp only [clearAllLoop]
    split
    · rename_i h
      have hc : clearable locPCs bp = false := by
        cases locPCs <;> simp_all [clearable]
      rw [ih, List.filter_cons, hc]
      simp
    · rename_i h
      split
      · rename_i h2
        have hc : clearable locPCs bp = false := by
          simp [clearable, h2]
        rw [ih, List.filter_cons, hc]
        simp
      · rename_i h2
        have hc : clearable locPCs bp = true := by
          cases locPCs <;> simp_all [clearable]
        rw [ih, List.filter_cons, hc]
        cases t.client.ClearBreakpoint t.view bp.ID <;>
          simp [Term.record_eq_extend, Term.extend_extend, Term.extend_view, Event.toRequest]

theorem run_clearAll_eq (ext : Extern) (fuel : Nat) (c : Commands) (t : Term)
    (ctx : callContext) (args : String) :
    run ext fuel .clearAll c t ctx args =
      some ⟨c, (clearAll t ctx args).1, ctx.Breakpoint, (clearAll t ctx args).2⟩ := by
  cases fuel <;> rfl

/-! ## C20: `clearall` -/

/-- C20: let the service list the breakpoints `bps`. Whatever the service answers to the
deletions, `clearall` returns nil, and the requests it sends are the listing, the resolution of
the filter when one is given, and then `ClearBreakpoint` for exactly the listed breakpoints
that pass the two tests of the loop, in the order of the list: the id is not negative and,
with a filter, the address is one of the addresses of the resolved locations. -/
theorem clearAll_clears_exactly_clearable (ext : Extern) (fuel : Nat) (c : Commands)
    (t : Term) (ctx : callContext) (args : String) (bps : List api.Breakpoint)
    (hlist : t.client.ListBreakpoints t.view = .ok bps) :
    (args = "" →
      ∃ t1, run ext fuel .clearAll c t ctx args = some ⟨c, t1, ctx.Breakpoint, .ok⟩ ∧
        t1.view = t.view ++ .ListBreakpoints ::
          (bps.filter (clearable none)).map (fun bp => .ClearBreakpoint bp.ID)) ∧
    (args ≠ "" → ∀ locs,
      t.client.FindLocation (t.view ++ [.ListBreakpoints]) ⟨-1, 0⟩ args = .ok locs →
      ∃ t1, run ext fuel .clearAll c t ctx args = some ⟨c, t1, ctx.Breakpoint, .ok⟩ ∧
        t1.view = t.view ++ .ListBreakpoints :: .FindLocation ⟨-1, 0⟩ args ::
          (bps.filter (clearable (some (locs.map (fun loc => loc.PC))))).map
            (fun bp => .ClearBreakpoint bp.ID)) ∧
    (∀ bp, clearable none bp = true ↔ 0 ≤ bp.ID) ∧
    (∀ (locs : List api.Location) (bp : api.Breakpoint),
      clearable (some (locs.map (fun loc => loc.PC))) bp = true ↔
      (∃ loc ∈ locs, loc.PC = bp.Addr) ∧ 0 ≤ bp.ID) := by
  refine ⟨?_, ?_, ?_, ?_⟩
  · intro hargs
    refine ⟨(clearAll t ctx args).1, ?_, ?_⟩
    · rw [run_clearAll_eq]
      simp [clearAll, hlist, hargs]
    · simp [clearAll, hlist, hargs, clearAllLoop_view, Term.record_eq_extend,
        Term.extend_view, Event.toRequest]
  · intro hargs locs hres
    have hres1 : (t.record (.call .ListBreakpoints)).client.FindLocation
        (t.record (.call .ListBreakpoints)).view ⟨-1, 0⟩ args = .ok locs := by
      simpa [Term.record_eq_extend, Term.extend_view, Term.extend_client, Event.toRequest]
        using hres
    refine ⟨(clearAll t ctx args).1, ?_, ?_⟩
    · rw [run_clearAll_eq]
      simp [clearAll, hlist, hargs, hres1]
    · simp [clearAll, hlist, hargs, hres, clearAllLoop_view, Term.record_eq_extend,
        Term.extend_extend, Term.extend_view, Term.extend_client, Event.toRequest]
  · intro bp
    simp [clearable]
  · intro locs bp
    simp [clearable]

/-- C20 at a concrete input: the crowded service lists the breakpoints 1, -1 and 3 at the
address 4096 and the breakpoint 2 elsewhere, and the deletion of 1 fails. With a filter that
resolves to the address 4096, `clearall` passes 1 and 3 to `ClearBreakpoint`, not -1 and not
2, and returns nil. -/
theorem clearAll_clears_exactly_clearable_witness :
    (crowdedClient.ListBreakpoints [] =
        .ok [sampleBreakpoint, { sampleBreakpoint with ID := -1 },
             { sampleBreakpoint with ID := 2, Addr := 5000, Line := 40 },
             { sampleBreakpoint with ID := 3 }] ∧
      "main.go:10" ≠ "" ∧
      crowdedClient.FindLocation [.ListBreakpoints] ⟨-1, 0⟩ "main.go:10" =
        .ok [⟨4096, "main.go", 10, some ⟨"main.worker", false⟩⟩] ∧
      crowdedClient.ClearBreakpoint [] 1 = .error (.service "could not remove breakpoint")) ∧
    ∃ t1, run sampleExtern 0 .clearAll (DebugCommands none) crowdedTerm plainContext
          "main.go:10" = some ⟨DebugCommands none, t1, none, .ok⟩ ∧
      t1.view = [.ListBreakpoints, .FindLocation ⟨-1, 0⟩ "main.go:10",
                 .ClearBreakpoint 1, .ClearBreakpoint 3] :=
  ⟨⟨rfl, by decide, rfl, rfl⟩,
   (clearAll_clears_exactly_clearable sampleExtern 0 (DebugCommands none) crowdedTerm
     plainContext "main.go:10"
     [sampleBreakpoint, { sampleBreakpoint with ID := -1 },
      { sampleBreakpoint with ID := 2, Addr := 5000, Line := 40 },
      { sampleBreakpoint with ID := 3 }] rfl).2.1 (by decide)
     [⟨4096, "main.go", 10, some ⟨"main.worker", false⟩⟩] rfl⟩

/-! ## Lemmas on the checkpoint commands -/

theorem run_checkpoint_eq (ext : Extern) (fuel : Nat) (c : Commands) (t : Term)
    (ctx : callContext) (args : String) :
    run ext fuel .checkpoint c t ctx args =
      some ⟨c, (checkpoint t ctx args).1, ctx.Breakpoint, (checkpoint t ctx args).2⟩ := by
  cases fuel <;> rfl

theorem run_clearCheckpoint_eq (ext : Extern) (fuel : Nat) (c : Commands) (t : Term)
    (ctx : callContext) (args : String) :
    run ext fuel .clearCheckpoint c t ctx args =
      some ⟨c, (clearCheckpoint t ctx args).1, ctx.Breakpoint,
        (clearCheckpoint t ctx args).2⟩ := by
  cases fuel <;> rfl

/-! ## The label of a checkpoint -/

/-- The label of `checkpoint`, where the state has a current thread: `checkpoint` with an
empty argument asks for the state and, when the state has a current thread, passes to `Checkpoint` the label `<function>() <file>:<line> (0x<pc>)` of the
current location of the selected goroutine when a goroutine is selected, of the location of
the current thread otherwise, the function name being `???` when the function is not known;
the requests sent are `GetState` and that `Checkpoint`. With a non-empty argument the only
request is `Checkpoint` with the argument as it is. In both cases the command returns nil
when `Checkpoint` succeeds and its error otherwise. -/
theorem checkpoint_label (ext : Extern) (fuel : Nat) (c : Commands) (t : Term)
    (ctx : callContext) :
    (∀ state th, t.client.GetState t.view = .ok state → state.CurrentThread = some th →
      ∃ t1 ret, run ext fuel .checkpoint c t ctx "" = some ⟨c, t1, ctx.Breakpoint, ret⟩ ∧
        t1.view = t.view ++
          [.GetState, .Checkpoint (checkpointLabel (labelLocation state th))] ∧
        ret = (match t.client.Checkpoint (t.view ++ [.GetState])
                  (checkpointLabel (labelLocation state th)) with
               | .ok _ => .ok
               | .error e => .error e)) ∧
    (∀ args, args ≠ "" →
      ∃ t1 ret, run ext fuel .checkpoint c t ctx args = some ⟨c, t1, ctx.Breakpoint, ret⟩ ∧
        t1.view = t.view ++ [.Checkpoint args] ∧
        ret = (match t.client.Checkpoint t.view args with
               | .ok _ => .ok
               | .error e => .error e)) ∧
    (∀ (pc : Nat) (file : String) (line : Int) (f : api.Function),
      checkpointLabel ⟨pc, file, line, some f⟩ =
        f.Name ++ "() " ++ file ++ ":" ++ toString line ++ " (" ++ hex pc ++ ")") ∧
    (∀ (pc : Nat) (file : String) (line : Int),
      checkpointLabel ⟨pc, file, line, none⟩ =
        "???" ++ "() " ++ file ++ ":" ++ toString line ++ " (" ++ hex pc ++ ")") := by
  refine ⟨?_, ?_, fun _ _ _ _ => rfl, fun _ _ _ => rfl⟩
  · intro state th hstate hth
    refine ⟨(checkpoint t ctx "").1, (checkpoint t ctx "").2, run_checkpoint_eq _ _ _ _ _ _,
      ?_, ?_⟩
    · cases hc : t.client.Checkpoint (t.view ++ [.GetState])
          (checkpointLabel (labelLocation state th)) <;>
        simp [checkpoint, hstate, hth, checkpointLabel, labelLocation, hc,
          Term.record_eq_extend, Term.extend_extend, Term.extend_view, Term.extend_client,
          Event.toRequest] at hc ⊢
    · cases hc : t.client.Checkpoint (t.view ++ [.GetState])
          (checkpointLabel (labelLocation state th)) <;>
        simp [checkpoint, hstate, hth, checkpointLabel, labelLocation, hc,
          Term.record_eq_extend, Term.extend_extend, Term.extend_view, Term.extend_client,
          Event.toRequest] at hc ⊢
  · intro args hargs
    refine ⟨(checkpoint t ctx args).1, (checkpoint t ctx args).2,
      run_checkpoint_eq _ _ _ _ _ _, ?_, ?_⟩
    · cases hc : t.client.Checkpoint t.view args <;>
        simp [checkpoint, hargs, hc, Term.record_eq_extend, Term.extend_extend,
          Term.extend_view, Event.toRequest]
    · cases hc : t.client.Checkpoint t.view args <;>
        simp [checkpoint, hargs, hc]

/-- The label at the concrete input of the specification: on the recording the selected
goroutine is at `(main.worker, file.ext, 42, 0x1000)`, and `checkpoint` without a label passes the label
`main.worker() file.ext:42 (0x1000)`; with the label `before` it passes `before`. -/
theorem checkpoint_label_witness :
    (recordedClient.GetState [] = .ok workerState ∧
      workerState.CurrentThread = some ⟨1, 8192, "proc.go", 7, none, 5, none, none⟩ ∧ "before" ≠ "") ∧
    (∃ t1 ret, run sampleExtern 0 .checkpoint (DebugCommands none) recordedTerm plainContext ""
        = some ⟨DebugCommands none, t1, none, ret⟩ ∧
      t1.view = [.GetState, .Checkpoint "main.worker() file.ext:42 (0x1000)"] ∧
      ret = .ok) ∧
    (∃ t1 ret, run sampleExtern 0 .checkpoint (DebugCommands none) recordedTerm plainContext
        "before" = some ⟨DebugCommands none, t1, none, ret⟩ ∧
      t1.view = [.Checkpoint "before"] ∧ ret = .ok) :=
  ⟨⟨rfl, rfl, by decide⟩,
   (checkpoint_label sampleExtern 0 (DebugCommands none) recordedTerm plainContext).1
     workerState ⟨1, 8192, "proc.go", 7, none, 5, none, none⟩ rfl rfl,
   (checkpoint_label sampleExtern 0 (DebugCommands none) recordedTerm plainContext).2.1
     "before" (by decide)⟩

/-! ## C21: the label of a checkpoint and the current thread -/

set_option maxRecDepth 100000 in
/-- C21, evaluated on the code: `checkpoint` reads `state.CurrentThread.PC` before it looks
at the selected goroutine. On the stranded recording the selected goroutine is at
`(main.worker, file.ext, 42, 0x1000)` and there is no current thread: `checkpoint` with an
empty argument panics after `GetState`, and no label is passed to `Checkpoint`, also when the
command line `checkpoint` is dispatched from the registry. On the recording whose state has
the same selected goroutine and a current thread, the label passed is
`main.worker() file.ext:42 (0x1000)`. -/
theorem checkpoint_without_current_thread_panics :
    strandedClient.GetState [] = .ok strandedState ∧
    strandedState.CurrentThread = none ∧
    strandedState.SelectedGoroutine.map (fun g => g.CurrentLoc) =
      some ⟨4096, "file.ext", 42, some ⟨"main.worker", false⟩⟩ ∧
    checkpoint strandedTerm plainContext "" =
      (strandedTerm.extend [.call .GetState], .panic) ∧
    (Call sampleExtern 1 (DebugCommands none) "checkpoint" strandedTerm).map
        (fun r => (r.t.view, r.ret)) = some ([.GetState], .panic) ∧
    recordedClient.GetState [] = .ok workerState ∧
    workerState.SelectedGoroutine = strandedState.SelectedGoroutine ∧
    ((checkpoint recordedTerm plainContext "").1.view =
        [.GetState, .Checkpoint "main.worker() file.ext:42 (0x1000)"] ∧
      (checkpoint recordedTerm plainContext "").2 = .ok) := by
  refine ⟨rfl, rfl, rfl, rfl, by decide, rfl, rfl, by decide, rfl⟩

/-! ## C22: `clear-checkpoint` -/

/-- C22, evaluated on the code: the test `len(args) < 0` never holds, so on the empty argument
`clearCheckpoint` reaches `args[0]` and panics, for every terminal; dispatched from the
registry of a recording, the command line `clear-checkpoint` ends in that panic and sends
nothing. On an argument that begins with another character than `c`, or whose remainder is
not an integer, it returns the error "clear-checkpoint argument must be a checkpoint ID" and
sends nothing; on `c<n>` it sends `ClearCheckpoint n` and returns its result. -/
theorem clearCheckpoint_empty_argument_panics :
    (∀ (t : Term) (ctx : callContext), clearCheckpoint t ctx "" = (t, .panic)) ∧
    (Call sampleExtern 1 (DebugCommands none) "clear-checkpoint" recordedTerm).map
        (fun r => (r.t.view, r.ret)) = some ([], .panic) ∧
    (∀ (t : Term) (ctx : callContext) (ch : Char) (rest : List Char),
      clearCheckpoint t ctx ⟨ch :: rest⟩ =
        if ch ≠ 'c' then (t, .error (.new "clear-checkpoint argument must be a checkpoint ID"))
        else
          match Atoi ⟨rest⟩ with
          | .error _ => (t, .error (.new "clear-checkpoint argument must be a checkpoint ID"))
          | .ok id =>
            (t.record (.call (.ClearCheckpoint id)),
             match t.client.ClearCheckpoint t.view id with
             | some e => .error e
             | none => .ok)) ∧
    (clearCheckpoint recordedTerm plainContext "c12" =
      (recordedTerm.extend [.call (.ClearCheckpoint 12)], .ok)) ∧
    (clearCheckpoint recordedTerm plainContext "12" =
      (recordedTerm, .error (.new "clear-checkpoint argument must be a checkpoint ID"))) := by
  refine ⟨fun _ _ => rfl, by decide, ?_, rfl, rfl⟩
  intro t ctx ch rest
  have hlen : ¬ (((⟨ch :: rest⟩ : String).length : Int) < 0) := by
    omega
  unfold clearCheckpoint
  rw [if_neg hlen]
  simp only
  split
  · rfl
  · cases Atoi ⟨rest⟩ with
    | error e => rfl
    | ok id =>
      simp only
      cases t.client.ClearCheckpoint t.view id <;> rfl

theorem run_stackCommand_eq (ext : Extern) (fuel : Nat) (c : Commands) (t : Term)
    (ctx : callContext) (args : String) :
    run ext fuel .stackCommand c t ctx args =
      some ⟨c, (stackCommand t ctx args).1, (stackCommand t ctx args).2.1,
        (stackCommand t ctx args).2.2⟩ := by
  cases fuel <;> rfl

/-! ## C25: the options of `stack` -/

set_option maxRecDepth 100000 in
/-- C25, evaluated on the code: the help text of `stack` lists the options `-full`, `-g`,
`-s` and `-offsets`, and `parseStackArgs` accepts `-full`, `-offsets` and a depth but takes
`-g` and `-s` for a depth and returns "depth must be a number"; so the command lines
`stack -g` and `stack 5 -s` return that error and send nothing to the target. -/
theorem parseStackArgs_rejects_listed_options :
    (∃ v ∈ builtinCommands, v.cmdFn = .stackCommand ∧ v.aliases = ["stack", "bt"] ∧
      v.helpMsg = "Print stack trace.\n\n\t[goroutine <n>] [frame <m>] stack [<depth>] [-full] [-g] [-s] [-offsets]\n\t\n\t-full\t\tevery stackframe is decorated with the value of its local variables and arguments.\n\t-offsets\tprints frame offset of each frame\n") ∧
    stackOptions.map parseStackArgs =
      [.ok ⟨10, true, false⟩, .error (.new "depth must be a number"),
       .error (.new "depth must be a number"), .ok ⟨10, false, true⟩] ∧
    parseStackArgs "5 -full -offsets" = .ok ⟨5, true, true⟩ ∧
    parseStackArgs "5 -s" = .error (.new "depth must be a number") ∧
    (Call sampleExtern 1 (DebugCommands none) "stack -g" sampleTerm).map
        (fun r => (r.t.view, r.ret)) = some ([], .error (.new "depth must be a number")) := by
  refine ⟨by decide, rfl, rfl, rfl, by decide⟩

/-! ## Lemmas on the lines of a command file -/

theorem commandLinesFrom_nil (first : Nat) : commandLinesFrom first [] = [] := rfl

theorem commandLinesFrom_cons (first : Nat) (text : String) (rest : List String) :
    commandLinesFrom first (text :: rest) =
      if TrimSpace text = "" ∨ (TrimSpace text).data.head? = some '#' then
        commandLinesFrom (first + 1) rest
      else (first, TrimSpace text) :: commandLinesFrom (first + 1) rest := by
  by_cases h : TrimSpace text = "" ∨ (TrimSpace text).data.head? = some '#'
  · rw [if_pos h]
    simp only [commandLinesFrom, List.enumFrom_cons, List.map_cons]
    rw [List.filter_cons_of_neg]
    rcases h with h | h <;> simp [h]
  · rw [if_neg h]
    simp only [commandLinesFrom, List.enumFrom_cons, List.map_cons]
    rw [List.filter_cons_of_pos]
    simpa using h

theorem executeLines_eq_dispatchLines (exec : Exec) (name : String) (lines : List String) :
    ∀ (lineno : Nat) (c : Commands) (t : Term),
      executeLines exec name lines lineno c t =
        dispatchLines exec name (commandLinesFrom (lineno + 1) lines) c t := by
  induction lines with
  | nil =>
    intro lineno c t
    rfl
  | cons text rest ih =>
    intro lineno c t
    rw [commandLinesFrom_cons]
    by_cases h : TrimSpace text = "" ∨ (TrimSpace text).data.head? = some '#'
    · rw [if_pos h]
      simp only [executeLines, h, if_true]
      exact ih _ _ _
    · rw [if_neg h]
      simp only [executeLines, h, if_false, dispatchLines]
      cases hc : CallWith exec c (TrimSpace text) t with
      | none => rfl
      | some r =>
        simp only
        cases hr : r.ret with
        | ok => simp only [hr]; exact ih _ _ _
        | error e => simp only [hr]; exact ih _ _ _
        | panic => simp only [hr]

theorem mem_commandLinesFrom (first : Nat) (lines : List String) (i : Nat) (line : String) :
    (i, line) ∈ commandLinesFrom first lines ↔
      ∃ text, first ≤ i ∧ lines[i - first]? = some text ∧ line = TrimSpace text ∧
        line ≠ "" ∧ line.data.head? ≠ some '#' := by
  simp only [commandLinesFrom, List.mem_filter, List.mem_map, Prod.mk.injEq, Prod.exists,
    List.mk_mem_enumFrom_iff_le_and_getElem?_sub]
  constructor
  · rintro ⟨⟨a, text, ⟨hle, hget⟩, rfl, rfl⟩, hkeep⟩
    refine ⟨text, hle, hget, rfl, ?_, ?_⟩
    · intro h
      simp [h] at hkeep
    · intro h
      simp [h] at hkeep
  · rintro ⟨text, hle, hget, rfl, hne, hhash⟩
    refine ⟨⟨i, text, ⟨hle, hget⟩, rfl, rfl⟩, ?_⟩
    simp [hne, hhash]

theorem commandLinesFrom_increasing (first : Nat) (lines : List String) :
    ((commandLinesFrom first lines).map Prod.fst).Pairwise (fun a b => a < b) := by
  have hsub : List.Sublist ((commandLinesFrom first lines).map Prod.fst)
      (List.range' first lines.length) := by
    have h1 : ((lines.enumFrom first).map (fun p => (p.1, TrimSpace p.2))).map Prod.fst =
        List.range' first lines.length := by
      rw [List.map_map]
      have : (Prod.fst ∘ fun p : Nat × String => (p.1, TrimSpace p.2)) = Prod.fst := rfl
      rw [this, List.enumFrom_map_fst]
    rw [← h1]
    exact List.Sublist.map _ (List.filter_sublist _)
  exact List.Pairwise.sublist hsub (List.pairwise_lt_range' _ _ _)

theorem dispatchLines_total (exec : Exec) (name : String) (ls : List (Nat × String))
    (h : ∀ (c1 : Commands) (t1 : Term), ∀ p ∈ ls,
      ∃ r, CallWith exec c1 p.2 t1 = some r ∧ r.ret ≠ .panic) :
    ∀ (c : Commands) (t : Term), ∃ c1 t1, dispatchLines exec name ls c t = some (c1, t1, false) := by
  induction ls with
  | nil =>
    intro c t
    exact ⟨c, t, rfl⟩
  | cons p rest ih =>
    intro c t
    have hrest := ih (fun c1 t1 q hq => h c1 t1 q (List.mem_cons_of_mem _ hq))
    obtain ⟨r, hr, hp⟩ := h c t p (List.mem_cons_self _ _)
    rcases p with ⟨i, line⟩
    simp only [dispatchLines, hr]
    cases hret : r.ret with
    | ok => exact hrest _ _
    | error e => exact hrest _ _
    | panic => exact absurd hret hp

/-! ## C23: sourced command files -/

/-- C23: let the file `name` be read as the lines `lines`, the scanner ending with `scanErr`
(`none` when the file was read completely). `executeFile` does what `dispatchLines` does on
the command lines of the file: the lines trimmed, with their 1-based position in the file
(blank and comment lines counted), those that are non-empty and do not begin with `#`, in the
order of the file. Each of them is dispatched with `Call` whatever the earlier ones returned,
an error is recorded with the file name and the position of its line, and what `executeFile`
returns is the error of the scanner, so nil when the file was read completely (a panic of a
line apart). When the `Call` of every command line returns without a panic, `executeFile`
returns, with that result. -/
theorem executeFile_dispatches_command_lines (exec : Exec) (c : Commands) (t : Term)
    (name : String) (lines : List String) (scanErr : Option Err)
    (hread : t.readFile name = .ok (lines, scanErr)) :
    executeFile exec c t name =
      (dispatchLines exec name (commandLines lines) c t).map (fun r =>
        (r.1, r.2.1,
          if r.2.2 then Ret.panic
          else match scanErr with
            | some e => Ret.error e
            | none => Ret.ok)) ∧
    (∀ i line, (i, line) ∈ commandLines lines ↔
      ∃ text, 1 ≤ i ∧ lines[i - 1]? = some text ∧ line = TrimSpace text ∧
        line ≠ "" ∧ line.data.head? ≠ some '#') ∧
    ((commandLines lines).map Prod.fst).Pairwise (fun a b => a < b) ∧
    ((∀ (c1 : Commands) (t1 : Term), ∀ p ∈ commandLines lines,
        ∃ r, CallWith exec c1 p.2 t1 = some r ∧ r.ret ≠ .panic) →
      ∃ c1 t1, executeFile exec c t name =
        some (c1, t1, match scanErr with
          | some e => Ret.error e
          | none => Ret.ok)) := by
  have heq : executeFile exec c t name =
      (dispatchLines exec name (commandLines lines) c t).map (fun r =>
        (r.1, r.2.1,
          if r.2.2 then Ret.panic
          else match scanErr with
            | some e => Ret.error e
            | none => Ret.ok)) := by
    simp only [executeFile, hread, executeLines_eq_dispatchLines, commandLines]
    cases hd : dispatchLines exec name (commandLinesFrom (0 + 1) lines) c t with
    | none => rfl
    | some r =>
      rcases r with ⟨c1, t1, b⟩
      cases b
      · cases scanErr <;> rfl
      · rfl
  refine ⟨heq, fun i line => mem_commandLinesFrom 1 lines i line,
    commandLinesFrom_increasing 1 lines, ?_⟩
  intro htotal
  obtain ⟨c1, t1, hd⟩ := dispatchLines_total exec name (commandLines lines) htotal c t
  exact ⟨c1, t1, by rw [heq, hd]; rfl⟩

theorem refusingExec_returns (c1 : Commands) (t1 : Term) :
    ∀ p ∈ [(3, "bogus"), (4, "print a"), (6, "exit")],
      ∃ r, CallWith refusingExec c1 p.2 t1 = some r ∧ r.ret ≠ .panic := by
  intro p hp
  simp only [List.mem_cons, List.mem_singleton, List.not_mem_nil, or_false] at hp
  rcases hp with rfl | rfl | rfl
  · exact ⟨_, rfl, fun h => Ret.noConfusion h⟩
  · exact ⟨_, rfl, fun h => Ret.noConfusion h⟩
  · exact ⟨_, rfl, fun h => Ret.noConfusion h⟩

set_option maxRecDepth 100000 in
/-- C23 at a concrete input: the file `init.dlv` has six lines, of which the third, the fourth
and the sixth are command lines. The third (`bogus`) fails and is reported with the number 3,
the fourth (`print a`) is dispatched all the same and evaluates `a`, the sixth (`exit`) returns
the exit request, which is reported with the number 6, and `executeFile` returns nil. -/
theorem executeFile_dispatches_command_lines_witness :
    (scriptTerm.readFile "init.dlv" =
        .ok (["# set up", "", "  bogus  ", "print a", "   # done", "exit"], none) ∧
      commandLines ["# set up", "", "  bogus  ", "print a", "   # done", "exit"] =
        [(3, "bogus"), (4, "print a"), (6, "exit")] ∧
      ∀ (c1 : Commands) (t1 : Term),
        ∀ p ∈ commandLines ["# set up", "", "  bogus  ", "print a", "   # done", "exit"],
          ∃ r, CallWith refusingExec c1 p.2 t1 = some r ∧ r.ret ≠ .panic) ∧
    (executeFile (run sampleExtern 1) (DebugCommands none) scriptTerm "init.dlv" =
      (dispatchLines (run sampleExtern 1) "init.dlv"
        [(3, "bogus"), (4, "print a"), (6, "exit")] (DebugCommands none) scriptTerm).map
        (fun r => (r.1, r.2.1, if r.2.2 then Ret.panic else Ret.ok))) ∧
    ((executeFile (run sampleExtern 1) (DebugCommands none) scriptTerm "init.dlv").map
        (fun r => (r.2.1.log, r.2.2)) =
      some ([.invoke .noCmdAvailable plainContext "",
             .lineError "init.dlv" 3 .noCmdError,
             .invoke .printVar plainContext "a",
             .call (.EvalVariable ⟨-1, 0⟩ "a" LongLoadConfig),
             .print "1\n",
             .invoke .exitCommand plainContext "",
             .lineError "init.dlv" 6 .exitRequest], .ok)) ∧
    (∃ c1 t1, executeFile refusingExec (DebugCommands none) scriptTerm "init.dlv" =
      some (c1, t1, .ok)) :=
  have hlines : commandLines ["# set up", "", "  bogus  ", "print a", "   # done", "exit"] =
      [(3, "bogus"), (4, "print a"), (6, "exit")] := by decide
  have htotal : ∀ (c1 : Commands) (t1 : Term),
      ∀ p ∈ commandLines ["# set up", "", "  bogus  ", "print a", "   # done", "exit"],
        ∃ r, CallWith refusingExec c1 p.2 t1 = some r ∧ r.ret ≠ .panic := by
    intro c1 t1
    rw [hlines]
    exact refusingExec_returns c1 t1
  ⟨⟨rfl, hlines, htotal⟩,
   (executeFile_dispatches_command_lines (run sampleExtern 1) (DebugCommands none) scriptTerm
     "init.dlv" ["# set up", "", "  bogus  ", "print a", "   # done", "exit"] none rfl).1,
   by decide,
   (executeFile_dispatches_command_lines refusingExec (DebugCommands none) scriptTerm
     "init.dlv" ["# set up", "", "  bogus  ", "print a", "   # done", "exit"] none rfl).2.2.2
     htotal⟩

/-! ## Lemmas on the sorted command list -/

theorem insertByFirstAlias_perm (x : command) (l : List command) :
    (insertByFirstAlias x l).Perm (x :: l) := by
  induction l with
  | nil => exact List.Perm.refl _
  | cons y ys ih =>
    simp only [insertByFirstAlias]
    split
    · exact List.Perm.refl _
    · exact (List.Perm.cons y ih).trans (List.Perm.swap x y ys)

theorem sortByFirstAlias_perm (l : List command) : (sortByFirstAlias l).Perm l := by
  induction l with
  | nil => exact List.Perm.refl _
  | cons x xs ih =>
    simp only [sortByFirstAlias]
    exact (insertByFirstAlias_perm x _).trans (List.Perm.cons x ih)

theorem DebugCommands_recorded (client : Option Client)
    (h : client = none ∨ ∃ cl, client = some cl ∧ cl.Recorded = true) :
    DebugCommands client = DebugCommands none := by
  rcases h with rfl | ⟨cl, rfl, hr⟩
  · rfl
  · simp [DebugCommands, Option.all, hr]

theorem DebugCommands_live (client : Option Client)
    (h : ∃ cl, client = some cl ∧ cl.Recorded = false) :
    DebugCommands client = { cmds := sortByFirstAlias builtinCommands } := by
  obtain ⟨cl, rfl, hr⟩ := h
  simp [DebugCommands, Option.all, hr]

set_option maxRecDepth 1000000 in
theorem sorted_recorded :
    (DebugCommands none).cmds.Pairwise
      (fun a b => (firstAlias a).data < (firstAlias b).data) := by
  decide

set_option maxRecDepth 1000000 in
theorem sorted_live :
    (sortByFirstAlias builtinCommands).Pairwise
      (fun a b => (firstAlias a).data < (firstAlias b).data) := by
  decide

set_option maxRecDepth 1000000 in
theorem recording_commands_present :
    ∀ a ∈ ["rewind", "check", "checkpoints", "clear-checkpoint"],
      a ∈ (DebugCommands none).cmds.map firstAlias := by
  decide

set_option maxRecDepth 1000000 in
theorem recording_commands_absent :
    ∀ v ∈ sortByFirstAlias builtinCommands, ∀ a ∈ v.aliases, a ∉ recordingAliases := by
  decide

/-! ## C24: the order of the command list -/

/-- C24: the command list of `DebugCommands` is in strictly increasing order of first alias
(the order of `ByFirstAlias.Less`, which compares the aliases character by character),
whatever the client is, and it is a rearrangement of the commands it was made from. When the
client is absent or the target is a recording these are the built-in commands and the four
commands of a recording (with the help text of `restart` replaced), so that `rewind`, `check`,
`checkpoints` and `clear-checkpoint` are first aliases of the list; when the target is not a
recording they are the built-in commands alone, and no command of the list has an alias of
those four commands. -/
theorem DebugCommands_sorted_by_first_alias (client : Option Client) :
    (DebugCommands client).cmds.Pairwise (fun a b => ByFirstAlias.Less a b = true) ∧
    (∀ a b, ByFirstAlias.Less a b = true ↔ (firstAlias a).data < (firstAlias b).data) ∧
    ((client = none ∨ ∃ cl, client = some cl ∧ cl.Recorded = true) →
      (DebugCommands client).cmds.Perm
        ((builtinCommands ++ recordingCommands).map restartHelp) ∧
      ∀ a ∈ ["rewind", "check", "checkpoints", "clear-checkpoint"],
        a ∈ (DebugCommands client).cmds.map firstAlias) ∧
    ((∃ cl, client = some cl ∧ cl.Recorded = false) →
      (DebugCommands client).cmds.Perm builtinCommands ∧
      ∀ v ∈ (DebugCommands client).cmds, ∀ a ∈ v.aliases, a ∉ recordingAliases) := by
  have hless : ∀ a b, ByFirstAlias.Less a b = true ↔
      (firstAlias a).data < (firstAlias b).data := by
    intro a b
    simp [ByFirstAlias.Less, firstAlias]
  refine ⟨?_, hless, ?_, ?_⟩
  · rcases DebugCommands_eq client with h | h <;> rw [h]
    · exact List.Pairwise.imp (fun h => (hless _ _).2 h) sorted_recorded
    · exact List.Pairwise.imp (fun h => (hless _ _).2 h) sorted_live
  · intro h
    rw [DebugCommands_recorded client h]
    exact ⟨sortByFirstAlias_perm _, recording_commands_present⟩
  · intro h
    rw [DebugCommands_live client h]
    exact ⟨sortByFirstAlias_perm _, recording_commands_absent⟩

set_option maxRecDepth 1000000 in
/-- C24 at concrete inputs: for the recording the list begins with `args`, `break`,
`breakpoints`, `check`, `checkpoints`, `clear`, `clear-checkpoint`; for the sample service,
which is not a recording, with `args`, `break`, `breakpoints`, `clear`, `clearall`. -/
theorem DebugCommands_sorted_by_first_alias_witness :
    ((∃ cl, some recordedClient = some cl ∧ cl.Recorded = true) ∧
      (∃ cl, some sampleClient = some cl ∧ cl.Recorded = false)) ∧
    ((DebugCommands (some recordedClient)).cmds.Perm
        ((builtinCommands ++ recordingCommands).map restartHelp) ∧
      ∀ a ∈ ["rewind", "check", "checkpoints", "clear-checkpoint"],
        a ∈ (DebugCommands (some recordedClient)).cmds.map firstAlias) ∧
    ((DebugCommands (some sampleClient)).cmds.Perm builtinCommands ∧
      ∀ v ∈ (DebugCommands (some sampleClient)).cmds, ∀ a ∈ v.aliases,
        a ∉ recordingAliases) ∧
    ((DebugCommands (some recordedClient)).cmds.map firstAlias).take 7 =
      ["args", "break", "breakpoints", "check", "checkpoints", "clear", "clear-checkpoint"] ∧
    ((DebugCommands (some sampleClient)).cmds.map firstAlias).take 5 =
      ["args", "break", "breakpoints", "clear", "clearall"] :=
  ⟨⟨⟨recordedClient, rfl, rfl⟩, ⟨sampleClient, rfl, rfl⟩⟩,
   (DebugCommands_sorted_by_first_alias (some recordedClient)).2.2.1
     (Or.inr ⟨recordedClient, rfl, rfl⟩),
   (DebugCommands_sorted_by_first_alias (some sampleClient)).2.2.2 ⟨sampleClient, rfl, rfl⟩,
   by decide, by decide⟩

/-! ## Lemmas on the display of the last state -/

theorem cont_shows_last_state (t : Term) (ctx : callContext) (args : String)
    (final : api.DebuggerState) (th : api.Thread)
    (hgood : ∀ x ∈ t.client.Continue t.view, x.Err = none)
    (hshown : ∀ x ∈ t.client.Continue t.view, printcontextPanics x = false)
    (hlast : (t.client.Continue t.view).getLast? = some final)
    (hth : final.CurrentThread = some th) :
    cont t ctx args =
      (t.extend ([.call .Continue] ++ (t.client.Continue t.view).map .printcontext ++
        [.printfile th.File th.Line true]), .ok) := by
  simp only [cont, rangeStates_clean _ _ _ hgood hshown, hlast, showCurrentLine_some, hth,
    Term.record_eq_extend, Term.extend_extend]

theorem continueLoop_safe (op : String) :
    ∀ (fuel : Nat) (t : Term),
      (∀ i, nthStream t.client t.view i ≠ [] ∧
        (∀ x ∈ nthStream t.client t.view i, x.Err = none) ∧
        (∀ x ∈ nthStream t.client t.view i, printcontextPanics x = false) ∧
        ∀ x, (nthStream t.client t.view i).getLast? = some x → x.CurrentThread ≠ none) →
      ∀ r, continueLoop fuel t op = some r → r.2 = .ok := by
  intro fuel
  induction fuel with
  | zero =>
    intro t _ r h
    simp [continueLoop] at h
  | succ f ih =>
    intro t hgood r h
    have hσ : nthStream t.client t.view 0 = t.client.Continue t.view := by simp [nthStream]
    have hg := hgood 0
    rw [hσ] at hg
    obtain ⟨x, hx⟩ := getLast_some_of_ne_nil _ hg.1
    have hth := hg.2.2.2 x hx
    simp only [continueLoop, rangeStates_clean _ _ _ hg.2.1 hg.2.2.1, hx,
      Term.record_eq_extend, Term.extend_extend] at h
    cases hflag : x.NextInProgress with
    | false =>
      simp only [hflag, Bool.not_false, if_true, Option.some.injEq] at h
      subst h
      rw [showCurrentLine_some]
      cases hct : x.CurrentThread with
      | none => exact absurd hct hth
      | some th => rfl
    | true =>
      simp only [hflag, Bool.not_true, Bool.false_eq_true, if_false] at h
      refine ih _ ?_ r h
      intro i
      have hv : (t.extend ([.call .Continue] ++
          (t.client.Continue t.view).map .printcontext ++
          [.print ("\tbreakpoint hit during " ++ op ++ ", continuing...\n")])).view
          = t.view ++ [.Continue] := by
        simp [Term.extend_view, List.filterMap_append, printcontext_requests, Event.toRequest]
      rw [hv, Term.extend_client, nthStream_succ]
      exact hgood (i + 1)

theorem continueLoop_spins (op : String) :
    ∀ (fuel : Nat) (t : Term),
      (∀ i, nthStream t.client t.view i ≠ [] ∧
        (∀ x ∈ nthStream t.client t.view i, x.Err = none) ∧
        (∀ x ∈ nthStream t.client t.view i, printcontextPanics x = false) ∧
        ∀ x, (nthStream t.client t.view i).getLast? = some x → x.NextInProgress = true) →
      continueLoop fuel t op = none := by
  intro fuel
  induction fuel with
  | zero =>
    intro t _
    rfl
  | succ f ih =>
    intro t hgood
    have hσ : nthStream t.client t.view 0 = t.client.Continue t.view := by simp [nthStream]
    have hg := hgood 0
    rw [hσ] at hg
    obtain ⟨x, hx⟩ := getLast_some_of_ne_nil _ hg.1
    have hflag := hg.2.2.2 x hx
    simp only [continueLoop, rangeStates_clean _ _ _ hg.2.1 hg.2.2.1, hx, hflag,
      Term.record_eq_extend, Term.extend_extend]
    simp only [Bool.not_true, Bool.false_eq_true, if_false]
    apply ih
    intro i
    have hv : (t.extend ([.call .Continue] ++
        (t.client.Continue t.view).map .printcontext ++
        [.print ("\tbreakpoint hit during " ++ op ++ ", continuing...\n")])).view
        = t.view ++ [.Continue] := by
      simp [Term.extend_view, List.filterMap_append, printcontext_requests, Event.toRequest]
    rw [hv, Term.extend_client, nthStream_succ]
    exact hgood (i + 1)

/-! ## C26: the current thread of the last state -/

/-- C26, amended: when the stream of `Continue` yields at least one state, carries no error,
its states can be displayed (`printcontext` does not panic on them) and its last state has a
current thread, `cont` displays the states and then the file and line of that thread, and
returns nil: no nil dereference is reached. When the state of the initial operation has a
current thread and the stream of every `Continue` is such a stream,
`continueUntilCompleteNext` never reaches a nil dereference and never returns an error:
whenever it returns, it returns nil; it returns, with enough fuel, as soon as a state is found
with the flag false; and it does not return, whatever the fuel, when the flag is true on the
state of the initial operation and on the last state of every stream. -/
theorem current_thread_makes_display_safe (t : Term) (ctx : callContext) (args : String) :
    (∀ final th, (∀ x ∈ t.client.Continue t.view, x.Err = none) →
      (∀ x ∈ t.client.Continue t.view, printcontextPanics x = false) →
      (t.client.Continue t.view).getLast? = some final → final.CurrentThread = some th →
      cont t ctx args =
        (t.extend ([.call .Continue] ++ (t.client.Continue t.view).map .printcontext ++
          [.printfile th.File th.Line true]), .ok)) ∧
    (∀ (op : String) (s0 : api.DebuggerState), s0.CurrentThread ≠ none →
      (∀ i, nthStream t.client t.view i ≠ [] ∧
        (∀ x ∈ nthStream t.client t.view i, x.Err = none) ∧
        (∀ x ∈ nthStream t.client t.view i, printcontextPanics x = false) ∧
        ∀ x, (nthStream t.client t.view i).getLast? = some x → x.CurrentThread ≠ none) →
      (∀ fuel r, continueUntilCompleteNext fuel t s0 op = some r → r.2 = .ok) ∧
      (∀ (k fuel : Nat) (final : api.DebuggerState),
        (∀ j, j < k →
          (finalStateAt t.client t.view s0 j).map (fun s => s.NextInProgress) = some true) →
        finalStateAt t.client t.view s0 k = some final → final.NextInProgress = false →
        k ≤ fuel →
        ∃ t1, continueUntilCompleteNext fuel t s0 op = some (t1, .ok)) ∧
      ((∀ j, (finalStateAt t.client t.view s0 j).map (fun s => s.NextInProgress)
          = some true) →
        ∀ fuel, continueUntilCompleteNext fuel t s0 op = none)) := by
  refine ⟨?_, ?_⟩
  · intro final th hgood hshown hlast hth
    exact cont_shows_last_state t ctx args final th hgood hshown hlast hth
  · intro op s0 hs0 hgood
    refine ⟨?_, ?_, ?_⟩
    · intro fuel r hr
      cases hflag : s0.NextInProgress with
      | false =>
        simp only [continueUntilCompleteNext, hflag, Bool.not_false, if_true,
          Option.some.injEq] at hr
        subst hr
        rw [showCurrentLine_some]
        cases hct : s0.CurrentThread with
        | none => exact absurd hct hs0
        | some th => rfl
      | true =>
        simp only [continueUntilCompleteNext, hflag, Bool.not_true, Bool.false_eq_true,
          if_false] at hr
        exact continueLoop_safe op fuel t hgood r hr
    · intro k fuel final htrue hfinal hfalse hfuel
      obtain ⟨d0, hd, _, _⟩ := continueUntilCompleteNext_completes op t s0 final k fuel
        (fun i _ => ⟨(hgood i).1, (hgood i).2.1, (hgood i).2.2.1⟩) htrue hfinal hfalse hfuel
      have hth : final.CurrentThread ≠ none := by
        cases k with
        | zero =>
          simp only [finalStateAt, Option.some.injEq] at hfinal
          rw [← hfinal]
          exact hs0
        | succ n =>
          simp only [finalStateAt] at hfinal
          exact (hgood n).2.2.2 final hfinal
      rw [hd, showCurrentLine_some]
      cases hct : final.CurrentThread with
      | none => exact absurd hct hth
      | some th => exact ⟨_, rfl⟩
    · intro hall fuel
      have h0 := hall 0
      simp only [finalStateAt, Option.map_some', Option.some.injEq] at h0
      simp only [continueUntilCompleteNext, h0, Bool.not_true, Bool.false_eq_true, if_false]
      apply continueLoop_spins op fuel t
      intro i
      refine ⟨(hgood i).1, (hgood i).2.1, (hgood i).2.2.1, ?_⟩
      intro x hx
      have h := hall (i + 1)
      simp only [finalStateAt, hx, Option.map_some', Option.some.injEq] at h
      exact h

/-- C26 amended, at concrete inputs: on the sample service the stream of `Continue` is one
state at line 20 with a current thread, and `cont` displays it and returns nil; on the busy
service every stream is one state with a current thread, the step is complete after the
second `Continue`, and `continueUntilCompleteNext` returns nil with fuel 2. -/
theorem current_thread_makes_display_safe_witness :
    ((∀ x ∈ sampleTerm.client.Continue sampleTerm.view, x.Err = none) ∧
      (∀ x ∈ sampleTerm.client.Continue sampleTerm.view, printcontextPanics x = false) ∧
      (sampleTerm.client.Continue sampleTerm.view).getLast? = some (sampleState false 20) ∧
      (sampleState true 10).CurrentThread ≠ none ∧
      (∀ i, nthStream busyTerm.client busyTerm.view i ≠ [] ∧
        (∀ x ∈ nthStream busyTerm.client busyTerm.view i, x.Err = none) ∧
        (∀ x ∈ nthStream busyTerm.client busyTerm.view i, printcontextPanics x = false) ∧
        ∀ x, (nthStream busyTerm.client busyTerm.view i).getLast? = some x →
          x.CurrentThread ≠ none) ∧
      finalStateAt busyTerm.client busyTerm.view (sampleState true 10) 2
        = some (sampleState false 30)) ∧
    cont sampleTerm plainContext "" =
      (sampleTerm.extend [.call .Continue, .printcontext (sampleState false 20),
        .printfile "main.go" 20 true], .ok) ∧
    ∃ t1, continueUntilCompleteNext 2 busyTerm (sampleState true 10) "next" = some (t1, .ok) :=
  have hbusy : ∀ i, nthStream busyTerm.client busyTerm.view i ≠ [] ∧
      (∀ x ∈ nthStream busyTerm.client busyTerm.view i, x.Err = none) ∧
      (∀ x ∈ nthStream busyTerm.client busyTerm.view i, printcontextPanics x = false) ∧
      ∀ x, (nthStream busyTerm.client busyTerm.view i).getLast? = some x →
        x.CurrentThread ≠ none := by
    intro i
    have hi : nthStream busyTerm.client busyTerm.view i = [sampleState true 20] ∨
        nthStream busyTerm.client busyTerm.view i = [sampleState false 30] := by
      cases i with
      | zero => exact Or.inl rfl
      | succ n =>
        right
        simp [nthStream, busyTerm, busyClient, sampleTerm, Term.view, List.replicate_succ]
    rcases hi with h | h <;> rw [h] <;> decide
  have hsample : ∀ x ∈ sampleTerm.client.Continue sampleTerm.view, x.Err = none := by decide
  have hshown : ∀ x ∈ sampleTerm.client.Continue sampleTerm.view,
      printcontextPanics x = false := by decide
  ⟨⟨hsample, hshown, rfl, by decide, hbusy, rfl⟩,
   (current_thread_makes_display_safe sampleTerm plainContext "").1 (sampleState false 20)
     ⟨1, 4096, "main.go", 20, some ⟨"main.worker", false⟩, 1, none, none⟩ hsample hshown
     rfl rfl,
   ((current_thread_makes_display_safe busyTerm plainContext "").2 "next"
     (sampleState true 10) (by decide) hbusy).2.1 2 2 (sampleState false 30)
     (by
       intro j hj
       have hj0 : j = 0 ∨ j = 1 := by omega
       rcases hj0 with rfl | rfl <;> rfl)
     rfl rfl (le_refl _)⟩

/-- C26 as stated fails, in three ways. On the spinning service every stream of `Continue` is
one state, without an error and with a current thread, on which the step is still in
progress: the precondition holds on every stream, and `continueUntilCompleteNext` does not
return, whatever the fuel: it is not total. On the sample service every stream is one state
without an error and with a current thread, and on the state `idleState` of an initial
operation, which has no current thread and on which no step is in progress,
`continueUntilCompleteNext` dereferences the nil thread and panics. On the bare service the
stream of `Continue` is one state without an error, whose current thread has a file and no
function: `printcontextThread` dereferences the nil function and `cont` panics. -/
theorem continueUntilCompleteNext_spins :
    ((∀ i, nthStream spinningClient [] i = [sampleState true 20]) ∧
      (sampleState true 20).Err = none ∧
      (sampleState true 20).CurrentThread ≠ none ∧
      (sampleState true 10).CurrentThread ≠ none ∧
      ∀ fuel, continueUntilCompleteNext fuel spinningTerm (sampleState true 10) "next"
        = none) ∧
    ((∀ i, nthStream sampleClient [] i = [sampleState false 20] ∨
        nthStream sampleClient [] i = [sampleState false 30]) ∧
      (sampleState false 20).Err = none ∧ (sampleState false 20).CurrentThread ≠ none ∧
      (sampleState false 30).Err = none ∧ (sampleState false 30).CurrentThread ≠ none ∧
      idleState.CurrentThread = none ∧
      ∀ fuel, continueUntilCompleteNext fuel sampleTerm idleState "next"
        = some (sampleTerm, .panic)) ∧
    ((∀ v, bareClient.Continue v = [bareState false]) ∧
      (bareState false).Err = none ∧ (bareState false).CurrentThread ≠ none ∧
      cont bareTerm plainContext "" =
        (bareTerm.extend [.call .Continue, .printcontext (bareState false)], .panic)) := by
  refine ⟨⟨fun _ => rfl, rfl, by decide, by decide, ?_⟩,
    ⟨?_, rfl, by decide, rfl, by decide, rfl, fun _ => rfl⟩,
    ⟨fun _ => rfl, rfl, by decide, rfl⟩⟩
  · intro fuel
    have h0 : (sampleState true 10).NextInProgress = true := rfl
    simp only [continueUntilCompleteNext, h0, Bool.not_true, Bool.false_eq_true, if_false]
    apply continueLoop_spins "next" fuel spinningTerm
    intro i
    have hi : nthStream spinningTerm.client spinningTerm.view i = [sampleState true 20] := rfl
    rw [hi]
    decide
  · intro i
    cases i with
    | zero => exact Or.inl rfl
    | succ n =>
      right
      simp [nthStream, sampleClient, List.replicate_succ]

end Delve
